import Mathlib

/-!
Hercules `hscmisc.c`: storage display and alteration commands.

A shallow embedding of the operand parser (`parse_range`), the storage
accessors (`display_real`, `dump_abs_page`), the context copy (`copy_regs`),
the address translation front end (`virt_to_real`) and the alter/display
command processors (`alter_display_real_or_abs`, `alter_display_virt`) of
`hscmisc.c`, z/Architecture build (`feat900.h`), followed by theorems about
them.

Conventions
* a C string is a `List Char` (the characters before the terminating NUL);
* `U64`, `RADR`, `VADR` and `size_t` values are naturals below `2^64`, every
  addition and subtraction of the source is reduced modulo `2^64`;
* main storage is a function from absolute address to byte;
* operator messages (`WRMSG`) are collected in a list of `Msg` values;
* `REGS` structures are reached through `RegsPtr` pointers into a
  `RegsStore`, where a function follows the links between them.
-/

namespace Hscmisc

/-! ## Machine arithmetic -/

/-- Modulus of 64-bit unsigned arithmetic. -/
def U64_MOD : Nat := 18446744073709551616

/-- Unsigned 64-bit addition. -/
def add64 (a b : Nat) : Nat := (a + b) % U64_MOD

/-- Unsigned 64-bit subtraction. -/
def sub64 (a b : Nat) : Nat := (a + (U64_MOD - b % U64_MOD)) % U64_MOD

/-! ## C library pieces used by the parser -/

/-- C `isspace` in the "C" locale. -/
def isspace (c : Char) : Bool :=
  c.toNat = 32 || (9 ≤ c.toNat && c.toNat ≤ 13)

/-- C `isxdigit`. -/
def isxdigit (c : Char) : Bool :=
  (48 ≤ c.toNat && c.toNat ≤ 57) || (65 ≤ c.toNat && c.toNat ≤ 70) ||
  (97 ≤ c.toNat && c.toNat ≤ 102)

/-- Value of a hexadecimal digit character as `strtoull` reads it. -/
def xdigit_value (c : Char) : Nat :=
  if 48 ≤ c.toNat ∧ c.toNat ≤ 57 then c.toNat - 48
  else if 97 ≤ c.toNat ∧ c.toNat ≤ 102 then c.toNat - 87
  else c.toNat - 55

/-- C `toupper` in the "C" locale, on character codes. -/
def toupper (h : Nat) : Nat := if 97 ≤ h ∧ h ≤ 122 then h - 32 else h

/-- C `strchr`: the suffix of the string that starts at the first `c`. -/
def strchr : List Char → Char → Option (List Char)
  | [], _ => none
  | x :: rest, c => if x = c then some (x :: rest) else strchr rest c

/-- Digit accumulation of a `%llx` conversion: consumes the leading run of
hexadecimal digits, returns the accumulated value and the unread input. -/
def scan_digits : List Char → Nat → Nat × List Char
  | [], acc => (acc, [])
  | c :: rest, acc =>
    if isxdigit c then scan_digits rest (acc * 16 + xdigit_value c)
    else (acc, c :: rest)

/-- One `%llx` conversion of `sscanf`: leading white space is skipped, an
optional sign and an optional `0x`/`0X` prefix are accepted, then at least
one hexadecimal digit is required.  A value that does not fit in 64 bits is
stored as `ULLONG_MAX` (the `strtoull` rule).  `none` is a matching or input
failure. -/
def scan_llx (s : List Char) : Option (Nat × List Char) :=
  let s1 := s.dropWhile isspace
  let neg : Bool := match s1 with
    | c :: _ => c = '-'
    | [] => false
  let s2 := match s1 with
    | c :: r => if c = '-' ∨ c = '+' then r else s1
    | [] => s1
  let s3 := match s2 with
    | c0 :: cx :: r => if c0 = '0' ∧ (cx = 'x' ∨ cx = 'X') then r else s2
    | _ => s2
  match s3 with
  | [] => none
  | c :: _ =>
    if isxdigit c then
      let r := scan_digits s3 0
      let v := if U64_MOD ≤ r.1 then U64_MOD - 1 else r.1
      some (if neg then sub64 0 v else v, r.2)
    else none

/-- What `sscanf(operand, "%llx%c%llx%c", &opnd1, &delim, &opnd2, &c)` leaves
behind: the return code and the four receiving variables.  A variable that
is not assigned keeps the value `0` here (in C it is uninitialised; the
parser never lets such a value reach its result). -/
structure Scanned where
  rc : Int
  opnd1 : Nat
  delim : Char
  opnd2 : Nat
  c : Char
deriving Repr, DecidableEq

/-- The `sscanf` call of `parse_range`. -/
def sscanf_range (operand : List Char) : Scanned :=
  match scan_llx operand with
  | none =>
    ⟨if operand.dropWhile isspace = [] then -1 else 0, 0, Char.ofNat 0, 0, Char.ofNat 0⟩
  | some (v1, r1) =>
    match r1 with
    | [] => ⟨1, v1, Char.ofNat 0, 0, Char.ofNat 0⟩
    | d :: r2 =>
      match scan_llx r2 with
      | none => ⟨2, v1, d, 0, Char.ofNat 0⟩
      | some (v2, r3) =>
        match r3 with
        | [] => ⟨3, v1, d, v2, Char.ofNat 0⟩
        | c :: _ => ⟨4, v1, d, v2, c⟩

/-! ## parse_range -/

/-- Hexadecimal digit conversion of the alteration loop:
`h = toupper(h); h = (h >= '0' && h <= '9') ? h - '0' :
 (h >= 'A' && h <= 'F') ? h - 'A' + 10 : -1`. -/
def hex_nibble (h : Nat) : Int :=
  let u := toupper h
  if 48 ≤ u ∧ u ≤ 57 then (u : Int) - 48
  else if 65 ≤ u ∧ u ≤ 70 then (u : Int) - 65 + 10
  else -1

/-- The `while (1)` loop of the hexadecimal alteration operand.  The first
argument is the text after the `=`, the second the bytes stored in `newval`
so far (`n` is its length).  `none` is `return -1`. -/
def alter_loop : List Char → List Nat → Option (List Nat)
  | [], acc => some acc
  | c :: rest, acc =>
    if c = '#' then some acc
    else if c = ' ' ∨ c = '\t' then alter_loop rest acc
    else if hex_nibble c.toNat < 0 then none
    else
      match rest with
      | [] => none
      | c2 :: rest2 =>
        if hex_nibble c2.toNat < 0 then none
        else if 32 ≤ acc.length then none
        else alter_loop rest2
          (acc ++ [((hex_nibble c.toNat).toNat <<< 4) ||| (hex_nibble c2.toNat).toNat])

/-- Successful result of `parse_range`: the return value `n` (0 = display,
positive = number of bytes to alter), `*sadrp`, `*eadrp` and the first `n`
bytes of `newval`. -/
structure Range where
  n : Nat
  saddr : Nat
  eaddr : Nat
  newval : List Nat
deriving Repr, DecidableEq

/-- The function `parse_range` of `hscmisc.c`.  `operand = none` is the NULL
pointer, `newval` tells whether the `newval` buffer pointer is non-NULL,
`h2g` is the `host_to_guest` code page translation.  `none` is the return
value `-1` (an error message was issued). -/
def parse_range (h2g : Char → Nat) (operand : Option (List Char)) (maxadr : Nat)
    (newval : Bool) : Option Range :=
  match operand with
  | none => none
  | some operand =>
    let sc := sscanf_range operand
    let quoted : Option (List Char) :=
      if sc.rc = 2 ∧ sc.delim = '=' ∧ newval then
        match strchr operand '=' with
        | some (_ :: q :: str) => if q = '"' ∨ q = '\'' then some str else none
        | _ => none
      else none
    match quoted with
    | some str =>
      if str.length = 0 then none
      else if 32 < str.length then none
      else
        some ⟨str.length, sc.opnd1, sub64 (add64 sc.opnd1 str.length) 1, str.map h2g⟩
    | none =>
      let body : Option (Nat × Nat × Nat × List Nat) :=
        if 2 < sc.rc ∧ sc.delim = '=' ∧ newval then
          match strchr operand '=' with
          | some (_ :: s) =>
            match alter_loop s [] with
            | none => none
            | some bytes =>
              some (bytes.length, sc.opnd1, sub64 (add64 sc.opnd1 bytes.length) 1, bytes)
          | _ => none
        else if sc.rc = 1 then
          let eaddr := add64 sc.opnd1 0x3F
          some (0, sc.opnd1, if maxadr < eaddr then maxadr else eaddr, [])
        else if sc.rc ≠ 3 ∨ ¬ (sc.delim = '-' ∨ sc.delim = '.') then none
        else
          some (0, sc.opnd1,
            if sc.delim = '.' then sub64 (add64 sc.opnd1 sc.opnd2) 1 else sc.opnd2, [])
      match body with
      | none => none
      | some (n, saddr, eaddr, bytes) =>
        if maxadr < saddr ∨ maxadr < eaddr ∨ eaddr < saddr then none
        else some ⟨n, saddr, eaddr, bytes⟩

/-! ## Processor context and storage -/

/-- Modelled from the spec: `PAGEFRAME_PAGESIZE` is declared in a header that
is not among the sources; the page frame of the z/Architecture build is 4K
bytes. -/
def PAGEFRAME_PAGESIZE : Nat := 4096

/-- Modelled from the spec: `PAGEFRAME_BYTEMASK` (header not among the
sources), the mask of the byte index within a page frame. -/
def PAGEFRAME_BYTEMASK : Nat := 0xFFF

/-- Modelled from the spec: `PAGEFRAME_PAGEMASK` (header not among the
sources), the 64-bit mask of the page frame address. -/
def PAGEFRAME_PAGEMASK : Nat := 0xFFFFFFFFFFFFF000

/-- Modelled from the spec: `_64_KILOBYTE` (header not among the sources),
the fixed maximum of the displayed amount, 64 KiB. -/
def _64_KILOBYTE : Nat := 65536

/-- Modelled from the spec: mask of the prefix area in the `APPLY_PREFIXING`
macro (header not among the sources); the z/Architecture prefix area is the
8K block selected by the prefix register. -/
def PREFIX_AREA_MASK : Nat := 0xFFFFFFFFFFFFE000

/-- Modelled from the spec: the `APPLY_PREFIXING` macro is defined in a
header that is not among the sources.  Prefixing exchanges the leading
storage block with the block designated by the prefix register, by XOR with
the prefix value; every other address is unchanged. -/
def APPLY_PREFIXING (addr pfx : Nat) : Nat :=
  if addr &&& PREFIX_AREA_MASK = 0 ∨ addr &&& PREFIX_AREA_MASK = pfx then addr ^^^ pfx
  else addr

/-- Modelled from the spec: the `LIMIT_RANGE` macro is defined in a header
that is not among the sources.  It clamps the range `[saddr, eaddr]` to at
most `limit` bytes by lowering `eaddr`; the result is the new `eaddr`. -/
def LIMIT_RANGE (saddr eaddr limit : Nat) : Nat :=
  if limit - 1 < sub64 eaddr saddr then add64 saddr (limit - 1) else eaddr

/-- A pointer to a `REGS` structure: `NULL`, a structure of the running
configuration, or one of the two structures of the block that a call of
`copy_regs` allocates (`newregs` and `hostregs = newregs + 1`). -/
inductive RegsPtr where
  | NULL
  | live (n : Nat)
  | newregs
  | hostregs
deriving Repr, DecidableEq

/-- The part of the `REGS` processor context that the storage commands use:
the prefix register, the storage limit `mainlim`, main storage itself (byte
at each absolute address), and for a SIE guest (`SIE_MODE(regs)`) the
storage limit of the host context (`HOSTREGS->mainlim`); and the part that
`copy_regs` sets: the virtual addresses of the translation lookaside buffer
(`tlb.vaddr[TLBN]`), `tlbID`, the flags `ghostregs` and `sie_active`, and the
links `HOST(regs)` and `GUEST(regs)`; and the part that the instruction
display and the disassembly read: the general registers `GR(r)`, the vector
register elements `VR_D(v, m)` and `VR_F(v, m)`, the addressing mode mask
`psw.AMASK`, whether the PSW is in real mode (DAT off), and, as `ip`, the
address of the instruction that `regs->ip` points to. -/
structure REGS where
  PX : Nat
  mainlim : Nat
  mainstor : Nat → Nat
  sie_mode : Bool := false
  hostregs_mainlim : Nat := 0
  tlb_vaddr : List Nat := []
  tlbID : Nat := 0
  ghostregs : Nat := 0
  sie_active : Nat := 0
  host : RegsPtr := RegsPtr.NULL
  guest : RegsPtr := RegsPtr.NULL
  GR : Nat → Nat := fun _ => 0
  VR_D : Nat → Nat → Nat := fun _ _ => 0
  VR_F : Nat → Nat → Nat := fun _ _ => 0
  psw_AMASK : Nat := 0xFFFFFFFFFFFFFFFF
  psw_real_mode : Bool := true
  ip : Nat := 0

/-- Index of the z/Architecture mode in `sysblk.arch_mode`. -/
def ARCH_900_IDX : Nat := 2

/-- The part of the system block that the storage commands use. -/
structure SYSBLK where
  arch_mode : Nat

/-- One byte shown by a storage display: the address it is labelled with,
the absolute address it was fetched from, and its value. -/
structure DumpByte where
  label : Nat
  abs : Nat
  val : Nat
deriving Repr, DecidableEq

/-- Operator messages issued by the storage commands (`WRMSG`). -/
inductive Msg where
  /-- HHC17000 "Missing or invalid argument(s)". -/
  | HHC17000
  /-- The error message issued by `parse_range` before it returns -1. -/
  | parse_error
  /-- HHC02219 "Error in function dump_abs_page(): invalid parameters". -/
  | HHC02219
  /-- HHC02290/HHC02291 "E": addressing exception in `dump_abs_page`. -/
  | dump_addr_exception (vra : Char) (adr : Nat)
  /-- HHC02290/HHC02291 "I": the hexadecimal dump of part of one page. -/
  | dump (vra : Char) (bytes : List DumpByte)
  /-- HHC02327 "Storage address is not valid". -/
  | HHC02327 (c : Char) (saddr : Nat)
  /-- HHC02328 "Addressing exception". -/
  | HHC02328 (c : Char) (addr : Nat)
  /-- HHC02329 "Translation exception". -/
  | HHC02329 (vaddr : Nat) (xcode : Nat)
  /-- HHC02290/HHC02291 "I": the storage key line of a page. -/
  | key_line (addr : Nat)
  /-- HHC00075 "Error in function malloc()", issued by `copy_regs`. -/
  | HHC00075
  /-- HHC02289 "Real address is not valid". -/
  | HHC02289_not_valid
  /-- HHC02289 "Storage not accessible code = ...". -/
  | HHC02289_not_accessible (saddr : Nat) (xcode : Nat)
  /-- HHC02289 "Addressing exception". -/
  | HHC02289_addressing (addr : Nat)
  /-- HHC02289: one disassembled instruction, with the indication of how
  its address was translated, its real address and its bytes. -/
  | HHC02289_inst (stid : Int) (raddr : Nat) (inst : List Nat)
deriving Repr, DecidableEq

/-- Whether a message is a storage dump. -/
def Msg.is_dump : Msg → Bool
  | Msg.dump _ _ => true
  | _ => false

/-- The storage bytes shown by a list of messages, in order. -/
def shown_bytes : List Msg → List DumpByte
  | [] => []
  | Msg.dump _ bs :: rest => bs ++ shown_bytes rest
  | _ :: rest => shown_bytes rest

/-! ## display_real -/

/-- The `for (i = 0; i < 16; i++)` loop of `display_real`: fetches the byte
at `aaddr`, increments `aaddr`, and leaves the loop when the incremented
address is on a page boundary.  The first argument is `16 - i`. -/
def display_real_loop (mainstor : Nat → Nat) : Nat → Nat → List DumpByte
  | 0, _ => []
  | k + 1, aaddr =>
    ⟨aaddr, aaddr, mainstor aaddr⟩ ::
      (if add64 aaddr 1 &&& PAGEFRAME_BYTEMASK = 0 then []
       else display_real_loop mainstor k (add64 aaddr 1))

/-- What `display_real` renders: either the "not valid" text, or the storage
bytes of the line. -/
inductive RealLine where
  | not_valid
  | bytes (bs : List DumpByte)
deriving Repr, DecidableEq

/-- The function `display_real` of `hscmisc.c` (z/Architecture build, which
has no interval timer). -/
def display_real (regs : REGS) (raddr : Nat) : RealLine :=
  let aaddr := APPLY_PREFIXING raddr regs.PX
  if regs.sie_mode then
    if regs.hostregs_mainlim = 0 ∨ regs.hostregs_mainlim < aaddr then RealLine.not_valid
    else RealLine.bytes (display_real_loop regs.mainstor 16 aaddr)
  else if regs.mainlim = 0 ∨ regs.mainlim < aaddr then RealLine.not_valid
  else RealLine.bytes (display_real_loop regs.mainstor 16 aaddr)

/-! ## dump_abs_page -/

/-- The function `dump_abs_page` of `hscmisc.c`: return code and messages.
`vra` is `Char.ofNat 0` for the virtual display.  `hexdumpew` formats the
`amt` bytes that start at `mainstor + aaddr + offset`; the byte at index `j`
appears at cosmetic address `(adr + offset & ~0xF) + (offset & 0xF) + j`.
(The z/Architecture build has no interval timer, `ITIMER_SYNC` is empty;
the `hexdumpew` buffer allocation is taken to succeed.) -/
def dump_abs_page (regs : REGS) (aaddr adr offset amt : Nat) (vra : Char) (wid : Nat) :
    Int × List Msg :=
  if aaddr &&& PAGEFRAME_BYTEMASK ≠ 0
      ∨ adr &&& PAGEFRAME_BYTEMASK ≠ 0
      ∨ PAGEFRAME_PAGESIZE ≤ offset
      ∨ PAGEFRAME_PAGESIZE - offset < amt
      ∨ (wid ≠ 32 ∧ wid ≠ 64) then
    (-1, [Msg.HHC02219])
  else if regs.mainlim < aaddr then
    (-1, [Msg.dump_addr_exception (if vra.toNat ≠ 0 then vra else 'V') adr])
  else
    let adr16 := add64 adr offset &&& 0xFFFFFFFFFFFFFFF0
    let off16 := offset &&& 0xF
    (0, [Msg.dump (if vra.toNat ≠ 0 then vra else 'V')
          ((List.range amt).map fun j =>
            ⟨add64 (add64 adr16 off16) j, aaddr + offset + j,
             regs.mainstor (aaddr + offset + j)⟩)])

/-! ## copy_regs -/

/-- The `REGS` structures in memory, by address. -/
abbrev RegsStore := RegsPtr → Option REGS

/-- Memory after the structure at `p` has been written. -/
def RegsStore.set (mem : RegsStore) (p : RegsPtr) (r : REGS) : RegsStore :=
  fun q => if q = p then some r else mem q

/-- The structure `*newregs` as `copy_regs` builds it from `*regs`: the
copy (`memcpy` of `sysblk.regs_copy_len` bytes, which stops before the
translation lookaside buffer), the cleared `tlb.vaddr` array, the
assignments that follow, and the links set for a SIE guest. -/
def copy_regs_newregs (regs : REGS) : REGS :=
  let newregs : REGS := { regs with tlb_vaddr := regs.tlb_vaddr.map fun _ => 0 }
  let newregs : REGS :=
    { newregs with
      tlbID := 1, ghostregs := 1, host := RegsPtr.newregs, guest := RegsPtr.NULL,
      sie_active := 0 }
  if newregs.sie_mode then
    { newregs with host := RegsPtr.hostregs, guest := RegsPtr.newregs }
  else newregs

/-- The structure `*hostregs` (`newregs + 1`) as `copy_regs` builds it from
`*HOSTREGS` for a SIE guest. -/
def copy_regs_hostregs (HOSTREGS : REGS) : REGS :=
  let hostregs : REGS := { HOSTREGS with tlb_vaddr := HOSTREGS.tlb_vaddr.map fun _ => 0 }
  { hostregs with
    tlbID := 1, ghostregs := 1, host := RegsPtr.hostregs, guest := RegsPtr.newregs }

/-- The function `copy_regs` of `hscmisc.c`.  `malloc_ok` tells whether
`malloc_aligned` returns a block; the result is the memory afterwards, the
messages issued and the pointer returned.  `none`: `regs`, or `HOSTREGS` of
a SIE guest, points to no structure. -/
def copy_regs (malloc_ok : Bool) (mem : RegsStore) (regs : RegsPtr) :
    Option (RegsStore × List Msg × RegsPtr) :=
  match mem regs with
  | none => none
  | some r =>
    if malloc_ok = false then some (mem, [Msg.HHC00075], RegsPtr.NULL)
    else if r.sie_mode then
      match mem r.host with
      | none => none
      | some HOSTREGS =>
        some ((mem.set RegsPtr.hostregs (copy_regs_hostregs HOSTREGS)).set RegsPtr.newregs
          (copy_regs_newregs r), [], RegsPtr.newregs)
    else some (mem.set RegsPtr.newregs (copy_regs_newregs r), [], RegsPtr.newregs)

/-! ## Address translation -/

/-- Modelled from the spec: the access-space selector passed as `arn`
(an access register number, or one of the `USE_..._SPACE` constants, whose
header is not among the sources). -/
inductive Arn where
  | ar (n : Nat)
  | USE_INST_SPACE
  | USE_REAL_ADDR
  | USE_PRIMARY_SPACE
  | USE_SECONDARY_SPACE
  | USE_HOME_SPACE
deriving Repr, DecidableEq

/-- Modelled from the spec: the access types `ACCTYPE_...` (header not among
the sources). -/
inductive AccType where
  | ACCTYPE_INSTFETCH
  | ACCTYPE_READ
  | ACCTYPE_WRITE
  | ACCTYPE_LRA
  | ACCTYPE_HW
deriving Repr, DecidableEq

/-- What `virt_to_real` hands back: its return value (0, or the program
interruption code that `logical_to_main_l` raised through `longjmp`), the
real address `HOSTREGS->dat.raddr` and the indication `regs->dat.stid`. -/
structure Xlated where
  icode : Nat
  raddr : Nat
  stid : Int
deriving Repr, DecidableEq

/-- The dynamic address translation routine `logical_to_main_l`, which is
not part of `hscmisc.c`: arguments are the working copy of the context, the
virtual address, the access-space selector, the access type, the access key
and the access length. -/
abbrev Translator := REGS → Nat → Arn → AccType → Nat → Nat → Xlated

/-- The function `virt_to_real` of `hscmisc.c`, as the storage commands use
it.  The translation runs on the temporary copy of `iregs` that `copy_regs`
builds, which has the same prefix, storage limit and storage as `iregs`;
the copy is discarded afterwards.  The allocation of the copy is taken to
succeed here; `virt_to_real_alloc` is the function with the allocation and
the pointers made explicit. -/
def virt_to_real (logical_to_main_l : Translator) (vaddr : Nat) (arn : Arn) (iregs : REGS)
    (acctype : AccType) : Xlated :=
  let regs := copy_regs_newregs iregs
  let temp_arn := if acctype = AccType.ACCTYPE_INSTFETCH then Arn.USE_INST_SPACE else arn
  logical_to_main_l regs vaddr temp_arn acctype 0 1

/-- Modelled from the spec: one run of `logical_to_main_l`, which is not
part of `hscmisc.c`.  It returns (`pgmint = none`), or it raises a program
interruption, which leaves through `longjmp(regs->progjmp, code)`
(`pgmint = some code`); `raddr` is `HOSTREGS->dat.raddr` and `stid` is
`regs->dat.stid` afterwards. -/
structure Translation where
  pgmint : Option Nat
  raddr : Nat
  stid : Int
deriving Repr, DecidableEq

/-- The routine `logical_to_main_l` with the way it ends made explicit. -/
abbrev Dat := REGS → Nat → Arn → AccType → Nat → Nat → Translation

/-- The value of `setjmp(regs->progjmp)` in `virt_to_real`: 0 at the call,
and after `longjmp(env, val)` the value `val`, or 1 if `val` is 0. -/
def setjmp (pgmint : Option Nat) : Nat :=
  match pgmint with
  | none => 0
  | some val => if val = 0 then 1 else val

/-- The translator that a `logical_to_main_l` routine gives when it is run
under the `setjmp` of `virt_to_real`. -/
def Dat.translator (dat : Dat) : Translator :=
  fun regs vaddr arn acctype akey len =>
    let t := dat regs vaddr arn acctype akey len
    ⟨setjmp t.pgmint, t.raddr, t.stid⟩

/-- The function `virt_to_real` of `hscmisc.c` with the `REGS` pointers and
the allocation in `copy_regs` made explicit: the messages issued and what
is handed back.  `none`: a pointer to no structure is dereferenced; with
`regs = NULL` from `copy_regs` that is `regs->progjmp` in the `setjmp`. -/
def virt_to_real_alloc (malloc_ok : Bool) (logical_to_main_l : Dat) (mem : RegsStore)
    (vaddr : Nat) (arn : Arn) (iregs : RegsPtr) (acctype : AccType) :
    Option (List Msg × Xlated) :=
  match copy_regs malloc_ok mem iregs with
  | none => none
  | some (mem, msgs, regs) =>
    match mem regs with
    | none => none
    | some r =>
      let icode := setjmp none
      let temp_arn := if acctype = AccType.ACCTYPE_INSTFETCH then Arn.USE_INST_SPACE else arn
      let t := logical_to_main_l r vaddr temp_arn acctype 0 1
      let icode := if icode = 0 then setjmp t.pgmint else icode
      some (msgs, ⟨icode, t.raddr, t.stid⟩)

/-! ## Command line normalisation -/

/-- `string_to_upper`: every character through `toupper`. -/
def string_to_upper (s : List Char) : List Char :=
  s.map fun c => Char.ofNat (toupper c.toNat)

/-- `str_caseless_eq`: equality of two strings regardless of case. -/
def str_caseless_eq (a b : List Char) : Bool :=
  string_to_upper a = string_to_upper b

/-- The blank removal loop, as a function of the text from index `n` on; the
result is the text left from index `i` on.  The flag tells whether the inner
copy loop is running (`true`) or the scan is at the start of a token
(`false`), where a `#` stops everything.  The write index never passes the
read index, so every character read is an original one. -/
def squeeze : Bool → List Char → List Char
  | _, [] => []
  | false, c :: rest =>
    if c = ' ' then squeeze false rest
    else if c = '#' then []
    else c :: squeeze true rest
  | true, c :: rest =>
    if c = ' ' then squeeze false rest else c :: squeeze true rest

/-- The normalisation of the command line in `alter_display_real_or_abs`:
when the text after the first `=` starts with a double quote, the line is
cut at the next double quote; otherwise the whole line is upper-cased and
the blanks from index `opidx` on are removed.  `none`: the loop starts past
the terminating NUL of the line. -/
def normalize_real_or_abs (opidx : Nat) (cmdline : List Char) : Option (List Char) :=
  let unquoted : Option (List Char) :=
    let up := string_to_upper cmdline
    if up.length < opidx then none
    else some (up.take opidx ++ squeeze false (up.drop opidx))
  match strchr cmdline '=' with
  | some (e :: q :: rest) =>
    if q = '"' then
      some (cmdline.take (cmdline.length - (rest.length + 2)) ++
        e :: q :: rest.takeWhile (fun c => c ≠ '"'))
    else unquoted
  | _ => unquoted

/-! ## Alter / display real or absolute storage -/

/-- Storing one byte into main storage. -/
def REGS.store (regs : REGS) (aaddr b : Nat) : REGS :=
  { regs with mainstor := fun x => if x = aaddr then b else regs.mainstor x }

/-- State after an alteration loop: the context (with the altered storage),
the bytes stored, in order, as (absolute address, value), and the message of
the exception that made the command return, if any. -/
structure Altered where
  regs : REGS
  writes : List (Nat × Nat)
  fault : Option Msg

/-- The `for (i=0; i < len; i++)` loop of `alter_display_real_or_abs`;
arguments are the bytes `newval[i..len-1]`, the index `i` and the context. -/
def alter_real_or_abs_loop (cmd : Char) (saddr : Nat) : List Nat → Nat → REGS → Altered
  | [], _, regs => ⟨regs, [], none⟩
  | b :: bs, i, regs =>
    let raddr := add64 saddr i
    let aaddr := if cmd = 'R' then APPLY_PREFIXING raddr regs.PX else raddr
    if regs.mainlim < aaddr then ⟨regs, [], some (Msg.HHC02328 'A' aaddr)⟩
    else
      let r := alter_real_or_abs_loop cmd saddr bs (i + 1) (regs.store aaddr b)
      ⟨r.regs, (aaddr, b) :: r.writes, r.fault⟩

/-- The page by page dump loop of `alter_display_real_or_abs`.  The first
argument bounds the number of iterations; `none` means the bound was
reached. -/
def dump_loop_real_or_abs (cmd : Char) (regs : REGS) (addrwid : Nat) :
    Nat → Nat → Nat → Nat → Nat → Option (List Msg)
  | 0, _, _, _, _ => none
  | fuel + 1, pageadr, pageoff, pageamt, totamt =>
    let raddr := pageadr
    let pageamt := if totamt < pageamt then totamt else pageamt
    let aaddr := if cmd = 'R' then APPLY_PREFIXING raddr regs.PX else raddr
    if regs.mainlim < aaddr then some [Msg.HHC02328 'A' aaddr]
    else
      let out := Msg.key_line aaddr ::
        (dump_abs_page regs aaddr raddr pageoff pageamt cmd addrwid).2
      let totamt := sub64 totamt pageamt
      if totamt = 0 then some out
      else
        (dump_loop_real_or_abs cmd regs addrwid fuel (add64 pageadr PAGEFRAME_PAGESIZE) 0
          PAGEFRAME_PAGESIZE totamt).map fun more => out ++ more

/-- Result of a command: the context afterwards, the bytes stored into main
storage, in order, and the messages issued, in order. -/
structure Outcome where
  regs : REGS
  writes : List (Nat × Nat)
  msgs : List Msg

/-- First part of `alter_display_real_or_abs`: from `argv[0]` and the command
line (of length 3 at least) to the command letter `cmd = cmdline[0]` and the
operand `opnd = &cmdline[opidx]` handed to `parse_range`.  `none`: the
command line is read past its terminating NUL. -/
def real_or_abs_operand (argv0 : List Char) (cmdline : List Char) :
    Option (Char × List Char) :=
  let opidx := if str_caseless_eq argv0 ['a', 'b', 's'] then 4 else 2
  match normalize_real_or_abs opidx cmdline with
  | none => none
  | some cmdline =>
    if cmdline.length < opidx then none
    else some (cmdline.headD (Char.ofNat 0), cmdline.drop opidx)

/-- The function `alter_display_real_or_abs` of `hscmisc.c`, z/Architecture
build.  `argv0` is `argv[0]`, `cmdline = none` the NULL pointer.  `none`: the
command line is read past its terminating NUL, or the dump loop did not end
within `totamt` iterations. -/
def alter_display_real_or_abs (h2g : Char → Nat) (sysblk : SYSBLK) (regs : REGS)
    (argv0 : List Char) (cmdline : Option (List Char)) : Option Outcome :=
  match cmdline with
  | none => some ⟨regs, [], [Msg.HHC17000]⟩
  | some cmdline =>
    if cmdline.length < 3 then some ⟨regs, [], [Msg.HHC17000]⟩
    else
      match real_or_abs_operand argv0 cmdline with
      | none => none
      | some (cmd, opnd) =>
        let maxadr := 0xFFFFFFFFFFFFFFFF
        match parse_range h2g (some opnd) maxadr true with
        | none => some ⟨regs, [], [Msg.parse_error]⟩
        | some r =>
          if regs.mainlim = 0 then some ⟨regs, [], [Msg.HHC02327 cmd r.saddr]⟩
          else
            let alt := alter_real_or_abs_loop cmd r.saddr r.newval 0 regs
            match alt.fault with
            | some m => some ⟨alt.regs, alt.writes, [m]⟩
            | none =>
              let saddr := r.saddr
              let eaddr := LIMIT_RANGE saddr r.eaddr _64_KILOBYTE
              let totamt := add64 (sub64 eaddr saddr) 1
              if 0 < totamt then
                let pageadr := saddr &&& PAGEFRAME_PAGEMASK
                let pageoff := sub64 saddr pageadr
                let pageamt := PAGEFRAME_PAGESIZE - pageoff
                let addrwid := if ARCH_900_IDX = sysblk.arch_mode then 64 else 32
                (dump_loop_real_or_abs cmd alt.regs addrwid totamt pageadr pageoff pageamt
                  totamt).map fun msgs => ⟨alt.regs, alt.writes, msgs⟩
              else some ⟨alt.regs, alt.writes, []⟩

/-! ## Alter / display virtual storage -/

/-- The `for (i=0; i < len; i++)` loop of `alter_display_virt`; arguments
are the bytes `newval[i..len-1]`, the index `i` and the context.  The
exception code is kept in a `U16`. -/
def alter_virt_loop (logical_to_main_l : Translator) (arn : Arn) (saddr : Nat) :
    List Nat → Nat → REGS → Altered
  | [], _, regs => ⟨regs, [], none⟩
  | b :: bs, i, regs =>
    let vaddr := add64 saddr i
    let x := virt_to_real logical_to_main_l vaddr arn regs AccType.ACCTYPE_HW
    let xcode := x.icode % 65536
    if xcode ≠ 0 then ⟨regs, [], some (Msg.HHC02329 vaddr xcode)⟩
    else
      let aaddr := APPLY_PREFIXING x.raddr regs.PX
      if regs.mainlim < aaddr then ⟨regs, [], some (Msg.HHC02328 'R' x.raddr)⟩
      else
        let r := alter_virt_loop logical_to_main_l arn saddr bs (i + 1) (regs.store aaddr b)
        ⟨r.regs, (aaddr, b) :: r.writes, r.fault⟩

/-- The page by page dump loop of `alter_display_virt`.  The first argument
bounds the number of iterations; `none` means the bound was reached. -/
def dump_loop_virt (logical_to_main_l : Translator) (arn : Arn) (regs : REGS) (addrwid : Nat) :
    Nat → Nat → Nat → Nat → Nat → Option (List Msg)
  | 0, _, _, _, _ => none
  | fuel + 1, pageadr, pageoff, pageamt, totamt =>
    let vaddr := pageadr
    let pageamt := if totamt < pageamt then totamt else pageamt
    let x := virt_to_real logical_to_main_l vaddr arn regs AccType.ACCTYPE_HW
    let xcode := x.icode % 65536
    let aaddr := APPLY_PREFIXING x.raddr regs.PX
    if xcode = 0 ∧ regs.mainlim < aaddr then some [Msg.HHC02328 'R' x.raddr]
    else
      let out :=
        if xcode ≠ 0 then [Msg.HHC02329 vaddr xcode]
        else Msg.key_line x.raddr ::
          (dump_abs_page regs aaddr vaddr pageoff pageamt (Char.ofNat 0) addrwid).2
      let totamt := sub64 totamt pageamt
      if totamt = 0 then some out
      else
        (dump_loop_virt logical_to_main_l arn regs addrwid fuel
          (add64 pageadr PAGEFRAME_PAGESIZE) 0 PAGEFRAME_PAGESIZE totamt).map
          fun more => out ++ more

/-- First part of `alter_display_virt`: from the command line (of length 3
at least) to the access-space selector `arn` and the operand handed to
`parse_range`. -/
def virt_operand (cmdline : List Char) : Arn × List Char :=
  let up := string_to_upper cmdline
  let cmdline := up.take 2 ++ squeeze false (up.drop 2)
  let opnd := cmdline.drop 2
  let type := opnd.headD (Char.ofNat 0)
  if type ≠ 'P' ∧ type ≠ 'S' ∧ type ≠ 'H' then (Arn.ar 0, opnd)
  else
    (if type = 'P' then Arn.USE_PRIMARY_SPACE
     else if type = 'S' then Arn.USE_SECONDARY_SPACE
     else Arn.USE_HOME_SPACE, opnd.drop 1)

/-- The function `alter_display_virt` (the `ARCH_DEP` one) of `hscmisc.c`,
z/Architecture build.  `cmdline = none` is the NULL pointer.  `none`: the
dump loop did not end within `totamt` iterations. -/
def alter_display_virt (h2g : Char → Nat) (logical_to_main_l : Translator) (sysblk : SYSBLK)
    (regs : REGS) (cmdline : Option (List Char)) : Option Outcome :=
  match cmdline with
  | none => some ⟨regs, [], [Msg.HHC17000]⟩
  | some cmdline =>
    if cmdline.length < 3 then some ⟨regs, [], [Msg.HHC17000]⟩
    else
      let arn := (virt_operand cmdline).1
      let opnd := (virt_operand cmdline).2
      let maxadr := 0xFFFFFFFFFFFFFFFF
      match parse_range h2g (some opnd) maxadr true with
      | none => some ⟨regs, [], [Msg.parse_error]⟩
      | some r =>
        if regs.mainlim = 0 then some ⟨regs, [], [Msg.HHC02327 'V' r.saddr]⟩
        else
          let alt : Altered :=
            if 0 < r.n
                ∧ (virt_to_real logical_to_main_l r.saddr arn regs
                    AccType.ACCTYPE_HW).icode = 0
                ∧ (virt_to_real logical_to_main_l r.eaddr arn regs
                    AccType.ACCTYPE_HW).icode = 0
            then alter_virt_loop logical_to_main_l arn r.saddr r.newval 0 regs
            else ⟨regs, [], none⟩
          match alt.fault with
          | some m => some ⟨alt.regs, alt.writes, [m]⟩
          | none =>
            let saddr := r.saddr
            let eaddr := LIMIT_RANGE saddr r.eaddr _64_KILOBYTE
            let totamt := add64 (sub64 eaddr saddr) 1
            if 0 < totamt then
              let pageadr := saddr &&& PAGEFRAME_PAGEMASK
              let pageoff := sub64 saddr pageadr
              let pageamt := PAGEFRAME_PAGESIZE - pageoff
              let addrwid := if ARCH_900_IDX = sysblk.arch_mode then 64 else 32
              (dump_loop_virt logical_to_main_l arn alt.regs addrwid totamt pageadr pageoff
                pageamt totamt).map fun msgs => ⟨alt.regs, alt.writes, msgs⟩
            else some ⟨alt.regs, alt.writes, []⟩

/-! ## disasm_stor -/

/-- Modelled from the spec: the `ILC` macro (header not among the sources),
the length of an instruction from its operation code, one of three lengths:
2, 4 or 6 bytes by the two leftmost bits of the operation code. -/
def ILC (opcode : Nat) : Nat :=
  if opcode < 0x40 then 2 else if opcode < 0xC0 then 4 else 6

/-- Modelled from the spec: the `REAL_MODE` macro (header not among the
sources): the PSW has address translation (DAT) off. -/
def REAL_MODE (regs : REGS) : Bool := regs.psw_real_mode

/-- The `while (saddr <= eaddr)` loop of `disasm_stor`.  The first argument
bounds the number of passes; `none` means the bound was reached.  `stid`
keeps the value that the last translation left (-1 before any). -/
def disasm_loop (logical_to_main_l : Translator) (regs : REGS) (type : Char) (eaddr : Nat) :
    Nat → Nat → Int → Option (List Msg)
  | 0, saddr, _ => if eaddr < saddr then some [] else none
  | fuel + 1, saddr, stid =>
    if eaddr < saddr then some []
    else
      let x := virt_to_real logical_to_main_l saddr (Arn.ar 0) regs AccType.ACCTYPE_HW
      let xcode := x.icode % 65536
      if type ≠ 'R' ∧ xcode ≠ 0 then some [Msg.HHC02289_not_accessible saddr xcode]
      else
        let raddr := if type = 'R' then saddr else x.raddr
        let stid := if type = 'R' then stid else x.stid
        let aaddr := APPLY_PREFIXING raddr regs.PX
        if regs.mainlim < aaddr then some [Msg.HHC02289_addressing raddr]
        else
          let opcode := regs.mainstor aaddr
          let ilc := ILC opcode
          if regs.mainlim < add64 aaddr ilc then some [Msg.HHC02289_addressing aaddr]
          else
            let inst := (List.range ilc).map fun j => regs.mainstor (aaddr + j)
            (disasm_loop logical_to_main_l regs type eaddr fuel (add64 saddr ilc) stid).map
              fun more => Msg.HHC02289_inst stid raddr inst :: more

/-- First part of `disasm_stor`: from the operand `argv[0]` to the kind of
address (`type`) and the range operand handed to `parse_range`. -/
def disasm_operand (regs : REGS) (opnd : List Char) : Char × List Char :=
  let type := Char.ofNat (toupper (opnd.headD (Char.ofNat 0)).toNat)
  if type = 'R' ∨ type = 'V' ∨ type = 'P' ∨ type = 'H' then (type, opnd.drop 1)
  else (if REAL_MODE regs then 'R' else 'V', opnd)

/-- The function `disasm_stor` (the `ARCH_DEP` one) of `hscmisc.c`,
z/Architecture build; `argv` holds the operands of the command.  `none`: the
instruction loop did not end within `fuel` passes. -/
def disasm_stor (h2g : Char → Nat) (logical_to_main_l : Translator) (regs : REGS)
    (argv : List (List Char)) (fuel : Nat) : Option (List Msg) :=
  if argv.length ≠ 1 then some [Msg.HHC17000]
  else
    let type := (disasm_operand regs (argv.headD [])).1
    let opnd := (disasm_operand regs (argv.headD [])).2
    let maxadr := 0xFFFFFFFFFFFFFFFF
    match parse_range h2g (some opnd) maxadr false with
    | none => some [Msg.parse_error]
    | some r =>
      if regs.mainlim = 0 then some [Msg.HHC02289_not_valid]
      else
        let saddr := r.saddr
        let eaddr := LIMIT_RANGE saddr r.eaddr _64_KILOBYTE
        disasm_loop logical_to_main_l regs type eaddr fuel saddr (-1)

/-! ## display_inst_adj -/

/-- Modelled from the spec: the `ADDRESS_MAXWRAP` macro (header not among
the sources), the mask of the current addressing mode (24, 31 or 64 bit),
which the PSW holds as `psw.AMASK`. -/
def ADDRESS_MAXWRAP (regs : REGS) : Nat := regs.psw_AMASK

/-- Modelled from the spec: the `PSW_IA_FROM_IP` macro (header not among the
sources): the address of the instruction that `regs->ip` points to, plus
`n`, within the current addressing mode. -/
def PSW_IA_FROM_IP (regs : REGS) (n : Nat) : Nat :=
  add64 regs.ip n &&& ADDRESS_MAXWRAP regs

/-- Modelled from the spec: `fetch_fw` (header not among the sources), the
big-endian fullword made of four bytes. -/
def fetch_fw (b0 b1 b2 b3 : Nat) : Nat :=
  ((b0 * 256 + b1) * 256 + b2) * 256 + b3

/-- The C conversion of a fullword to the signed type `S32`. -/
def to_S32 (fw : Nat) : Int :=
  if fw % 4294967296 < 2147483648 then (fw % 4294967296 : Nat)
  else ((fw % 4294967296 : Nat) : Int) - 4294967296

/-- The C conversion of an `S64` value to the unsigned type `VADR`. -/
def to_VADR (x : Int) : Nat := (x % 18446744073709551616).toNat

/-- The operand variables of `display_inst_adj`: the register numbers `b1`
and `b2` (-1 when there is no such operand) and the operand addresses. -/
structure Operands where
  b1 : Int
  b2 : Int
  addr1 : Nat
  addr2 : Nat
deriving Repr, DecidableEq

/-- The step "Calculate the effective address of the first operand" of
`display_inst_adj`: base register and 12-bit displacement, for every
instruction but the vector instructions without a storage operand. -/
def display_inst_adj_base (regs : REGS) (inst : List Nat) (o : Operands) : Operands :=
  let opcode := inst.getD 0 0
  let i2 := inst.getD 2 0
  let i3 := inst.getD 3 0
  let i5 := inst.getD 5 0
  if (opcode ≠ 0xE7 ∧ opcode ≠ 0xE6)
      ∨ (opcode = 0xE7 ∧ (i5 ≤ 0x0B ∨ i5 = 0x0E ∨ i5 = 0x12 ∨ i5 = 0x13 ∨ i5 = 0x1A
          ∨ i5 = 0x1B ∨ i5 = 0x30 ∨ i5 = 0x36 ∨ i5 = 0x37 ∨ i5 = 0x3E ∨ i5 = 0x3F))
      ∨ (opcode = 0xE6 ∧ ((0x01 ≤ i5 ∧ i5 ≤ 0x07) ∨ (0x09 ≤ i5 ∧ i5 ≤ 0x0B) ∨ i5 = 0x0E
          ∨ i5 = 0x0F ∨ i5 = 0x34 ∨ i5 = 0x35 ∨ i5 = 0x3C ∨ i5 = 0x3D)) then
    let b1 := i2 >>> 4
    let addr1 := ((i2 &&& 0x0F) <<< 8) ||| i3
    { o with
      b1 := b1,
      addr1 :=
        if b1 ≠ 0 then add64 addr1 (regs.GR b1) &&& ADDRESS_MAXWRAP regs else addr1 }
  else o

/-- The step "Apply indexing for RX/RXE/RXF/VRX instructions" of
`display_inst_adj`. -/
def display_inst_adj_index (regs : REGS) (inst : List Nat) (o : Operands) : Operands :=
  let opcode := inst.getD 0 0
  let i1 := inst.getD 1 0
  let i5 := inst.getD 5 0
  if (0x40 ≤ opcode ∧ opcode ≤ 0x7F) ∨ opcode = 0xB1 ∨ opcode = 0xE3 ∨ opcode = 0xED
      ∨ (opcode = 0xE7 ∧ (i5 ≤ 0x0B ∨ i5 = 0x0E))
      ∨ (opcode = 0xE6 ∧ ((0x01 ≤ i5 ∧ i5 ≤ 0x07) ∨ (0x09 ≤ i5 ∧ i5 ≤ 0x0B) ∨ i5 = 0x0E
          ∨ i5 = 0x0F)) then
    let x1 := i1 &&& 0x0F
    { o with
      addr1 :=
        if x1 ≠ 0 then add64 o.addr1 (regs.GR x1) &&& ADDRESS_MAXWRAP regs else o.addr1 }
  else o

/-- The step "Apply indexing for VRV instructions" of `display_inst_adj`. -/
def display_inst_adj_vrv (regs : REGS) (inst : List Nat) (o : Operands) : Operands :=
  let opcode := inst.getD 0 0
  let i1 := inst.getD 1 0
  let i4 := inst.getD 4 0
  let i5 := inst.getD 5 0
  if opcode = 0xE7 ∧ (i5 = 0x12 ∨ i5 = 0x13 ∨ i5 = 0x1A ∨ i5 = 0x1B) then
    let v2 := i1 &&& 0x0F
    let m3 := (i4 >>> 4) &&& 0x0F
    { o with
      addr1 :=
        add64 o.addr1 (if i5 = 0x12 ∨ i5 = 0x1A then regs.VR_D v2 m3 else regs.VR_F v2 m3)
          &&& ADDRESS_MAXWRAP regs }
  else o

/-- The block "Process the first storage operand" of `display_inst_adj`:
base and displacement, then indexing for the RX-like formats, then the
vector element index of the VRV format. -/
def display_inst_adj_op1 (regs : REGS) (inst : List Nat) (o : Operands) : Operands :=
  let opcode := inst.getD 0 0
  let ilc := ILC opcode
  if 2 < ilc ∧ opcode ≠ 0x84 ∧ opcode ≠ 0x85 ∧ opcode ≠ 0xA5 ∧ opcode ≠ 0xA7
      ∧ opcode ≠ 0xB3 ∧ opcode ≠ 0xC0 ∧ opcode ≠ 0xC4 ∧ opcode ≠ 0xC6 ∧ opcode ≠ 0xEC then
    display_inst_adj_vrv regs inst
      (display_inst_adj_index regs inst (display_inst_adj_base regs inst o))
  else o

/-- The block "Process the second storage operand" of `display_inst_adj`. -/
def display_inst_adj_op2 (regs : REGS) (inst : List Nat) (o : Operands) : Operands :=
  let opcode := inst.getD 0 0
  let ilc := ILC opcode
  let i4 := inst.getD 4 0
  let i5 := inst.getD 5 0
  if 4 < ilc ∧ opcode ≠ 0xC0 ∧ opcode ≠ 0xC4 ∧ opcode ≠ 0xC6 ∧ opcode ≠ 0xE3
      ∧ opcode ≠ 0xE6 ∧ opcode ≠ 0xE7 ∧ opcode ≠ 0xEB ∧ opcode ≠ 0xEC ∧ opcode ≠ 0xED then
    let b2 := i4 >>> 4
    let addr2 := ((i4 &&& 0x0F) <<< 8) ||| i5
    { o with
      b2 := b2,
      addr2 :=
        if b2 ≠ 0 then add64 addr2 (regs.GR b2) &&& ADDRESS_MAXWRAP regs else addr2 }
  else o

/-- The block "Calculate the operand addresses for MVCL(E) and CLCL(E)" of
`display_inst_adj`. -/
def display_inst_adj_mvcl (regs : REGS) (inst : List Nat) (o : Operands) : Operands :=
  let opcode := inst.getD 0 0
  let i1 := inst.getD 1 0
  if opcode = 0x0E ∨ opcode = 0x0F ∨ opcode = 0xA8 ∨ opcode = 0xA9 then
    let b1 := i1 >>> 4
    let b2 := i1 &&& 0x0F
    { b1 := b1, addr1 := regs.GR b1 &&& ADDRESS_MAXWRAP regs,
      b2 := b2, addr2 := regs.GR b2 &&& ADDRESS_MAXWRAP regs }
  else o

/-- The block "Calculate the operand addresses for RRE instructions" of
`display_inst_adj`.  The macro `ADDRESS_MAXWRAP_E` is declared in a header
that is not among the sources and is a parameter here. -/
def display_inst_adj_rre (ADDRESS_MAXWRAP_E : REGS → Nat) (regs : REGS) (inst : List Nat)
    (o : Operands) : Operands :=
  let opcode := inst.getD 0 0
  let i1 := inst.getD 1 0
  let i3 := inst.getD 3 0
  if (opcode = 0xB2 ∧ ((0x20 ≤ i1 ∧ i1 ≤ 0x2F) ∨ (0x40 ≤ i1 ∧ i1 ≤ 0x6F)
        ∨ (0xA0 ≤ i1 ∧ i1 ≤ 0xAF)))
      ∨ (opcode = 0xB9 ∧ (i1 = 0x05 ∨ i1 = 0x25 ∨ 0x31 ≤ i1)) then
    let b1 := i3 >>> 4
    let b2 := i3 &&& 0x0F
    { b1 := b1, addr1 := regs.GR b1 &&& ADDRESS_MAXWRAP regs,
      b2 := b2,
      addr2 :=
        if 0x29 ≤ i1 ∧ i1 ≤ 0x2C then regs.GR b2 &&& ADDRESS_MAXWRAP_E regs
        else regs.GR b2 &&& ADDRESS_MAXWRAP regs }
  else o

/-- The block "Calculate the operand address for RIL-x (relative)
instructions" of `display_inst_adj`. -/
def display_inst_adj_ril (regs : REGS) (inst : List Nat) (o : Operands) : Operands :=
  let opcode := inst.getD 0 0
  let i1 := inst.getD 1 0
  if (opcode = 0xC0 ∧ (i1 &&& 0x0F = 0x00 ∨ i1 &&& 0x0F = 0x04 ∨ i1 &&& 0x0F = 0x05))
      ∨ opcode = 0xC4 ∨ opcode = 0xC6 then
    let relative_long_operand :=
      to_S32 (fetch_fw (inst.getD 2 0) (inst.getD 3 0) (inst.getD 4 0) (inst.getD 5 0))
    let offset := 2 * relative_long_operand
    let addr1 := PSW_IA_FROM_IP regs 0
    { o with
      b1 := 0, addr1 := add64 addr1 (to_VADR offset) &&& ADDRESS_MAXWRAP regs }
  else o

/-- The operand variables of `display_inst_adj` after its five blocks, from
`b1 = b2 = -1` and `addr1 = addr2 = 0`. -/
def display_inst_adj_operands (ADDRESS_MAXWRAP_E : REGS → Nat) (regs : REGS)
    (inst : List Nat) : Operands :=
  let o : Operands := { b1 := -1, b2 := -1, addr1 := 0, addr2 := 0 }
  let o := display_inst_adj_op1 regs inst o
  let o := display_inst_adj_op2 regs inst o
  let o := display_inst_adj_mvcl regs inst o
  let o := display_inst_adj_rre ADDRESS_MAXWRAP_E regs inst o
  display_inst_adj_ril regs inst o

/-- A line of operand storage that `display_inst_adj` formats through
`display_virt`: the number of the operand and its address. -/
structure OperandLine where
  operand : Nat
  vaddr : Nat
deriving Repr, DecidableEq

/-- The operand storage lines of `display_inst_adj`: one for each operand
whose register number is not negative, none when the trace goes to the
trace file. -/
def display_inst_adj_lines (trace2file : Bool) (o : Operands) : List OperandLine :=
  if trace2file then []
  else
    (if 0 ≤ o.b1 then [(⟨1, o.addr1⟩ : OperandLine)] else [])
      ++ (if 0 ≤ o.b2 then [(⟨2, o.addr2⟩ : OperandLine)] else [])

/-- The working copy of the context in `display_inst_adj`: `iregs` itself
when it is a copy already, a copy by `copy_regs` otherwise, with the
instruction address backed up by the instruction length when `pgmint` is
set. -/
def display_inst_adj_regs (iregs : REGS) (inst : List Nat) (pgmint : Bool) : REGS :=
  let regs := if iregs.ghostregs ≠ 0 then iregs else copy_regs_newregs iregs
  let opcode := inst.getD 0 0
  let ilc := ILC opcode
  if pgmint then { regs with ip := sub64 regs.ip ilc } else regs

/-- What `display_inst_adj` finds and shows of the operands. -/
structure InstDisplay where
  operands : Operands
  lines : List OperandLine
deriving Repr, DecidableEq

/-- The function `display_inst_adj` of `hscmisc.c`, as far as the storage
operands go: `inst` is the instruction (`none` the NULL pointer), `pgmint`
tells whether the instruction address is to be backed up by the instruction
length, `trace2file` whether the trace goes to the trace file (no line is
formatted then).  `none`: the function returns before it looks at the
operands (no storage, or no instruction). -/
def display_inst_adj (ADDRESS_MAXWRAP_E : REGS → Nat) (trace2file : Bool) (iregs : REGS)
    (inst : Option (List Nat)) (pgmint : Bool) : Option InstDisplay :=
  if iregs.mainlim = 0 then none
  else
    match inst with
    | none => none
    | some inst =>
      let regs := display_inst_adj_regs iregs inst pgmint
      let o := display_inst_adj_operands ADDRESS_MAXWRAP_E regs inst
      some ⟨o, display_inst_adj_lines trace2file o⟩

/-- Modelled from the spec: the `ADDRESS_MAXWRAP_E` macro (header not among
the sources).  The spec has every computed operand address wrap at the width
of the addressing mode, so the macro is taken to give the mask of the
current addressing mode, `psw.AMASK`, as `ADDRESS_MAXWRAP` does.
`display_inst_adj` takes the macro as a parameter; this is the value of the
parameter where a property depends on what the macro gives. -/
def ADDRESS_MAXWRAP_E (regs : REGS) : Nat := regs.psw_AMASK

/-! ## Notions used to state the properties -/

/-- The storage limit that `display_real` compares the absolute address
with: the host's `mainlim` for a SIE guest, the context's own otherwise. -/
def checked_limit (regs : REGS) : Nat :=
  if regs.sie_mode then regs.hostregs_mainlim else regs.mainlim

/-- The storage bytes fetched for a line of `display_real`. -/
def RealLine.shown : RealLine → List DumpByte
  | RealLine.not_valid => []
  | RealLine.bytes bs => bs

/-- The parameter conditions that `dump_abs_page` insists on: both
addresses page aligned, the offset within the page, the amount within the
rest of the page, the width 32 or 64. -/
def dump_params_valid (aaddr adr offset amt wid : Nat) : Prop :=
  aaddr % PAGEFRAME_PAGESIZE = 0 ∧ adr % PAGEFRAME_PAGESIZE = 0
    ∧ offset < PAGEFRAME_PAGESIZE ∧ amt ≤ PAGEFRAME_PAGESIZE - offset
    ∧ (wid = 32 ∨ wid = 64)

instance (aaddr adr offset amt wid : Nat) :
    Decidable (dump_params_valid aaddr adr offset amt wid) := by
  unfold dump_params_valid
  exact inferInstance

/-- The hexadecimal digit characters. -/
def HEX_DIGITS : List Char := "0123456789abcdefABCDEF".toList

/-- Value of a hexadecimal digit character (0 for any other character). -/
def hex_digit_value : Char → Nat
  | '0' => 0 | '1' => 1 | '2' => 2 | '3' => 3 | '4' => 4
  | '5' => 5 | '6' => 6 | '7' => 7 | '8' => 8 | '9' => 9
  | 'a' => 10 | 'b' => 11 | 'c' => 12 | 'd' => 13 | 'e' => 14 | 'f' => 15
  | 'A' => 10 | 'B' => 11 | 'C' => 12 | 'D' => 13 | 'E' => 14 | 'F' => 15
  | _ => 0

/-- Value of a hexadecimal numeral, most significant digit first. -/
def hex_value (ds : List Char) : Nat :=
  ds.foldl (fun acc c => acc * 16 + hex_digit_value c) 0

/-- A hexadecimal numeral: a non-empty string of hexadecimal digits. -/
def is_hex_numeral (ds : List Char) : Prop :=
  ds ≠ [] ∧ ∀ c ∈ ds, c ∈ HEX_DIGITS

instance (ds : List Char) : Decidable (is_hex_numeral ds) := by
  unfold is_hex_numeral
  exact inferInstance

/-- A gap between digit pairs: blanks and tabs only. -/
def is_gap (g : List Char) : Prop :=
  ∀ c ∈ g, c = ' ' ∨ c = '\t'

instance (g : List Char) : Decidable (is_gap g) := by
  unfold is_gap
  exact inferInstance

/-- A pair of hexadecimal digits, with the gap in front of it. -/
structure HexPair where
  gap : List Char
  hi : Char
  lo : Char

/-- Well-formedness of a pair: a gap, then two hexadecimal digits. -/
def HexPair.ok (p : HexPair) : Prop :=
  is_gap p.gap ∧ p.hi ∈ HEX_DIGITS ∧ p.lo ∈ HEX_DIGITS

instance (p : HexPair) : Decidable p.ok := by
  unfold HexPair.ok
  exact inferInstance

/-- The byte that a pair of hexadecimal digits denotes. -/
def HexPair.value (p : HexPair) : Nat :=
  16 * hex_digit_value p.hi + hex_digit_value p.lo

/-- The text of a sequence of pairs. -/
def pairs_text : List HexPair → List Char
  | [] => []
  | p :: ps => p.gap ++ p.hi :: p.lo :: pairs_text ps

/-- The end of a hexadecimal alteration operand: a gap, then either the end
of the string or a `#` followed by anything. -/
def hex_end (gap : List Char) (comment : Option (List Char)) : List Char :=
  gap ++ match comment with
    | none => []
    | some r => '#' :: r

/-- The context after storing a list of (absolute address, byte) pairs, in
order. -/
def stored (regs : REGS) : List (Nat × Nat) → REGS
  | [] => regs
  | w :: ws => stored (regs.store w.1 w.2) ws

/-- The absolute address of the real or absolute address `raddr` for the
command letter `cmd`: prefixing for `R`, none otherwise. -/
def real_or_abs_aaddr (cmd : Char) (px raddr : Nat) : Nat :=
  if cmd = 'R' then APPLY_PREFIXING raddr px else raddr

/-- The absolute address that a virtual address resolves to in a context;
`none` when the translation raises an exception or the absolute address
exceeds `mainlim`. -/
def virt_resolve (logical_to_main_l : Translator) (arn : Arn) (regs : REGS) (vaddr : Nat) :
    Option Nat :=
  if (virt_to_real logical_to_main_l vaddr arn regs AccType.ACCTYPE_HW).icode % 65536 ≠ 0 then
    none
  else if regs.mainlim < APPLY_PREFIXING
      (virt_to_real logical_to_main_l vaddr arn regs AccType.ACCTYPE_HW).raddr regs.PX then
    none
  else
    some (APPLY_PREFIXING
      (virt_to_real logical_to_main_l vaddr arn regs AccType.ACCTYPE_HW).raddr regs.PX)

/-- The test that `alter_display_virt` makes before it alters storage: there
are bytes to alter and the start and the end address of the range both
translate. -/
def virt_alter_guard (logical_to_main_l : Translator) (arn : Arn) (regs : REGS) (r : Range) :
    Prop :=
  0 < r.n
    ∧ (virt_to_real logical_to_main_l r.saddr arn regs AccType.ACCTYPE_HW).icode = 0
    ∧ (virt_to_real logical_to_main_l r.eaddr arn regs AccType.ACCTYPE_HW).icode = 0

instance (logical_to_main_l : Translator) (arn : Arn) (regs : REGS) (r : Range) :
    Decidable (virt_alter_guard logical_to_main_l arn regs r) := by
  unfold virt_alter_guard
  exact inferInstance

/-- The byte that a display of real or absolute storage shows for the
address `x`: labelled `x`, fetched from the absolute address of `x`. -/
def shown_at (cmd : Char) (regs : REGS) (x : Nat) : DumpByte :=
  ⟨x, real_or_abs_aaddr cmd regs.PX x, regs.mainstor (real_or_abs_aaddr cmd regs.PX x)⟩

/-- The arguments of one call of `dump_abs_page`. -/
structure DumpCall where
  aaddr : Nat
  adr : Nat
  offset : Nat
  amt : Nat
  vra : Char
  wid : Nat
deriving Repr, DecidableEq

/-- What one pass of a page dump loop does with its page: it shows the key
line for `keyaddr` and calls `dump_abs_page`, or it reports a translation
exception and goes on, or it reports an addressing exception and leaves the
loop. -/
inductive PageStep where
  | dumped (keyaddr : Nat) (call : DumpCall)
  | translation_exception (vaddr : Nat) (xcode : Nat)
  | addressing_exception (c : Char) (addr : Nat)
deriving Repr, DecidableEq

/-- Whether the pass called `dump_abs_page`. -/
def PageStep.is_dumped : PageStep → Bool
  | PageStep.dumped _ _ => true
  | _ => false

/-- Whether the pass ended in an addressing exception. -/
def PageStep.is_addressing_exception : PageStep → Bool
  | PageStep.addressing_exception _ _ => true
  | _ => false

/-- Whether the pass ended in a translation exception. -/
def PageStep.is_translation_exception : PageStep → Bool
  | PageStep.translation_exception _ _ => true
  | _ => false

/-- The amount handed to `dump_abs_page` in the pass, 0 without a call. -/
def PageStep.amt : PageStep → Nat
  | PageStep.dumped _ c => c.amt
  | _ => 0

/-- The messages of one pass. -/
def PageStep.msgs (regs : REGS) : PageStep → List Msg
  | PageStep.dumped keyaddr c =>
    Msg.key_line keyaddr :: (dump_abs_page regs c.aaddr c.adr c.offset c.amt c.vra c.wid).2
  | PageStep.translation_exception vaddr xcode => [Msg.HHC02329 vaddr xcode]
  | PageStep.addressing_exception c addr => [Msg.HHC02328 c addr]

/-- The messages of a sequence of passes. -/
def steps_msgs (regs : REGS) : List PageStep → List Msg
  | [] => []
  | s :: rest => s.msgs regs ++ steps_msgs regs rest

/-- The sum of the amounts of the calls of `dump_abs_page`. -/
def dumped_amount (steps : List PageStep) : Nat :=
  (steps.map PageStep.amt).sum

/-- The page by page loop that both dump loops share, as a sequence of
passes; `visit pageadr pageoff pageamt` is the pass for one page.  The first
argument bounds the number of passes; `none` means the bound was reached. -/
def page_steps (visit : Nat → Nat → Nat → PageStep) :
    Nat → Nat → Nat → Nat → Nat → Option (List PageStep)
  | 0, _, _, _, _ => none
  | fuel + 1, pageadr, pageoff, pageamt, totamt =>
    let pageamt := if totamt < pageamt then totamt else pageamt
    let step := visit pageadr pageoff pageamt
    if step.is_addressing_exception then some [step]
    else
      let totamt := sub64 totamt pageamt
      if totamt = 0 then some [step]
      else
        (page_steps visit fuel (add64 pageadr PAGEFRAME_PAGESIZE) 0 PAGEFRAME_PAGESIZE
          totamt).map fun more => step :: more

/-- One pass of the dump loop of `alter_display_real_or_abs`. -/
def visit_real_or_abs (cmd : Char) (regs : REGS) (addrwid : Nat)
    (pageadr pageoff pageamt : Nat) : PageStep :=
  let raddr := pageadr
  let aaddr := if cmd = 'R' then APPLY_PREFIXING raddr regs.PX else raddr
  if regs.mainlim < aaddr then PageStep.addressing_exception 'A' aaddr
  else PageStep.dumped aaddr ⟨aaddr, raddr, pageoff, pageamt, cmd, addrwid⟩

/-- One pass of the dump loop of `alter_display_virt`. -/
def visit_virt (logical_to_main_l : Translator) (arn : Arn) (regs : REGS) (addrwid : Nat)
    (pageadr pageoff pageamt : Nat) : PageStep :=
  let vaddr := pageadr
  let x := virt_to_real logical_to_main_l vaddr arn regs AccType.ACCTYPE_HW
  let xcode := x.icode % 65536
  if xcode ≠ 0 then PageStep.translation_exception vaddr xcode
  else
    let aaddr := APPLY_PREFIXING x.raddr regs.PX
    if regs.mainlim < aaddr then PageStep.addressing_exception 'R' x.raddr
    else PageStep.dumped x.raddr ⟨aaddr, vaddr, pageoff, pageamt, Char.ofNat 0, addrwid⟩

/-- The passes of the dump loop of `alter_display_real_or_abs` for the range
`r`, run on the context `regs` (that of the command after its alterations)
with the command letter `cmd`; no pass when the amount is zero. -/
def real_or_abs_dump_steps (sysblk : SYSBLK) (cmd : Char) (regs : REGS) (r : Range) :
    Option (List PageStep) :=
  let saddr := r.saddr
  let eaddr := LIMIT_RANGE saddr r.eaddr _64_KILOBYTE
  let totamt := add64 (sub64 eaddr saddr) 1
  if 0 < totamt then
    let pageadr := saddr &&& PAGEFRAME_PAGEMASK
    let pageoff := sub64 saddr pageadr
    let pageamt := PAGEFRAME_PAGESIZE - pageoff
    let addrwid := if ARCH_900_IDX = sysblk.arch_mode then 64 else 32
    page_steps (visit_real_or_abs cmd regs addrwid) totamt pageadr pageoff pageamt totamt
  else some []

/-- The passes of the dump loop of `alter_display_virt` for the range `r`,
run on the context `regs` (that of the command after its alterations) with
the access-space selector `arn`; no pass when the amount is zero. -/
def virt_dump_steps (logical_to_main_l : Translator) (arn : Arn) (sysblk : SYSBLK)
    (regs : REGS) (r : Range) : Option (List PageStep) :=
  let saddr := r.saddr
  let eaddr := LIMIT_RANGE saddr r.eaddr _64_KILOBYTE
  let totamt := add64 (sub64 eaddr saddr) 1
  if 0 < totamt then
    let pageadr := saddr &&& PAGEFRAME_PAGEMASK
    let pageoff := sub64 saddr pageadr
    let pageamt := PAGEFRAME_PAGESIZE - pageoff
    let addrwid := if ARCH_900_IDX = sysblk.arch_mode then 64 else 32
    page_steps (visit_virt logical_to_main_l arn regs addrwid) totamt pageadr pageoff pageamt
      totamt
  else some []

/-- The number of bytes of the range `[saddr, eaddr]` that a command
displays: its length `eaddr - saddr + 1`, at most 64K. -/
def display_length (r : Range) : Nat :=
  min (sub64 r.eaddr r.saddr + 1) _64_KILOBYTE

/-- The state in which `alter_display_virt` enters its dump loop: after the
alteration loop when the guard lets it run, unaltered otherwise. -/
def virt_altered (logical_to_main_l : Translator) (arn : Arn) (regs : REGS) (r : Range) :
    Altered :=
  if 0 < r.n
      ∧ (virt_to_real logical_to_main_l r.saddr arn regs AccType.ACCTYPE_HW).icode = 0
      ∧ (virt_to_real logical_to_main_l r.eaddr arn regs AccType.ACCTYPE_HW).icode = 0
  then alter_virt_loop logical_to_main_l arn r.saddr r.newval 0 regs
  else ⟨regs, [], none⟩

/-- The function `alter_display_virt` that the panel commands call (the one
outside `ARCH_DEP`, which takes the working copy of the context): unless
`iregs` is a copy already it runs the `ARCH_DEP` function on a copy made by
`copy_regs` and frees the copy.  A context and its copies share main
storage, so the outcome is the context `*iregs` with the storage as the
`ARCH_DEP` function left it.  `none`: a pointer to no structure is
dereferenced, the dump loop did not end, or `sysblk.arch_mode` selects
another build of the `ARCH_DEP` function (or `CRASH()`). -/
def alter_display_virt_cmd (malloc_ok : Bool) (h2g : Char → Nat)
    (logical_to_main_l : Translator) (sysblk : SYSBLK) (mem : RegsStore) (iregs : RegsPtr)
    (cmdline : Option (List Char)) : Option Outcome :=
  match mem iregs with
  | none => none
  | some live =>
    let copied :=
      if live.ghostregs ≠ 0 then some (mem, [], iregs) else copy_regs malloc_ok mem iregs
    match copied with
    | none => none
    | some (mem, msgs, regs) =>
      if regs = RegsPtr.NULL then some ⟨live, [], msgs⟩
      else
        match mem regs with
        | none => none
        | some r =>
          if sysblk.arch_mode = ARCH_900_IDX then
            (alter_display_virt h2g logical_to_main_l sysblk r cmdline).map fun out =>
              ⟨{ live with mainstor := out.regs.mainstor }, out.writes, msgs ++ out.msgs⟩
          else none

/-- A memory for examples: the context `guest` at `live 0` and the context
`host` at `live 1`, nothing else. -/
def example_mem (guest host : REGS) : RegsStore :=
  fun p => if p = RegsPtr.live 0 then some guest
    else if p = RegsPtr.live 1 then some host else none

/-- A translation routine for examples: the virtual addresses for which `ok`
holds translate to themselves, every other one raises program interruption
code `0x11`. -/
def example_dat (ok : Nat → Bool) : Dat :=
  fun _ vaddr _ _ _ _ => if ok vaddr then ⟨none, vaddr, 0⟩ else ⟨some 0x11, 0, 0⟩

/-- A translator for examples that maps every page to the frame at 0: the
virtual address `v` translates to the real address `v mod 4096`. -/
def example_one_frame_translator : Translator :=
  fun _ vaddr _ _ _ _ => ⟨0, vaddr % 4096, 0⟩

/-- A context for examples of `display_inst_adj`: 1 MiB of storage, general
register `r` holding `0x1000 * r`, the 31-bit addressing mode, and the
instruction address 0x2000. -/
def example_inst_regs : REGS :=
  { PX := 0, mainlim := 0xFFFFF, mainstor := fun _ => 0, GR := fun r => 0x1000 * r,
    psw_AMASK := 0x7FFFFFFF, ip := 0x2000 }

/-- A translator for examples: the virtual addresses for which `ok` holds
translate to themselves, every other one raises program interruption code
`0x11` (page translation exception). -/
def example_translator (ok : Nat → Bool) : Translator :=
  fun _ vaddr _ _ _ _ => if ok vaddr then ⟨0, vaddr, 0⟩ else ⟨0x11, 0, 0⟩

/-- A context without storage content, prefix `px` and storage limit `lim`. -/
def blank_regs (px lim : Nat) : REGS :=
  { PX := px, mainlim := lim, mainstor := fun _ => 0 }

/-! ## Theorems -/

/-! ### Bit masks as arithmetic -/

theorem and_high_mask (k x : Nat) (hk : k ≤ 64) (hx : x < 2 ^ 64) :
    x &&& (2 ^ k * (2 ^ (64 - k) - 1)) = 2 ^ k * (x / 2 ^ k) := by
  apply Nat.eq_of_testBit_eq
  intro i
  rw [Nat.testBit_and, Nat.testBit_mul_pow_two, Nat.testBit_mul_pow_two,
    Nat.testBit_two_pow_sub_one, ← Nat.shiftRight_eq_div_pow, Nat.testBit_shiftRight]
  by_cases h : k ≤ i
  · have e : k + (i - k) = i := by omega
    rw [e]
    by_cases h2 : i < 64
    · have : i - k < 64 - k := by omega
      simp [h, this]
    · have hlt : x < 2 ^ i := lt_of_lt_of_le hx (Nat.pow_le_pow_right (by norm_num) (by omega))
      simp [Nat.testBit_lt_two_pow hlt]
  · simp [h]

theorem xor_low (k a b r : Nat) (hr : r < 2 ^ k) :
    (2 ^ k * a + r) ^^^ (2 ^ k * b) = 2 ^ k * (a ^^^ b) + r := by
  apply Nat.eq_of_testBit_eq
  intro i
  rw [Nat.testBit_xor, Nat.testBit_mul_pow_two_add _ hr, Nat.testBit_mul_pow_two_add _ hr,
    Nat.testBit_mul_pow_two]
  by_cases h : i < k
  · have : ¬ k ≤ i := by omega
    simp [h, this]
  · have : k ≤ i := by omega
    simp [h, this]

theorem and_bytemask (x : Nat) : x &&& PAGEFRAME_BYTEMASK = x % 4096 := by
  have := Nat.and_pow_two_sub_one_eq_mod x 12
  simpa [PAGEFRAME_BYTEMASK] using this

theorem and_low16 (x : Nat) : x &&& 0xF = x % 16 := by
  have := Nat.and_pow_two_sub_one_eq_mod x 4
  simpa using this

theorem and_pagemask (x : Nat) (hx : x < U64_MOD) :
    x &&& PAGEFRAME_PAGEMASK = x / 4096 * 4096 := by
  have := and_high_mask 12 x (by norm_num) (by simpa [U64_MOD] using hx)
  norm_num at this
  simp only [PAGEFRAME_PAGEMASK]
  omega

theorem and_prefixmask (x : Nat) (hx : x < U64_MOD) :
    x &&& PREFIX_AREA_MASK = x / 8192 * 8192 := by
  have := and_high_mask 13 x (by norm_num) (by simpa [U64_MOD] using hx)
  norm_num at this
  simp only [PREFIX_AREA_MASK]
  omega

theorem and_mask16 (x : Nat) (hx : x < U64_MOD) :
    x &&& 0xFFFFFFFFFFFFFFF0 = x / 16 * 16 := by
  have := and_high_mask 4 x (by norm_num) (by simpa [U64_MOD] using hx)
  norm_num at this
  omega

/-! ### C1: storage reads and the storage limit -/

theorem display_real_loop_le (mainstor : Nat → Nat) (lim : Nat)
    (hlim : (lim + 1) % PAGEFRAME_PAGESIZE = 0) :
    ∀ (k aaddr : Nat), aaddr ≤ lim →
      ∀ b ∈ display_real_loop mainstor k aaddr, b.abs ≤ lim := by
  intro k
  induction k with
  | zero => intro aaddr _ b hb; simp [display_real_loop] at hb
  | succ k ih =>
    intro aaddr ha b hb
    simp only [display_real_loop, List.mem_cons] at hb
    rcases hb with hb | hb
    · rw [hb]; exact ha
    · by_cases hc : add64 aaddr 1 &&& PAGEFRAME_BYTEMASK = 0
      · simp [hc] at hb
      · simp only [hc, if_false] at hb
        refine ih (add64 aaddr 1) ?_ b hb
        rw [and_bytemask] at hc
        simp only [add64, U64_MOD, PAGEFRAME_PAGESIZE] at *
        omega

theorem display_real_eq (regs : REGS) (raddr : Nat) :
    display_real regs raddr =
      if checked_limit regs = 0 ∨ checked_limit regs < APPLY_PREFIXING raddr regs.PX then
        RealLine.not_valid
      else RealLine.bytes (display_real_loop regs.mainstor 16 (APPLY_PREFIXING raddr regs.PX)) := by
  unfold display_real checked_limit
  cases regs.sie_mode <;> simp

theorem dump_abs_page_shown (regs : REGS) (aaddr adr offset amt : Nat) (vra : Char)
    (wid : Nat) :
    shown_bytes (dump_abs_page regs aaddr adr offset amt vra wid).2 =
      if dump_params_valid aaddr adr offset amt wid ∧ aaddr ≤ regs.mainlim then
        (List.range amt).map fun j =>
          ⟨add64 (add64 (add64 adr offset &&& 0xFFFFFFFFFFFFFFF0) (offset &&& 0xF)) j,
            aaddr + offset + j, regs.mainstor (aaddr + offset + j)⟩
      else [] := by
  unfold dump_abs_page dump_params_valid
  simp only [and_bytemask, PAGEFRAME_PAGESIZE]
  by_cases h1 : aaddr % 4096 ≠ 0 ∨ adr % 4096 ≠ 0 ∨ 4096 ≤ offset ∨ 4096 - offset < amt
      ∨ (wid ≠ 32 ∧ wid ≠ 64)
  · have hnv : ¬ ((aaddr % 4096 = 0 ∧ adr % 4096 = 0 ∧ offset < 4096 ∧ amt ≤ 4096 - offset
        ∧ (wid = 32 ∨ wid = 64)) ∧ aaddr ≤ regs.mainlim) := by omega
    rw [if_pos h1, if_neg hnv]
    simp [shown_bytes]
  · rw [if_neg h1]
    by_cases h2 : regs.mainlim < aaddr
    · have hnv : ¬ ((aaddr % 4096 = 0 ∧ adr % 4096 = 0 ∧ offset < 4096 ∧ amt ≤ 4096 - offset
          ∧ (wid = 32 ∨ wid = 64)) ∧ aaddr ≤ regs.mainlim) := by omega
      rw [if_pos h2, if_neg hnv]
      simp [shown_bytes]
    · have hv : (aaddr % 4096 = 0 ∧ adr % 4096 = 0 ∧ offset < 4096 ∧ amt ≤ 4096 - offset
          ∧ (wid = 32 ∨ wid = 64)) ∧ aaddr ≤ regs.mainlim := by omega
      rw [if_neg h2, if_pos hv]
      simp [shown_bytes]

theorem dump_abs_page_le (regs : REGS) (aaddr adr offset amt : Nat) (vra : Char) (wid : Nat)
    (hlim : (regs.mainlim + 1) % PAGEFRAME_PAGESIZE = 0) :
    ∀ b ∈ shown_bytes (dump_abs_page regs aaddr adr offset amt vra wid).2,
      b.abs ≤ regs.mainlim := by
  intro b hb
  rw [dump_abs_page_shown] at hb
  split_ifs at hb with h1
  · simp only [List.mem_map, List.mem_range] at hb
    obtain ⟨j, hj, rfl⟩ := hb
    simp only [dump_params_valid, PAGEFRAME_PAGESIZE] at *
    omega
  · simp at hb

/-- C1 (as amended): when the storage limit is the last byte of a page
frame, every byte that `display_real` or `dump_abs_page` fetches has an
absolute address that does not exceed the limit the function checks (for
`display_real` in a SIE guest the host's limit), and a request whose
absolute address lies beyond that limit is answered with "not valid" resp.
an error message and fetches nothing. -/
theorem storage_reads_within_limit (regs : REGS) (raddr aaddr adr offset amt : Nat)
    (vra : Char) (wid : Nat) :
    ((checked_limit regs + 1) % PAGEFRAME_PAGESIZE = 0 →
      (∀ b ∈ (display_real regs raddr).shown, b.abs ≤ checked_limit regs)
      ∧ (checked_limit regs < APPLY_PREFIXING raddr regs.PX →
          display_real regs raddr = RealLine.not_valid))
    ∧ ((regs.mainlim + 1) % PAGEFRAME_PAGESIZE = 0 →
      (∀ b ∈ shown_bytes (dump_abs_page regs aaddr adr offset amt vra wid).2,
          b.abs ≤ regs.mainlim)
      ∧ ((∃ j, j < amt ∧ regs.mainlim < aaddr + offset + j) →
          (dump_abs_page regs aaddr adr offset amt vra wid).1 = -1
          ∧ shown_bytes (dump_abs_page regs aaddr adr offset amt vra wid).2 = []
          ∧ (dump_params_valid aaddr adr offset amt wid →
              (dump_abs_page regs aaddr adr offset amt vra wid).2
                = [Msg.dump_addr_exception (if vra.toNat ≠ 0 then vra else 'V') adr]))) := by
  refine ⟨fun hreal => ⟨?_, ?_⟩,
    fun hdump => ⟨dump_abs_page_le regs aaddr adr offset amt vra wid hdump, ?_⟩⟩
  · intro b hb
    rw [display_real_eq] at hb
    split_ifs at hb with h1
    · simp [RealLine.shown] at hb
    · simp only [not_or, not_lt] at h1
      exact display_real_loop_le regs.mainstor _ hreal 16 _ h1.2 b hb
  · intro h
    rw [display_real_eq, if_pos (Or.inr h)]
  · rintro ⟨j, hj, hlt⟩
    have hgt : dump_params_valid aaddr adr offset amt wid → regs.mainlim < aaddr := by
      intro hv
      simp only [dump_params_valid, PAGEFRAME_PAGESIZE] at *
      omega
    refine ⟨?_, ?_, ?_⟩
    · unfold dump_abs_page
      simp only [and_bytemask]
      by_cases h1 : aaddr % 4096 ≠ 0 ∨ adr % 4096 ≠ 0 ∨ PAGEFRAME_PAGESIZE ≤ offset
          ∨ PAGEFRAME_PAGESIZE - offset < amt ∨ (wid ≠ 32 ∧ wid ≠ 64)
      · rw [if_pos h1]
      · rw [if_neg h1, if_pos]
        apply hgt
        simp only [dump_params_valid, PAGEFRAME_PAGESIZE] at *
        omega
    · rw [dump_abs_page_shown, if_neg]
      intro hv
      have := hgt hv.1
      omega
    · intro hv
      have hv2 := hv
      unfold dump_abs_page
      simp only [and_bytemask]
      simp only [dump_params_valid, PAGEFRAME_PAGESIZE] at hv2 ⊢
      rw [if_neg (by omega), if_pos (hgt hv)]

/-- Witness of `storage_reads_within_limit`: one megabyte of storage, the
line at real address `0xFFFF8` and the dump of the end of the last page. -/
theorem storage_reads_within_limit_witness :
    (∀ b ∈ (display_real (blank_regs 0 0xFFFFF) 0xFFFF8).shown,
        b.abs ≤ checked_limit (blank_regs 0 0xFFFFF))
    ∧ (∀ b ∈ shown_bytes (dump_abs_page (blank_regs 0 0xFFFFF) 0xFF000 0xFF000 0xFF0 16 'A'
        64).2, b.abs ≤ (blank_regs 0 0xFFFFF).mainlim) :=
  have h := storage_reads_within_limit (blank_regs 0 0xFFFFF) 0xFFFF8 0xFF000 0xFF000 0xFF0 16
    'A' 64
  ⟨(h.1 (by decide)).1, (h.2 (by decide)).1⟩

/-- C1 (as stated) fails: with a storage limit inside a page frame
`display_real` fetches bytes beyond it, and with `mainlim = 0`
`dump_abs_page` dumps bytes 1 to 15. -/
theorem storage_reads_beyond_limit :
    (⟨0x1004, 0x1004, 0⟩ ∈ (display_real (blank_regs 0 0x1003) 0x1000).shown
      ∧ (blank_regs 0 0x1003).mainlim < 0x1004)
    ∧ ((dump_abs_page (blank_regs 0 0) 0 0 0 16 'A' 64).1 = 0
      ∧ ⟨15, 15, 0⟩ ∈ shown_bytes (dump_abs_page (blank_regs 0 0) 0 0 0 16 'A' 64).2
      ∧ (blank_regs 0 0).mainlim < 15) := by
  decide



/-! ### C2, C5, C6: range checks of `parse_range` at the edge of the address space -/

/-- C2 fails on the code: for a quoted string operand `parse_range` returns
without the range check, so for `FFFFFFFFFFFFFFFF="AB` it returns 2 with
start `2^64 - 1` and end `0` (end before start), and for `80000000="A` with
`maxadr = 0x7FFFFFFF` it returns 1 with start and end above `maxadr`. -/
theorem parse_range_quoted_skips_range_check (h2g : Char → Nat) :
    parse_range h2g (some "FFFFFFFFFFFFFFFF=\"AB".toList) 0xFFFFFFFFFFFFFFFF true
      = some ⟨2, 0xFFFFFFFFFFFFFFFF, 0, [h2g 'A', h2g 'B']⟩
    ∧ parse_range h2g (some "80000000=\"A".toList) 0x7FFFFFFF true
      = some ⟨1, 0x80000000, 0x80000000, [h2g 'A']⟩ := by
  constructor <;> rfl

/-- C5 fails on the code: for the bare start address `FFFFFFFFFFFFFFF0` and
`maxadr = 2^64 - 1` the sum `saddr + 0x3F` wraps around, and `parse_range`
returns -1 instead of the range clamped to `maxadr`. -/
theorem parse_range_default_window_wraps (h2g : Char → Nat) :
    parse_range h2g (some "FFFFFFFFFFFFFFF0".toList) 0xFFFFFFFFFFFFFFFF true = none := by
  rfl

/-- C6 fails on the code: for the operand `0.0` (length zero) and
`maxadr = 2^64 - 1` the end address `0 + 0 - 1` wraps around to `2^64 - 1`,
and `parse_range` returns 0 with the range `[0, 2^64 - 1]` instead of -1. -/
theorem parse_range_zero_length_accepted (h2g : Char → Nat) :
    parse_range h2g (some "0.0".toList) 0xFFFFFFFFFFFFFFFF true
      = some ⟨0, 0, 0xFFFFFFFFFFFFFFFF, []⟩ := by
  rfl

/-! ### The `sscanf` conversions on hexadecimal numerals -/

theorem isxdigit_mem (c : Char) (h : isxdigit c = true) : c ∈ HEX_DIGITS := by
  have hc : c = Char.ofNat c.toNat := (Char.ofNat_toNat c).symm
  simp only [isxdigit, Bool.or_eq_true, Bool.and_eq_true, decide_eq_true_eq] at h
  have hb : 48 ≤ c.toNat ∧ c.toNat ≤ 102 := by omega
  obtain ⟨h1, h2⟩ := hb
  rw [hc]
  generalize c.toNat = n at *
  interval_cases n <;> first | decide | omega

theorem hex_digit_facts : ∀ c ∈ HEX_DIGITS,
    isxdigit c = true ∧ isspace c = false ∧ c ≠ '-' ∧ c ≠ '+' ∧ c ≠ '=' ∧ c ≠ '#'
    ∧ c ≠ ' ' ∧ c ≠ '\t' ∧ c ≠ 'x' ∧ c ≠ 'X'
    ∧ xdigit_value c = hex_digit_value c
    ∧ hex_nibble c.toNat = (hex_digit_value c : Int)
    ∧ hex_digit_value c < 16 := by
  decide

theorem scan_digits_numeral (ds rest : List Char) (acc : Nat)
    (hds : ∀ c ∈ ds, c ∈ HEX_DIGITS)
    (hrest : ∀ c, rest.head? = some c → isxdigit c = false) :
    scan_digits (ds ++ rest) acc
      = (ds.foldl (fun a c => a * 16 + hex_digit_value c) acc, rest) := by
  induction ds generalizing acc with
  | nil =>
    cases rest with
    | nil => simp [scan_digits]
    | cons c r =>
      have := hrest c (by simp)
      simp [scan_digits, this]
  | cons c ds ih =>
    have hc := hex_digit_facts c (hds c (by simp))
    have ih2 := ih (acc * 16 + hex_digit_value c) (fun x hx => hds x (by simp [hx]))
    simp [scan_digits, hc.1, hc.2.2.2.2.2.2.2.2.2.2.1, ih2]

theorem scan_llx_numeral (ds rest : List Char) (hds : is_hex_numeral ds)
    (hv : hex_value ds < U64_MOD)
    (hrest : ∀ c, rest.head? = some c → isxdigit c = false ∧ c ≠ 'x' ∧ c ≠ 'X') :
    scan_llx (ds ++ rest) = some (hex_value ds, rest) := by
  obtain ⟨hne, hall⟩ := hds
  cases ds with
  | nil => exact absurd rfl hne
  | cons c ds =>
    have hc := hex_digit_facts c (hall c (by simp))
    have hsd := scan_digits_numeral (c :: ds) rest 0 hall (fun x hx => (hrest x hx).1)
    have hs3 : (match c :: (ds ++ rest) with
        | c0 :: cx :: r => if c0 = '0' ∧ (cx = 'x' ∨ cx = 'X') then r else c :: (ds ++ rest)
        | _ => c :: (ds ++ rest)) = c :: (ds ++ rest) := by
      cases hd : ds ++ rest with
      | nil => rfl
      | cons cx r =>
        have hcx : cx ≠ 'x' ∧ cx ≠ 'X' := by
          cases ds with
          | nil =>
            simp only [List.nil_append] at hd
            have := hrest cx (by simp [hd])
            exact this.2
          | cons d ds2 =>
            simp only [List.cons_append, List.cons.injEq] at hd
            have hd2 := hex_digit_facts d (hall d (by simp))
            rw [← hd.1]
            exact ⟨hd2.2.2.2.2.2.2.2.2.1, hd2.2.2.2.2.2.2.2.2.2.1⟩
        simp [hcx.1, hcx.2]
    have hnot : ¬ (c = '-' ∨ c = '+') := by
      intro h
      rcases h with h | h
      · exact hc.2.2.1 h
      · exact hc.2.2.2.1 h
    unfold scan_llx
    simp only [List.cons_append, List.dropWhile_cons, hc.2.1, Bool.false_eq_true, if_false,
      hnot, hs3, hc.1, if_true]
    rw [List.cons_append] at hsd
    rw [hsd]
    have hvv : ¬ U64_MOD ≤ hex_value (c :: ds) := by omega
    simp only [hex_value, List.foldl_cons, Nat.zero_mul, Nat.zero_add] at hvv ⊢
    simp only [hc.2.2.1, if_neg hvv]
    simp

theorem scan_llx_fail (c : Char) (rest : List Char)
    (hc : isspace c = false ∧ c ≠ '-' ∧ c ≠ '+' ∧ c ≠ '0' ∧ isxdigit c = false) :
    scan_llx (c :: rest) = none := by
  have hnot : ¬ (c = '-' ∨ c = '+') := by
    intro h
    rcases h with h | h
    · exact hc.2.1 h
    · exact hc.2.2.1 h
  have hs3 : (match c :: rest with
      | c0 :: cx :: r => if c0 = '0' ∧ (cx = 'x' ∨ cx = 'X') then r else c :: rest
      | _ => c :: rest) = c :: rest := by
    cases rest with
    | nil => rfl
    | cons cx r => simp [hc.2.2.2.1]
  unfold scan_llx
  simp only [List.dropWhile_cons, hc.1, Bool.false_eq_true, if_false, hnot, hs3,
    hc.2.2.2.2]

theorem strchr_numeral (ds rest : List Char) (hds : ∀ c ∈ ds, c ∈ HEX_DIGITS) :
    strchr (ds ++ '=' :: rest) '=' = some ('=' :: rest) := by
  induction ds with
  | nil => simp [strchr]
  | cons c ds ih =>
    have hc := hex_digit_facts c (hds c (by simp))
    simp [strchr, hc.2.2.2.2.1, ih (fun x hx => hds x (by simp [hx]))]

theorem sub64_add64_one (s m : Nat) (hm : 1 ≤ m) :
    sub64 (add64 s m) 1 = (s + m - 1) % U64_MOD := by
  simp only [sub64, add64, U64_MOD]
  omega

/-! ### C7: quoted string alteration operands -/

theorem sscanf_range_quoted (ds : List Char) (q : Char) (str : List Char)
    (hds : is_hex_numeral ds) (hv : hex_value ds < U64_MOD) (hq : q = '"' ∨ q = '\'') :
    sscanf_range (ds ++ '=' :: q :: str)
      = ⟨2, hex_value ds, '=', 0, Char.ofNat 0⟩ := by
  have h1 := scan_llx_numeral ds ('=' :: q :: str) hds hv (by
    intro c hc
    simp only [List.head?_cons, Option.some.injEq] at hc
    subst hc
    decide)
  have h2 : scan_llx (q :: str) = none := by
    apply scan_llx_fail
    rcases hq with rfl | rfl <;> decide
  unfold sscanf_range
  rw [h1]
  simp only [h2]

/-- C7: for an operand `s="chars` (or with a single quote) with `m`
characters after the opening quote, `parse_range` returns `m` when
`1 <= m <= 32`, with `newval[i] = host_to_guest(chars[i])`, start `s` and end
`s + m - 1` (in 64-bit arithmetic), and returns -1 when `m = 0` or
`m > 32`. -/
theorem parse_range_quoted_string (h2g : Char → Nat) (ds : List Char) (q : Char)
    (str : List Char) (maxadr : Nat)
    (hds : is_hex_numeral ds) (hv : hex_value ds < U64_MOD) (hq : q = '"' ∨ q = '\'') :
    (1 ≤ str.length ∧ str.length ≤ 32 →
      parse_range h2g (some (ds ++ '=' :: q :: str)) maxadr true
        = some ⟨str.length, hex_value ds, (hex_value ds + str.length - 1) % U64_MOD,
            str.map h2g⟩)
    ∧ (str.length = 0 ∨ 32 < str.length →
      parse_range h2g (some (ds ++ '=' :: q :: str)) maxadr true = none) := by
  have hsc := sscanf_range_quoted ds q str hds hv hq
  have hst := strchr_numeral ds (q :: str) hds.2
  constructor
  · rintro ⟨h1, h2⟩
    unfold parse_range
    simp only [hsc, hst, hq, and_self, if_true]
    rw [if_neg (by omega), if_neg (by omega), sub64_add64_one _ _ h1]
  · intro h
    unfold parse_range
    simp only [hsc, hst, hq, and_self, if_true]
    rcases h with h | h
    · rw [if_pos h]
    · rw [if_neg (by omega), if_pos h]

/-- Witness of `parse_range_quoted_string`: the operand `1000="AB`. -/
theorem parse_range_quoted_string_witness :
    parse_range (fun c => c.toNat) (some ("1000".toList ++ '=' :: '"' :: "AB".toList))
      0xFFFFFFFFFFFFFFFF true = some ⟨2, 0x1000, 0x1001, [65, 66]⟩ :=
  (parse_range_quoted_string (fun c => c.toNat) "1000".toList '"' "AB".toList
    0xFFFFFFFFFFFFFFFF (by decide) (by decide) (by decide)).1 (by decide)

/-! ### C4: hexadecimal alteration operands -/

theorem alter_loop_cons (c : Char) (rest : List Char) (acc : List Nat) :
    alter_loop (c :: rest) acc =
      if c = '#' then some acc
      else if c = ' ' ∨ c = '\t' then alter_loop rest acc
      else if hex_nibble c.toNat < 0 then none
      else
        match rest with
        | [] => none
        | c2 :: rest2 =>
          if hex_nibble c2.toNat < 0 then none
          else if 32 ≤ acc.length then none
          else alter_loop rest2
            (acc ++ [((hex_nibble c.toNat).toNat <<< 4) ||| (hex_nibble c2.toNat).toNat]) := by
  rw [alter_loop.eq_def]

theorem alter_loop_gap (g rest : List Char) (acc : List Nat) (hg : is_gap g) :
    alter_loop (g ++ rest) acc = alter_loop rest acc := by
  induction g with
  | nil => rfl
  | cons c g ih =>
    have hc : c = ' ' ∨ c = '\t' := hg c (by simp)
    have ih2 := ih (fun x hx => hg x (by simp [hx]))
    rcases hc with rfl | rfl
    · rw [List.cons_append, alter_loop_cons]
      simp [ih2]
    · rw [List.cons_append, alter_loop_cons]
      simp [ih2]

theorem alter_loop_end (gap : List Char) (comment : Option (List Char)) (acc : List Nat)
    (hg : is_gap gap) : alter_loop (hex_end gap comment) acc = some acc := by
  unfold hex_end
  rw [alter_loop_gap _ _ _ hg]
  cases comment with
  | none => simp [alter_loop]
  | some r =>
    simp only []
    rw [alter_loop_cons]
    simp

theorem nibbles_value (a b : Nat) (hb : b < 16) : (a <<< 4) ||| b = 16 * a + b := by
  have h := Nat.mul_add_lt_is_or (show b < 2 ^ 4 by simpa using hb) a
  rw [Nat.shiftLeft_eq, Nat.mul_comm a (2 ^ 4), ← h]

theorem alter_loop_pair (p : HexPair) (rest : List Char) (acc : List Nat) (hp : p.ok) :
    alter_loop (p.gap ++ p.hi :: p.lo :: rest) acc
      = if 32 ≤ acc.length then none else alter_loop rest (acc ++ [p.value]) := by
  obtain ⟨hg, hhi, hlo⟩ := hp
  have h1 := hex_digit_facts p.hi hhi
  have h2 := hex_digit_facts p.lo hlo
  obtain ⟨-, -, -, -, -, h1h, h1b, h1t, -, -, -, h1n, -⟩ := h1
  obtain ⟨-, -, -, -, -, -, -, -, -, -, -, h2n, h2v⟩ := h2
  rw [alter_loop_gap _ _ _ hg]
  have hnot : ¬ (p.hi = ' ' ∨ p.hi = '\t') := by
    intro h
    rcases h with h | h
    · exact h1b h
    · exact h1t h
  have hn1 : ¬ (hex_nibble p.hi.toNat < 0) := by rw [h1n]; omega
  have hn2 : ¬ (hex_nibble p.lo.toNat < 0) := by rw [h2n]; omega
  rw [alter_loop_cons]
  simp only [h1h, hnot, hn1, hn2, if_false]
  simp only [h1n, h2n, Int.toNat_ofNat, nibbles_value _ _ h2v, HexPair.value]

theorem alter_loop_pairs (ps : List HexPair) (tail : List Char) (acc : List Nat)
    (hps : ∀ p ∈ ps, p.ok) (hacc : acc.length ≤ 32) :
    alter_loop (pairs_text ps ++ tail) acc
      = if acc.length + ps.length ≤ 32 then
          alter_loop tail (acc ++ ps.map HexPair.value)
        else none := by
  induction ps generalizing acc with
  | nil => simp [pairs_text, hacc]
  | cons p ps ih =>
    have hp := hps p (by simp)
    simp only [pairs_text, List.append_assoc, List.cons_append]
    rw [alter_loop_pair p _ acc hp]
    by_cases h32 : 32 ≤ acc.length
    · rw [if_pos h32, if_neg]
      simp only [List.length_cons]
      omega
    · rw [if_neg h32, ih (acc ++ [p.value]) (fun x hx => hps x (by simp [hx]))
        (by simp only [List.length_append, List.length_singleton]; omega)]
      simp only [List.length_append, List.length_singleton, List.length_cons, List.map_cons,
        List.append_assoc, List.singleton_append, List.length_nil, Nat.zero_add]
      split_ifs <;> first | rfl | (exfalso; omega)

theorem scan_llx_gap (g rest : List Char) (hg : is_gap g) :
    scan_llx (g ++ rest) = scan_llx rest := by
  have hd : (g ++ rest).dropWhile isspace = rest.dropWhile isspace := by
    induction g with
    | nil => rfl
    | cons c g ih =>
      have hc : c = ' ' ∨ c = '\t' := hg c (by simp)
      have hsp : isspace c = true := by rcases hc with rfl | rfl <;> decide
      simp [List.dropWhile_cons, hsp, ih (fun x hx => hg x (by simp [hx]))]
  unfold scan_llx
  rw [hd]

theorem scan_llx_pair (p : HexPair) (rest : List Char) (hp : p.ok) :
    ∃ v r, scan_llx (p.gap ++ p.hi :: p.lo :: rest) = some (v, r) := by
  obtain ⟨hg, hhi, hlo⟩ := hp
  have h1 := hex_digit_facts p.hi hhi
  have h2 := hex_digit_facts p.lo hlo
  rw [scan_llx_gap _ _ hg]
  have hnot : ¬ (p.hi = '-' ∨ p.hi = '+') := by
    intro h
    rcases h with h | h
    · exact h1.2.2.1 h
    · exact h1.2.2.2.1 h
  have hx : ¬ (p.lo = 'x' ∨ p.lo = 'X') := by
    intro h
    rcases h with h | h
    · exact h2.2.2.2.2.2.2.2.2.1 h
    · exact h2.2.2.2.2.2.2.2.2.2.1 h
  unfold scan_llx
  simp only [List.dropWhile_cons, h1.2.1, Bool.false_eq_true, if_false, hnot, hx, and_false,
    h1.1, if_true]
  exact ⟨_, _, rfl⟩

theorem sscanf_range_hex (ds body : List Char) (v : Nat) (r : List Char)
    (hds : is_hex_numeral ds) (hv : hex_value ds < U64_MOD)
    (hbody : scan_llx body = some (v, r)) :
    2 < (sscanf_range (ds ++ '=' :: body)).rc
    ∧ (sscanf_range (ds ++ '=' :: body)).delim = '='
    ∧ (sscanf_range (ds ++ '=' :: body)).opnd1 = hex_value ds := by
  have h1 := scan_llx_numeral ds ('=' :: body) hds hv (by
    intro c hc
    simp only [List.head?_cons, Option.some.injEq] at hc
    subst hc
    decide)
  unfold sscanf_range
  rw [h1]
  simp only [hbody]
  cases r <;> simp

theorem parse_range_hex_eval (h2g : Char → Nat) (ds : List Char) (ps : List HexPair)
    (gap : List Char) (comment : Option (List Char)) (maxadr : Nat)
    (hds : is_hex_numeral ds) (hv : hex_value ds < U64_MOD) (hps : ∀ p ∈ ps, p.ok)
    (hgap : is_gap gap) (hk : 1 ≤ ps.length) :
    parse_range h2g (some (ds ++ '=' :: (pairs_text ps ++ hex_end gap comment))) maxadr true
      = if ps.length ≤ 32 then
          if maxadr < hex_value ds ∨ maxadr < sub64 (add64 (hex_value ds) ps.length) 1
              ∨ sub64 (add64 (hex_value ds) ps.length) 1 < hex_value ds then none
          else some ⟨ps.length, hex_value ds, sub64 (add64 (hex_value ds) ps.length) 1,
            ps.map HexPair.value⟩
        else none := by
  cases ps with
  | nil => simp at hk
  | cons p ps =>
    obtain ⟨v, r, hscan⟩ := scan_llx_pair p (pairs_text ps ++ hex_end gap comment)
      (hps p (by simp))
    have hbody : pairs_text (p :: ps) ++ hex_end gap comment
        = p.gap ++ p.hi :: p.lo :: (pairs_text ps ++ hex_end gap comment) := by
      simp [pairs_text]
    rw [← hbody] at hscan
    obtain ⟨hrc, hdelim, hopnd⟩ := sscanf_range_hex ds _ v r hds hv hscan
    have hst := strchr_numeral ds (pairs_text (p :: ps) ++ hex_end gap comment) hds.2
    have hloop := alter_loop_pairs (p :: ps) (hex_end gap comment) [] hps (by simp)
    rw [alter_loop_end _ _ _ hgap] at hloop
    have hrc2 : ¬ (sscanf_range (ds ++ '=' :: (pairs_text (p :: ps) ++ hex_end gap comment))).rc
        = 2 := by omega
    unfold parse_range
    simp only [hrc2, false_and, if_false, hrc, hdelim, hopnd, hst, hloop, true_and, if_true,
      List.length_nil, Nat.zero_add, List.nil_append]
    by_cases h32 : (p :: ps).length ≤ 32
    · simp only [if_pos h32, List.length_map]
    · simp only [if_neg h32]

/-- C4: for an operand `s=` followed by `k` pairs of hexadecimal digits
(blanks or tabs allowed in front of each pair and after the last one, the
text ends at the end of the string or at a `#`) with `s + k - 1 <= maxadr`:
if `1 <= k <= 32`, `parse_range` returns `k`, `newval` holds the values of
the pairs in order, start is `s` and end is `s + k - 1`; if `k >= 33` it
returns -1. -/
theorem parse_range_hex_pairs (h2g : Char → Nat) (ds : List Char) (ps : List HexPair)
    (gap : List Char) (comment : Option (List Char)) (maxadr : Nat)
    (hds : is_hex_numeral ds) (hps : ∀ p ∈ ps, p.ok) (hgap : is_gap gap)
    (hmax : maxadr < U64_MOD) (hrange : hex_value ds + ps.length - 1 ≤ maxadr) :
    (1 ≤ ps.length ∧ ps.length ≤ 32 →
      parse_range h2g (some (ds ++ '=' :: (pairs_text ps ++ hex_end gap comment))) maxadr true
        = some ⟨ps.length, hex_value ds, hex_value ds + ps.length - 1,
            ps.map HexPair.value⟩)
    ∧ (33 ≤ ps.length →
      parse_range h2g (some (ds ++ '=' :: (pairs_text ps ++ hex_end gap comment))) maxadr true
        = none) := by
  constructor
  · rintro ⟨h1, h2⟩
    have hv : hex_value ds < U64_MOD := by omega
    rw [parse_range_hex_eval h2g ds ps gap comment maxadr hds hv hps hgap h1, if_pos h2,
      sub64_add64_one _ _ h1]
    have hm : (hex_value ds + ps.length - 1) % U64_MOD = hex_value ds + ps.length - 1 :=
      Nat.mod_eq_of_lt (by omega)
    rw [hm, if_neg (by omega)]
  · intro h
    have hv : hex_value ds < U64_MOD := by omega
    rw [parse_range_hex_eval h2g ds ps gap comment maxadr hds hv hps hgap (by omega),
      if_neg (by omega)]

/-- Witness of `parse_range_hex_pairs`: the operand `1000=C1 c2`. -/
theorem parse_range_hex_pairs_witness :
    parse_range (fun c => c.toNat)
      (some ("1000".toList ++ '=' :: (pairs_text [⟨[], 'C', '1'⟩, ⟨[' '], 'c', '2'⟩]
        ++ hex_end [] none))) 0xFFFFFFFFFFFFFFFF true
      = some ⟨2, 0x1000, 0x1001, [0xC1, 0xC2]⟩ :=
  (parse_range_hex_pairs (fun c => c.toNat) "1000".toList [⟨[], 'C', '1'⟩, ⟨[' '], 'c', '2'⟩]
    [] none 0xFFFFFFFFFFFFFFFF (by decide) (by decide) (by decide) (by decide)
    (by decide)).1 (by decide)

/-! ### C8: a parse error ends the command -/

/-- C8: when the `parse_range` call of `alter_display_real_or_abs`, resp. of
`alter_display_virt`, returns -1, the command returns with main storage
unchanged, no byte stored and no storage dump among its messages. -/
theorem parse_error_aborts (h2g : Char → Nat) (logical_to_main_l : Translator)
    (sysblk : SYSBLK) (regs : REGS) (argv0 cmdline : List Char) :
    (∀ (cmd : Char) (opnd : List Char),
      real_or_abs_operand argv0 cmdline = some (cmd, opnd) →
      parse_range h2g (some opnd) 0xFFFFFFFFFFFFFFFF true = none →
      ∃ out, alter_display_real_or_abs h2g sysblk regs argv0 (some cmdline) = some out
        ∧ out.regs = regs ∧ out.writes = [] ∧ ∀ m ∈ out.msgs, m.is_dump = false)
    ∧ (parse_range h2g (some (virt_operand cmdline).2) 0xFFFFFFFFFFFFFFFF true = none →
      ∃ out, alter_display_virt h2g logical_to_main_l sysblk regs (some cmdline) = some out
        ∧ out.regs = regs ∧ out.writes = [] ∧ ∀ m ∈ out.msgs, m.is_dump = false) := by
  constructor
  · intro cmd opnd hop hreal
    unfold alter_display_real_or_abs
    by_cases hlen : cmdline.length < 3
    · exact ⟨⟨regs, [], [Msg.HHC17000]⟩, by simp [hlen], rfl, rfl, by simp [Msg.is_dump]⟩
    · exact ⟨⟨regs, [], [Msg.parse_error]⟩, by simp [hlen, hop, hreal], rfl, rfl,
        by simp [Msg.is_dump]⟩
  · intro hvirt
    unfold alter_display_virt
    by_cases hlen : cmdline.length < 3
    · exact ⟨⟨regs, [], [Msg.HHC17000]⟩, by simp [hlen], rfl, rfl, by simp [Msg.is_dump]⟩
    · exact ⟨⟨regs, [], [Msg.parse_error]⟩, by simp [hlen, hvirt], rfl, rfl,
        by simp [Msg.is_dump]⟩

/-- Witness of `parse_error_aborts`: the command lines `r 10-` and `v 10-`
with a one megabyte storage. -/
theorem parse_error_aborts_witness :
    (∃ out, alter_display_real_or_abs (fun c => c.toNat) ⟨ARCH_900_IDX⟩ (blank_regs 0 0xFFFFF)
        ['r'] (some "r 10-".toList) = some out
      ∧ out.regs = blank_regs 0 0xFFFFF ∧ out.writes = [] ∧ ∀ m ∈ out.msgs, m.is_dump = false)
    ∧ (∃ out, alter_display_virt (fun c => c.toNat) (example_translator fun _ => true)
        ⟨ARCH_900_IDX⟩ (blank_regs 0 0xFFFFF) (some "v 10-".toList) = some out
      ∧ out.regs = blank_regs 0 0xFFFFF ∧ out.writes = [] ∧ ∀ m ∈ out.msgs, m.is_dump = false) :=
  ⟨(parse_error_aborts (fun c => c.toNat) (example_translator fun _ => true) ⟨ARCH_900_IDX⟩
      (blank_regs 0 0xFFFFF) ['r'] "r 10-".toList).1 'R' "10-".toList (by decide) (by decide),
    (parse_error_aborts (fun c => c.toNat) (example_translator fun _ => true) ⟨ARCH_900_IDX⟩
      (blank_regs 0 0xFFFFF) ['v'] "v 10-".toList).2 (by decide)⟩

/-! ### C9: prefixing and the case of the command letter -/

/-- C9 fails on the code: for the command line `r 0="A"` (lower case command
letter, quoted string) the line is not upper-cased, the command letter
compared with `'R'` is `'r'`, and the byte is stored at absolute address 0,
not at `APPLY_PREFIXING(0, PX) = 0x2000`; with `R 0="A"` and with the
hexadecimal form `r 0=C1` it is stored at `0x2000`. -/
theorem real_quoted_lower_case_not_prefixed :
    (alter_display_real_or_abs (fun c => c.toNat) ⟨ARCH_900_IDX⟩ (blank_regs 0x2000 0xFFFFF)
        ['r'] (some "r 0=\"A\"".toList)).map Outcome.writes = some [(0, 65)]
    ∧ APPLY_PREFIXING 0 (blank_regs 0x2000 0xFFFFF).PX = 0x2000
    ∧ (alter_display_real_or_abs (fun c => c.toNat) ⟨ARCH_900_IDX⟩ (blank_regs 0x2000 0xFFFFF)
        ['r'] (some "R 0=\"A\"".toList)).map Outcome.writes = some [(0x2000, 65)]
    ∧ (alter_display_real_or_abs (fun c => c.toNat) ⟨ARCH_900_IDX⟩ (blank_regs 0x2000 0xFFFFF)
        ['r'] (some "r 0=C1".toList)).map Outcome.writes = some [(0x2000, 0xC1)] := by
  decide

/-! ### C10: an alteration that runs into an exception -/

theorem stored_PX (ws : List (Nat × Nat)) : ∀ regs : REGS, (stored regs ws).PX = regs.PX := by
  induction ws with
  | nil => intro regs; rfl
  | cons w ws ih => intro regs; rw [stored, ih]; rfl

theorem stored_mainlim (ws : List (Nat × Nat)) :
    ∀ regs : REGS, (stored regs ws).mainlim = regs.mainlim := by
  induction ws with
  | nil => intro regs; rfl
  | cons w ws ih => intro regs; rw [stored, ih]; rfl

theorem stored_frame (a : Nat) (ws : List (Nat × Nat)) :
    ∀ regs : REGS, (∀ w ∈ ws, w.1 ≠ a) → (stored regs ws).mainstor a = regs.mainstor a := by
  induction ws with
  | nil => intro regs _; rfl
  | cons w ws ih =>
    intro regs h
    rw [stored, ih _ (fun x hx => h x (by simp [hx]))]
    have hw : a ≠ w.1 := fun e => h w (by simp) e.symm
    simp [REGS.store, hw]

theorem alter_real_or_abs_loop_fault (cmd : Char) (saddr : Nat) :
    ∀ (k : Nat) (bs : List Nat) (i : Nat) (regs : REGS),
      k < bs.length →
      (∀ j < k, real_or_abs_aaddr cmd regs.PX (add64 saddr (i + j)) ≤ regs.mainlim) →
      regs.mainlim < real_or_abs_aaddr cmd regs.PX (add64 saddr (i + k)) →
      alter_real_or_abs_loop cmd saddr bs i regs =
        ⟨stored regs ((List.range k).map fun j =>
            (real_or_abs_aaddr cmd regs.PX (add64 saddr (i + j)), bs.getD j 0)),
          (List.range k).map fun j =>
            (real_or_abs_aaddr cmd regs.PX (add64 saddr (i + j)), bs.getD j 0),
          some (Msg.HHC02328 'A' (real_or_abs_aaddr cmd regs.PX (add64 saddr (i + k))))⟩ := by
  intro k
  induction k with
  | zero =>
    intro bs i regs hk _ hf
    cases bs with
    | nil => simp at hk
    | cons b bs =>
      simp only [real_or_abs_aaddr, Nat.add_zero] at hf
      simp [alter_real_or_abs_loop, real_or_abs_aaddr, hf, stored]
  | succ k ih =>
    intro bs i regs hk hle hf
    cases bs with
    | nil => simp at hk
    | cons b bs =>
      have h0 := hle 0 (by omega)
      simp only [real_or_abs_aaddr, Nat.add_zero] at h0
      have ih2 := ih bs (i + 1)
        (regs.store (real_or_abs_aaddr cmd regs.PX (add64 saddr i)) b)
        (by simpa using hk)
        (fun j hj => by
          have := hle (j + 1) (by omega)
          rw [show i + (j + 1) = i + 1 + j by omega] at this
          exact this)
        (by
          rw [show i + (k + 1) = i + 1 + k by omega] at hf
          exact hf)
      have hst : (regs.store (real_or_abs_aaddr cmd regs.PX (add64 saddr i)) b).PX = regs.PX :=
        rfl
      rw [hst] at ih2
      simp only [real_or_abs_aaddr] at ih2
      rw [alter_real_or_abs_loop]
      simp only [if_neg (not_lt.mpr h0), ih2]
      simp only [List.range_succ_eq_map, List.map_cons, List.map_map, stored, Nat.add_zero,
        List.getD_cons_zero, real_or_abs_aaddr]
      have hfun : ((fun j => (if cmd = 'R' then APPLY_PREFIXING (add64 saddr (i + j)) regs.PX
            else add64 saddr (i + j), (b :: bs).getD j 0)) ∘ Nat.succ)
          = fun j => (if cmd = 'R' then APPLY_PREFIXING (add64 saddr (i + 1 + j)) regs.PX
            else add64 saddr (i + 1 + j), bs.getD j 0) := by
        funext j
        simp only [Function.comp, Nat.succ_eq_add_one, List.getD_cons_succ]
        rw [show i + (j + 1) = i + 1 + j by omega]
      rw [hfun, show i + (k + 1) = i + 1 + k by omega]

theorem alter_virt_loop_fault (logical_to_main_l : Translator) (arn : Arn) (saddr : Nat) :
    ∀ (as bs : List Nat) (i : Nat) (regs : REGS),
      as.length < bs.length →
      (∀ j < as.length,
        virt_resolve logical_to_main_l arn (stored regs ((as.take j).zip bs))
          (add64 saddr (i + j)) = some (as.getD j 0)) →
      virt_resolve logical_to_main_l arn (stored regs (as.zip bs))
        (add64 saddr (i + as.length)) = none →
      ∃ m, m.is_dump = false ∧
        alter_virt_loop logical_to_main_l arn saddr bs i regs
          = ⟨stored regs (as.zip bs), as.zip bs, some m⟩ := by
  intro as
  induction as with
  | nil =>
    intro bs i regs hk _ hf
    cases bs with
    | nil => simp at hk
    | cons b bs =>
      simp only [List.zip_nil_left, stored, List.length_nil, Nat.add_zero] at hf ⊢
      unfold virt_resolve at hf
      rw [alter_virt_loop]
      by_cases hx : (virt_to_real logical_to_main_l (add64 saddr i) arn regs
          AccType.ACCTYPE_HW).icode % 65536 ≠ 0
      · simp only [if_pos hx]
        refine ⟨_, ?_, rfl⟩
        rfl
      · rw [if_neg hx] at hf
        by_cases hl : regs.mainlim < APPLY_PREFIXING (virt_to_real logical_to_main_l
            (add64 saddr i) arn regs AccType.ACCTYPE_HW).raddr regs.PX
        · simp only [if_neg hx, if_pos hl]
          refine ⟨_, ?_, rfl⟩
          rfl
        · rw [if_neg hl] at hf
          simp at hf
  | cons a as ih =>
    intro bs i regs hk hok hf
    cases bs with
    | nil => simp at hk
    | cons b bs =>
      have h0 := hok 0 (by simp)
      simp only [List.take_zero, List.zip_nil_left, stored, Nat.add_zero,
        List.getD_cons_zero] at h0
      unfold virt_resolve at h0
      by_cases hx : (virt_to_real logical_to_main_l (add64 saddr i) arn regs
          AccType.ACCTYPE_HW).icode % 65536 ≠ 0
      · rw [if_pos hx] at h0
        simp at h0
      · rw [if_neg hx] at h0
        by_cases hl : regs.mainlim < APPLY_PREFIXING (virt_to_real logical_to_main_l
            (add64 saddr i) arn regs AccType.ACCTYPE_HW).raddr regs.PX
        · rw [if_pos hl] at h0
          simp at h0
        · rw [if_neg hl] at h0
          simp only [Option.some.injEq] at h0
          obtain ⟨m, hm, hloop⟩ := ih bs (i + 1) (regs.store a b)
            (by simpa using hk)
            (fun j hj => by
              have := hok (j + 1) (by simp only [List.length_cons]; omega)
              simp only [List.take_succ_cons, List.zip_cons_cons, stored,
                List.getD_cons_succ] at this
              rw [show i + (j + 1) = i + 1 + j by omega] at this
              exact this)
            (by
              simp only [List.zip_cons_cons, stored, List.length_cons] at hf
              rw [show i + (as.length + 1) = i + 1 + as.length by omega] at hf
              exact hf)
          refine ⟨m, hm, ?_⟩
          rw [alter_virt_loop]
          simp only [if_neg hx, if_neg hl, h0, hloop, List.zip_cons_cons, stored]
          rw [h0] at hl
          rw [if_neg hl]
          rfl

theorem sub64_of_le (a b : Nat) (ha : a < U64_MOD) (hb : b ≤ a) : sub64 a b = a - b := by
  simp only [sub64, U64_MOD] at *
  omega

theorem dump_loop_virt_terminates (logical_to_main_l : Translator) (arn : Arn) (regs : REGS)
    (addrwid : Nat) :
    ∀ (fuel pageadr pageoff pageamt totamt : Nat),
      1 ≤ pageamt → 1 ≤ totamt → totamt ≤ fuel → totamt < U64_MOD →
      ∃ msgs, dump_loop_virt logical_to_main_l arn regs addrwid fuel pageadr pageoff pageamt
        totamt = some msgs := by
  intro fuel
  induction fuel with
  | zero => intro _ _ _ totamt _ h1 h2 _; omega
  | succ fuel ih =>
    intro pageadr pageoff pageamt totamt hp ht hf hm
    have hpa : 1 ≤ (if totamt < pageamt then totamt else pageamt)
        ∧ (if totamt < pageamt then totamt else pageamt) ≤ totamt := by
      split_ifs <;> omega
    rw [dump_loop_virt]
    simp only []
    generalize (if totamt < pageamt then totamt else pageamt) = pa at hpa ⊢
    rw [sub64_of_le totamt pa hm hpa.2]
    split_ifs with h1 h2 h3
    · exact ⟨_, rfl⟩
    · exact ⟨_, rfl⟩
    · exact ⟨_, rfl⟩
    · obtain ⟨more, hmore⟩ := ih (add64 pageadr PAGEFRAME_PAGESIZE) 0 PAGEFRAME_PAGESIZE
        (totamt - pa) (by simp [PAGEFRAME_PAGESIZE]) (by omega) (by omega) (by omega)
      rw [hmore]
      exact ⟨_, rfl⟩
    · obtain ⟨more, hmore⟩ := ih (add64 pageadr PAGEFRAME_PAGESIZE) 0 PAGEFRAME_PAGESIZE
        (totamt - pa) (by simp [PAGEFRAME_PAGESIZE]) (by omega) (by omega) (by omega)
      rw [hmore]
      exact ⟨_, rfl⟩

/-! ### Shape of every result of `parse_range` -/

theorem sub64_lt (a b : Nat) : sub64 a b < U64_MOD := by
  simp only [sub64, U64_MOD]
  omega

theorem add64_lt (a b : Nat) : add64 a b < U64_MOD := by
  simp only [add64, U64_MOD]
  omega

theorem scan_llx_lt (s : List Char) (v : Nat) (r : List Char)
    (h : scan_llx s = some (v, r)) : v < U64_MOD := by
  unfold scan_llx at h
  simp only [] at h
  split at h
  · simp at h
  · split at h
    · simp only [Option.some.injEq, Prod.mk.injEq] at h
      rw [← h.1]
      split_ifs
      · exact sub64_lt _ _
      · exact sub64_lt _ _
      · simp [U64_MOD]
      · omega
    · simp at h

theorem sscanf_range_opnd1_lt (s : List Char) : (sscanf_range s).opnd1 < U64_MOD := by
  unfold sscanf_range
  cases h1 : scan_llx s with
  | none => simp [U64_MOD]
  | some p =>
    obtain ⟨v1, r1⟩ := p
    have hv := scan_llx_lt s v1 r1 h1
    cases r1 with
    | nil => exact hv
    | cons d r2 =>
      simp only []
      cases h2 : scan_llx r2 with
      | none => exact hv
      | some q =>
        obtain ⟨v2, r3⟩ := q
        cases r3 <;> exact hv

theorem alter_loop_length (n : Nat) :
    ∀ (s : List Char) (acc bytes : List Nat), s.length ≤ n → acc.length ≤ 32 →
      alter_loop s acc = some bytes → bytes.length ≤ 32 := by
  induction n with
  | zero =>
    intro s acc bytes hs hacc h
    cases s with
    | nil =>
      simp only [alter_loop, Option.some.injEq] at h
      rw [← h]; exact hacc
    | cons c rest => simp at hs
  | succ n ih =>
    intro s acc bytes hs hacc h
    cases s with
    | nil =>
      simp only [alter_loop, Option.some.injEq] at h
      rw [← h]; exact hacc
    | cons c rest =>
      rw [alter_loop_cons] at h
      simp only [List.length_cons] at hs
      by_cases h1 : c = '#'
      · rw [if_pos h1] at h
        simp only [Option.some.injEq] at h
        rw [← h]; exact hacc
      · rw [if_neg h1] at h
        by_cases h2 : c = ' ' ∨ c = '\t'
        · rw [if_pos h2] at h
          exact ih rest acc bytes (by omega) hacc h
        · rw [if_neg h2] at h
          by_cases h3 : hex_nibble c.toNat < 0
          · rw [if_pos h3] at h
            simp at h
          · rw [if_neg h3] at h
            cases rest with
            | nil => simp at h
            | cons c2 rest2 =>
              simp only [List.length_cons] at hs
              simp only [] at h
              by_cases h4 : hex_nibble c2.toNat < 0
              · rw [if_pos h4] at h
                simp at h
              · rw [if_neg h4] at h
                by_cases h5 : 32 ≤ acc.length
                · rw [if_pos h5] at h
                  simp at h
                · rw [if_neg h5] at h
                  exact ih rest2 _ bytes (by omega)
                    (by simp only [List.length_append, List.length_singleton]; omega) h

theorem parse_range_shape (h2g : Char → Nat) (operand : List Char) (maxadr : Nat)
    (newval : Bool) (r : Range)
    (h : parse_range h2g (some operand) maxadr newval = some r) :
    r.saddr < U64_MOD ∧ r.newval.length = r.n ∧ r.n ≤ 32
    ∧ (0 < r.n → r.eaddr = sub64 (add64 r.saddr r.n) 1) := by
  have hlt := sscanf_range_opnd1_lt operand
  unfold parse_range at h
  simp only [] at h
  split at h
  · next str hq =>
    by_cases h1 : str.length = 0
    · rw [if_pos h1] at h
      simp at h
    · rw [if_neg h1] at h
      by_cases h2 : 32 < str.length
      · rw [if_pos h2] at h
        simp at h
      · rw [if_neg h2] at h
        simp only [Option.some.injEq] at h
        rw [← h]
        refine ⟨hlt, by simp, by simp only []; omega, fun _ => rfl⟩
  · split at h
    · simp at h
    · next n saddr eaddr bytes hb =>
      by_cases h1 : maxadr < saddr ∨ maxadr < eaddr ∨ eaddr < saddr
      · rw [if_pos h1] at h
        simp at h
      · rw [if_neg h1] at h
        simp only [Option.some.injEq] at h
        rw [← h]
        simp only []
        by_cases h2 : 2 < (sscanf_range operand).rc ∧ (sscanf_range operand).delim = '='
            ∧ newval = true
        · rw [if_pos h2] at hb
          split at hb
          · next e s hst =>
            split at hb
            · simp at hb
            · next bs hloop =>
              simp only [Option.some.injEq, Prod.mk.injEq] at hb
              obtain ⟨rfl, rfl, rfl, rfl⟩ := hb
              have := alter_loop_length s.length s [] bs (le_refl _) (by simp) hloop
              exact ⟨hlt, rfl, this, fun _ => rfl⟩
          · simp at hb
        · rw [if_neg h2] at hb
          by_cases h3 : (sscanf_range operand).rc = 1
          · rw [if_pos h3] at hb
            simp only [Option.some.injEq, Prod.mk.injEq] at hb
            obtain ⟨rfl, rfl, -, rfl⟩ := hb
            exact ⟨hlt, rfl, by omega, fun h0 => absurd h0 (by omega)⟩
          · rw [if_neg h3] at hb
            by_cases h4 : (sscanf_range operand).rc ≠ 3
                ∨ ¬ ((sscanf_range operand).delim = '-' ∨ (sscanf_range operand).delim = '.')
            · rw [if_pos h4] at hb
              simp at hb
            · rw [if_neg h4] at hb
              simp only [Option.some.injEq, Prod.mk.injEq] at hb
              obtain ⟨rfl, rfl, -, rfl⟩ := hb
              exact ⟨hlt, rfl, by omega, fun h0 => absurd h0 (by omega)⟩

/-! ### C10: the commands -/

theorem real_or_abs_fault (h2g : Char → Nat) (sysblk : SYSBLK) (regs : REGS)
    (argv0 cmdline : List Char) (cmd : Char) (opnd : List Char) (r : Range) (k : Nat)
    (hlim : regs.mainlim ≠ 0) (hlen : 3 ≤ cmdline.length)
    (hop : real_or_abs_operand argv0 cmdline = some (cmd, opnd))
    (hparse : parse_range h2g (some opnd) 0xFFFFFFFFFFFFFFFF true = some r)
    (hk : k < r.newval.length)
    (hok : ∀ j < k, real_or_abs_aaddr cmd regs.PX (add64 r.saddr j) ≤ regs.mainlim)
    (hf : regs.mainlim < real_or_abs_aaddr cmd regs.PX (add64 r.saddr k)) :
    ∃ out, alter_display_real_or_abs h2g sysblk regs argv0 (some cmdline) = some out
      ∧ out.writes = (List.range k).map (fun j =>
          (real_or_abs_aaddr cmd regs.PX (add64 r.saddr j), r.newval.getD j 0))
      ∧ out.regs = stored regs out.writes
      ∧ (∀ a, (∀ j < k, a ≠ real_or_abs_aaddr cmd regs.PX (add64 r.saddr j)) →
          out.regs.mainstor a = regs.mainstor a)
      ∧ ∀ m ∈ out.msgs, m.is_dump = false := by
  have hloop := alter_real_or_abs_loop_fault cmd r.saddr k r.newval 0 regs hk
    (by simpa using hok) (by simpa using hf)
  simp only [Nat.zero_add] at hloop
  refine ⟨⟨stored regs ((List.range k).map fun j =>
      (real_or_abs_aaddr cmd regs.PX (add64 r.saddr j), r.newval.getD j 0)),
      (List.range k).map fun j =>
        (real_or_abs_aaddr cmd regs.PX (add64 r.saddr j), r.newval.getD j 0),
      [Msg.HHC02328 'A' (real_or_abs_aaddr cmd regs.PX (add64 r.saddr k))]⟩,
    ?_, rfl, rfl, ?_, ?_⟩
  · unfold alter_display_real_or_abs
    simp only [not_lt.mpr hlen, if_false, hop, hparse, hlim, hloop]
  · intro a ha
    apply stored_frame
    intro w hw
    simp only [List.mem_map, List.mem_range] at hw
    obtain ⟨j, hj, rfl⟩ := hw
    exact fun e => ha j hj e.symm
  · intro m hm
    simp only [List.mem_singleton] at hm
    rw [hm]
    rfl

theorem virt_fault (h2g : Char → Nat) (logical_to_main_l : Translator) (sysblk : SYSBLK)
    (regs : REGS) (cmdline : List Char) (r : Range) (as : List Nat)
    (hlim : regs.mainlim ≠ 0) (hlen : 3 ≤ cmdline.length)
    (hparse : parse_range h2g (some (virt_operand cmdline).2) 0xFFFFFFFFFFFFFFFF true = some r)
    (hguard : virt_alter_guard logical_to_main_l (virt_operand cmdline).1 regs r)
    (hk : as.length < r.newval.length)
    (hok : ∀ j < as.length,
      virt_resolve logical_to_main_l (virt_operand cmdline).1
        (stored regs ((as.take j).zip r.newval)) (add64 r.saddr j) = some (as.getD j 0))
    (hf : virt_resolve logical_to_main_l (virt_operand cmdline).1
        (stored regs (as.zip r.newval)) (add64 r.saddr as.length) = none) :
    ∃ out, alter_display_virt h2g logical_to_main_l sysblk regs (some cmdline) = some out
      ∧ out.writes = as.zip r.newval
      ∧ out.regs = stored regs out.writes
      ∧ (∀ a, a ∉ as → out.regs.mainstor a = regs.mainstor a)
      ∧ ∀ m ∈ out.msgs, m.is_dump = false := by
  obtain ⟨m, hm, hloop⟩ := alter_virt_loop_fault logical_to_main_l (virt_operand cmdline).1
    r.saddr as r.newval 0 regs hk (by simpa using hok) (by simpa using hf)
  refine ⟨⟨stored regs (as.zip r.newval), as.zip r.newval, [m]⟩, ?_, rfl, rfl, ?_, ?_⟩
  · unfold alter_display_virt
    unfold virt_alter_guard at hguard
    simp only [not_lt.mpr hlen, if_false, hparse, hlim, hguard, and_self, if_true, hloop]
  · intro a ha
    apply stored_frame
    intro w hw
    have := (List.of_mem_zip hw).1
    exact fun e => ha (e ▸ this)
  · intro m2 hm2
    simp only [List.mem_singleton] at hm2
    rw [hm2]
    exact hm

theorem virt_guard_fails (h2g : Char → Nat) (logical_to_main_l : Translator) (sysblk : SYSBLK)
    (regs : REGS) (cmdline : List Char) (r : Range)
    (hlim : regs.mainlim ≠ 0) (hlen : 3 ≤ cmdline.length)
    (hparse : parse_range h2g (some (virt_operand cmdline).2) 0xFFFFFFFFFFFFFFFF true = some r)
    (hguard : ¬ virt_alter_guard logical_to_main_l (virt_operand cmdline).1 regs r) :
    ∃ out, alter_display_virt h2g logical_to_main_l sysblk regs (some cmdline) = some out
      ∧ out.writes = [] ∧ out.regs = regs := by
  have hsh := parse_range_shape h2g _ _ _ r hparse
  unfold alter_display_virt
  unfold virt_alter_guard at hguard
  simp only [not_lt.mpr hlen, if_false, hparse, hlim, hguard]
  by_cases ht : 0 < add64 (sub64 (LIMIT_RANGE r.saddr r.eaddr _64_KILOBYTE) r.saddr) 1
  · simp only [if_pos ht]
    have hoff : 1 ≤ PAGEFRAME_PAGESIZE - sub64 r.saddr (r.saddr &&& PAGEFRAME_PAGEMASK) := by
      rw [and_pagemask _ hsh.1, sub64_of_le _ _ hsh.1 (by omega)]
      simp only [PAGEFRAME_PAGESIZE]
      omega
    obtain ⟨msgs, hmsgs⟩ := dump_loop_virt_terminates logical_to_main_l (virt_operand cmdline).1
      regs (if ARCH_900_IDX = sysblk.arch_mode then 64 else 32)
      (add64 (sub64 (LIMIT_RANGE r.saddr r.eaddr _64_KILOBYTE) r.saddr) 1)
      (r.saddr &&& PAGEFRAME_PAGEMASK) (sub64 r.saddr (r.saddr &&& PAGEFRAME_PAGEMASK))
      (PAGEFRAME_PAGESIZE - sub64 r.saddr (r.saddr &&& PAGEFRAME_PAGEMASK))
      (add64 (sub64 (LIMIT_RANGE r.saddr r.eaddr _64_KILOBYTE) r.saddr) 1)
      hoff ht (le_refl _) (add64_lt _ _)
    rw [hmsgs]
    exact ⟨_, rfl, rfl, rfl⟩
  · simp only [if_neg ht]
    exact ⟨_, rfl, rfl, rfl⟩

/-- C10 (as amended): on a context with `mainlim` not zero, an alteration by
`alter_display_real_or_abs` whose byte `k` is the first with an absolute
address beyond `mainlim` stores exactly bytes `0..k-1` at their absolute
addresses, changes no other storage byte and returns without a dump; the
same holds for `alter_display_virt` (first byte that fails translation or
lies beyond `mainlim`) when the start and the end address of the range both
translate; when one of them does not translate, `alter_display_virt` stores
nothing at all. -/
theorem alteration_stops_at_first_exception (h2g : Char → Nat)
    (logical_to_main_l : Translator) (sysblk : SYSBLK) (regs : REGS)
    (argv0 cmdline : List Char) (cmd : Char) (opnd : List Char) (r : Range) (k : Nat)
    (vcmdline : List Char) (vr : Range) (as : List Nat)
    (hlim : regs.mainlim ≠ 0) (hlen : 3 ≤ cmdline.length) (hvlen : 3 ≤ vcmdline.length)
    (hop : real_or_abs_operand argv0 cmdline = some (cmd, opnd))
    (hparse : parse_range h2g (some opnd) 0xFFFFFFFFFFFFFFFF true = some r)
    (hvparse : parse_range h2g (some (virt_operand vcmdline).2) 0xFFFFFFFFFFFFFFFF true
      = some vr) :
    (k < r.newval.length →
      (∀ j < k, real_or_abs_aaddr cmd regs.PX (add64 r.saddr j) ≤ regs.mainlim) →
      regs.mainlim < real_or_abs_aaddr cmd regs.PX (add64 r.saddr k) →
      ∃ out, alter_display_real_or_abs h2g sysblk regs argv0 (some cmdline) = some out
        ∧ out.writes = (List.range k).map (fun j =>
            (real_or_abs_aaddr cmd regs.PX (add64 r.saddr j), r.newval.getD j 0))
        ∧ out.regs = stored regs out.writes
        ∧ (∀ a, (∀ j < k, a ≠ real_or_abs_aaddr cmd regs.PX (add64 r.saddr j)) →
            out.regs.mainstor a = regs.mainstor a)
        ∧ ∀ m ∈ out.msgs, m.is_dump = false)
    ∧ (virt_alter_guard logical_to_main_l (virt_operand vcmdline).1 regs vr →
      as.length < vr.newval.length →
      (∀ j < as.length,
        virt_resolve logical_to_main_l (virt_operand vcmdline).1
          (stored regs ((as.take j).zip vr.newval)) (add64 vr.saddr j) = some (as.getD j 0)) →
      virt_resolve logical_to_main_l (virt_operand vcmdline).1
          (stored regs (as.zip vr.newval)) (add64 vr.saddr as.length) = none →
      ∃ out, alter_display_virt h2g logical_to_main_l sysblk regs (some vcmdline) = some out
        ∧ out.writes = as.zip vr.newval
        ∧ out.regs = stored regs out.writes
        ∧ (∀ a, a ∉ as → out.regs.mainstor a = regs.mainstor a)
        ∧ ∀ m ∈ out.msgs, m.is_dump = false)
    ∧ (¬ virt_alter_guard logical_to_main_l (virt_operand vcmdline).1 regs vr →
      ∃ out, alter_display_virt h2g logical_to_main_l sysblk regs (some vcmdline) = some out
        ∧ out.writes = [] ∧ out.regs = regs) :=
  ⟨fun hk hok hf =>
      real_or_abs_fault h2g sysblk regs argv0 cmdline cmd opnd r k hlim hlen hop hparse hk hok hf,
    fun hg hk hok hf =>
      virt_fault h2g logical_to_main_l sysblk regs vcmdline vr as hlim hvlen hvparse hg hk hok hf,
    fun hg =>
      virt_guard_fails h2g logical_to_main_l sysblk regs vcmdline vr hlim hvlen hvparse hg⟩

/-- Witness of `alteration_stops_at_first_exception`: one page of storage;
`r ffe=c1c2c3` stores two bytes and stops at `0x1000`; `v ffe=c1c2c3` with
virtual address `0xFFF` not translating stores one byte; with `0xFFE` not
translating it stores nothing. -/
theorem alteration_stops_at_first_exception_witness :
    (∃ out, alter_display_real_or_abs (fun c => c.toNat) ⟨ARCH_900_IDX⟩ (blank_regs 0 0xFFF)
        ['r'] (some "r ffe=c1c2c3".toList) = some out
      ∧ out.writes = [(0xFFE, 0xC1), (0xFFF, 0xC2)]
      ∧ ∀ m ∈ out.msgs, m.is_dump = false)
    ∧ (∃ out, alter_display_virt (fun c => c.toNat) (example_translator fun v => v ≠ 0xFFF)
        ⟨ARCH_900_IDX⟩ (blank_regs 0 0xFFF) (some "v ffe=c1c2c3".toList) = some out
      ∧ out.writes = [(0xFFE, 0xC1)]
      ∧ ∀ m ∈ out.msgs, m.is_dump = false)
    ∧ (∃ out, alter_display_virt (fun c => c.toNat) (example_translator fun v => v ≠ 0xFFE)
        ⟨ARCH_900_IDX⟩ (blank_regs 0 0xFFF) (some "v ffe=c1c2c3".toList) = some out
      ∧ out.writes = []) := by
  have h1 := alteration_stops_at_first_exception (fun c => c.toNat)
    (example_translator fun v => v ≠ 0xFFF) ⟨ARCH_900_IDX⟩ (blank_regs 0 0xFFF)
    ['r'] "r ffe=c1c2c3".toList 'R' "FFE=C1C2C3".toList ⟨3, 0xFFE, 0x1000, [0xC1, 0xC2, 0xC3]⟩ 2
    "v ffe=c1c2c3".toList ⟨3, 0xFFE, 0x1000, [0xC1, 0xC2, 0xC3]⟩ [0xFFE]
    (by decide) (by decide) (by decide) (by decide) (by decide) (by decide)
  have h2 := alteration_stops_at_first_exception (fun c => c.toNat)
    (example_translator fun v => v ≠ 0xFFE) ⟨ARCH_900_IDX⟩ (blank_regs 0 0xFFF)
    ['r'] "r ffe=c1c2c3".toList 'R' "FFE=C1C2C3".toList ⟨3, 0xFFE, 0x1000, [0xC1, 0xC2, 0xC3]⟩ 2
    "v ffe=c1c2c3".toList ⟨3, 0xFFE, 0x1000, [0xC1, 0xC2, 0xC3]⟩ []
    (by decide) (by decide) (by decide) (by decide) (by decide) (by decide)
  obtain ⟨o1, e1, w1, -, -, d1⟩ := h1.1 (by decide) (by decide) (by decide)
  obtain ⟨o2, e2, w2, -, -, d2⟩ := h1.2.1 (by decide) (by decide) (by decide) (by decide)
  obtain ⟨o3, e3, w3, -⟩ := h2.2.2 (by decide)
  exact ⟨⟨o1, e1, by rw [w1]; decide, d1⟩, ⟨o2, e2, by rw [w2]; decide, d2⟩, ⟨o3, e3, w3⟩⟩

/-- C10 (as stated) fails.  Virtual: for `v fff=c1c2` where byte 0 (address
`0xFFF`) resolves and byte 1 (address `0x1000`, the end of the range) does
not translate, no byte is stored and a dump is issued.  Real: with
`mainlim = 0`, for `r 0=c1c2` byte 0 has absolute address `0 <= mainlim`,
byte 1 is the first beyond it, and no byte is stored. -/
theorem alteration_not_always_up_to_first_exception :
    (virt_resolve (example_translator fun v => v < 0x1000) (Arn.ar 0) (blank_regs 0 0xFFFFF)
        0xFFF = some 0xFFF
      ∧ virt_resolve (example_translator fun v => v < 0x1000) (Arn.ar 0)
        ((blank_regs 0 0xFFFFF).store 0xFFF 0xC1) 0x1000 = none
      ∧ (alter_display_virt (fun c => c.toNat) (example_translator fun v => v < 0x1000)
          ⟨ARCH_900_IDX⟩ (blank_regs 0 0xFFFFF) (some "v fff=c1c2".toList)).map
          (fun out => (out.writes, out.msgs))
        = some ([], [Msg.key_line 0, Msg.dump 'V' [⟨0xFFF, 0xFFF, 0⟩],
            Msg.HHC02329 0x1000 0x11]))
    ∧ (real_or_abs_aaddr 'R' 0 (add64 0 0) ≤ (blank_regs 0 0).mainlim
      ∧ (blank_regs 0 0).mainlim < real_or_abs_aaddr 'R' 0 (add64 0 1)
      ∧ (alter_display_real_or_abs (fun c => c.toNat) ⟨ARCH_900_IDX⟩ (blank_regs 0 0) ['r']
          (some "r 0=c1c2".toList)).map (fun out => (out.writes, out.msgs))
        = some ([], [Msg.HHC02327 'R' 0])) := by
  decide

/-! ### C3: prefixing as arithmetic -/

theorem APPLY_PREFIXING_eq (x px : Nat) (hx : x < U64_MOD) (hpx : px % 8192 = 0) :
    APPLY_PREFIXING x px =
      if x / 8192 = 0 then px + x
      else if x / 8192 * 8192 = px then x - px
      else x := by
  unfold APPLY_PREFIXING
  rw [and_prefixmask x hx]
  have hpk : px = 2 ^ 13 * (px / 8192) := by norm_num; omega
  by_cases h0 : x / 8192 = 0
  · have hlt : x < 2 ^ 13 := by norm_num; omega
    have hxor : x ^^^ px = px + x := by
      have h := xor_low 13 0 (px / 8192) x hlt
      rw [Nat.zero_xor, Nat.mul_zero, Nat.zero_add, ← hpk] at h
      exact h
    rw [if_pos h0, if_pos (Or.inl (by omega)), hxor]
  · rw [if_neg h0]
    by_cases h1 : x / 8192 * 8192 = px
    · have hlt : x % 8192 < 2 ^ 13 := by norm_num; omega
      have hxor : x ^^^ px = x - px := by
        have h := xor_low 13 (px / 8192) (px / 8192) (x % 8192) hlt
        rw [Nat.xor_self, Nat.mul_zero, Nat.zero_add, ← hpk] at h
        have hx2 : px + x % 8192 = x := by omega
        rw [hx2] at h
        omega
      rw [if_pos h1, if_pos (Or.inr h1), hxor]
    · rw [if_neg h1, if_neg]
      intro h
      rcases h with h | h
      · omega
      · exact h1 h

theorem real_or_abs_aaddr_page (cmd : Char) (px p j : Nat) (hpx : px % 8192 = 0)
    (hp : p % 4096 = 0) (hpl : p < U64_MOD) (hj : j < 4096) :
    real_or_abs_aaddr cmd px (p + j) = real_or_abs_aaddr cmd px p + j
    ∧ real_or_abs_aaddr cmd px p % 4096 = 0 := by
  unfold real_or_abs_aaddr
  by_cases hc : cmd = 'R'
  · have hpj : p + j < U64_MOD := by simp only [U64_MOD] at *; omega
    simp only [if_pos hc, APPLY_PREFIXING_eq _ _ hpj hpx, APPLY_PREFIXING_eq _ _ hpl hpx]
    split_ifs <;> omega
  · rw [if_neg hc, if_neg hc]
    exact ⟨rfl, hp⟩

theorem real_or_abs_aaddr_inj (cmd : Char) (px x y : Nat) (hpx : px % 8192 = 0)
    (hx : x < U64_MOD) (hy : y < U64_MOD)
    (h : real_or_abs_aaddr cmd px x = real_or_abs_aaddr cmd px y) : x = y := by
  unfold real_or_abs_aaddr at h
  by_cases hc : cmd = 'R'
  · simp only [if_pos hc, APPLY_PREFIXING_eq _ _ hx hpx, APPLY_PREFIXING_eq _ _ hy hpx] at h
    split_ifs at h <;> omega
  · simpa only [if_neg hc] using h

/-! ### C3: the alteration loop without exception, and the dump loop -/

theorem alter_real_or_abs_loop_complete (cmd : Char) (saddr : Nat) :
    ∀ (bs : List Nat) (i : Nat) (regs : REGS),
      (∀ j < bs.length, real_or_abs_aaddr cmd regs.PX (add64 saddr (i + j)) ≤ regs.mainlim) →
      alter_real_or_abs_loop cmd saddr bs i regs =
        ⟨stored regs ((List.range bs.length).map fun j =>
            (real_or_abs_aaddr cmd regs.PX (add64 saddr (i + j)), bs.getD j 0)),
          (List.range bs.length).map fun j =>
            (real_or_abs_aaddr cmd regs.PX (add64 saddr (i + j)), bs.getD j 0),
          none⟩ := by
  intro bs
  induction bs with
  | nil => intro i regs _; simp [alter_real_or_abs_loop, stored]
  | cons b bs ih =>
    intro i regs hle
    have h0 := hle 0 (by simp)
    simp only [real_or_abs_aaddr, Nat.add_zero] at h0
    have ih2 := ih (i + 1) (regs.store (real_or_abs_aaddr cmd regs.PX (add64 saddr i)) b)
      (fun j hj => by
        have := hle (j + 1) (by simp only [List.length_cons]; omega)
        rw [show i + (j + 1) = i + 1 + j by omega] at this
        exact this)
    have hst : (regs.store (real_or_abs_aaddr cmd regs.PX (add64 saddr i)) b).PX = regs.PX :=
      rfl
    rw [hst] at ih2
    simp only [real_or_abs_aaddr] at ih2
    rw [alter_real_or_abs_loop]
    simp only [if_neg (not_lt.mpr h0), ih2]
    simp only [List.length_cons, List.range_succ_eq_map, List.map_cons, List.map_map, stored,
      Nat.add_zero, List.getD_cons_zero, real_or_abs_aaddr]
    have hfun : ((fun j => (if cmd = 'R' then APPLY_PREFIXING (add64 saddr (i + j)) regs.PX
          else add64 saddr (i + j), (b :: bs).getD j 0)) ∘ Nat.succ)
        = fun j => (if cmd = 'R' then APPLY_PREFIXING (add64 saddr (i + 1 + j)) regs.PX
          else add64 saddr (i + 1 + j), bs.getD j 0) := by
      funext j
      simp only [Function.comp, Nat.succ_eq_add_one, List.getD_cons_succ]
      rw [show i + (j + 1) = i + 1 + j by omega]
    rw [hfun]

theorem stored_lookup (ws : List (Nat × Nat)) :
    ∀ regs : REGS, (ws.map Prod.fst).Nodup → ∀ w ∈ ws, (stored regs ws).mainstor w.1 = w.2 := by
  induction ws with
  | nil => intro _ _ w hw; simp at hw
  | cons v ws ih =>
    intro regs hnd w hw
    simp only [List.map_cons, List.nodup_cons, List.mem_map, not_exists, not_and] at hnd
    rw [stored]
    simp only [List.mem_cons] at hw
    rcases hw with rfl | hw
    · rw [stored_frame _ _ _ (fun x hx e => hnd.1 x hx e)]
      simp [REGS.store]
    · exact ih _ hnd.2 w hw

theorem shown_bytes_append (a b : List Msg) :
    shown_bytes (a ++ b) = shown_bytes a ++ shown_bytes b := by
  induction a with
  | nil => rfl
  | cons m a ih => cases m <;> simp [shown_bytes, ih]

theorem shown_bytes_key_line (a : Nat) (l : List Msg) :
    shown_bytes (Msg.key_line a :: l) = shown_bytes l := rfl

theorem dump_label_eq (pageadr pageoff j : Nat) (hp : pageadr % 4096 = 0)
    (hpl : pageadr < U64_MOD) (ho : pageoff < 4096) :
    add64 (add64 (add64 pageadr pageoff &&& 0xFFFFFFFFFFFFFFF0) (pageoff &&& 0xF)) j
      = add64 (pageadr + pageoff) j := by
  have h1 : add64 pageadr pageoff = pageadr + pageoff := by
    simp only [add64, U64_MOD] at *
    omega
  have hlt : pageadr + pageoff < U64_MOD := by
    simp only [U64_MOD] at *
    omega
  rw [h1, and_mask16 _ hlt, and_low16]
  have h2 : add64 ((pageadr + pageoff) / 16 * 16) (pageoff % 16) = pageadr + pageoff := by
    simp only [add64, U64_MOD] at *
    omega
  rw [h2]

theorem dump_page_real_or_abs_shown (cmd : Char) (regs : REGS) (addrwid : Nat)
    (hwid : addrwid = 32 ∨ addrwid = 64) (hpx : regs.PX % 8192 = 0)
    (pageadr pageoff pa : Nat) (hp : pageadr % 4096 = 0) (hpl : pageadr < U64_MOD)
    (ho : pageoff < 4096) (hpa : pa ≤ 4096 - pageoff)
    (hlim : real_or_abs_aaddr cmd regs.PX pageadr ≤ regs.mainlim) :
    shown_bytes (dump_abs_page regs (real_or_abs_aaddr cmd regs.PX pageadr) pageadr pageoff pa
        cmd addrwid).2
      = (List.range pa).map fun j => shown_at cmd regs (add64 (pageadr + pageoff) j) := by
  have hpage := fun j hj => real_or_abs_aaddr_page cmd regs.PX pageadr j hpx hp hpl hj
  have hal := (hpage 0 (by omega)).2
  rw [dump_abs_page_shown, if_pos]
  · apply List.map_congr_left
    intro j hj
    simp only [List.mem_range] at hj
    have hadd : add64 (pageadr + pageoff) j = pageadr + (pageoff + j) := by
      simp only [add64, U64_MOD] at *
      omega
    rw [dump_label_eq pageadr pageoff j hp hpl ho, hadd]
    have := (hpage (pageoff + j) (by omega)).1
    simp only [shown_at, this, Nat.add_assoc]
  · refine ⟨⟨?_, ?_, ?_, ?_, hwid⟩, hlim⟩
    · simpa only [PAGEFRAME_PAGESIZE] using hal
    · simpa only [PAGEFRAME_PAGESIZE] using hp
    · simpa only [PAGEFRAME_PAGESIZE] using ho
    · simpa only [PAGEFRAME_PAGESIZE] using hpa

theorem dump_loop_real_or_abs_shown (cmd : Char) (regs : REGS) (addrwid : Nat)
    (hwid : addrwid = 32 ∨ addrwid = 64) (hpx : regs.PX % 8192 = 0) :
    ∀ (fuel pageadr pageoff totamt : Nat),
      pageadr % 4096 = 0 → pageadr < U64_MOD → pageoff < 4096 → 1 ≤ totamt →
      totamt ≤ fuel → totamt < U64_MOD →
      (∀ j < totamt,
        real_or_abs_aaddr cmd regs.PX (add64 (pageadr + pageoff) j) ≤ regs.mainlim) →
      ∃ msgs, dump_loop_real_or_abs cmd regs addrwid fuel pageadr pageoff
          (PAGEFRAME_PAGESIZE - pageoff) totamt = some msgs
        ∧ shown_bytes msgs
          = (List.range totamt).map fun j => shown_at cmd regs (add64 (pageadr + pageoff) j) := by
  intro fuel
  induction fuel with
  | zero => intro _ _ totamt _ _ _ h1 h2 _ _; omega
  | succ fuel ih =>
    intro pageadr pageoff totamt hp hpl ho ht hf hm hle
    have hpage := fun j hj => real_or_abs_aaddr_page cmd regs.PX pageadr j hpx hp hpl hj
    have hpa : 1 ≤ (if totamt < PAGEFRAME_PAGESIZE - pageoff then totamt
          else PAGEFRAME_PAGESIZE - pageoff)
        ∧ (if totamt < PAGEFRAME_PAGESIZE - pageoff then totamt
          else PAGEFRAME_PAGESIZE - pageoff) ≤ totamt
        ∧ (if totamt < PAGEFRAME_PAGESIZE - pageoff then totamt
          else PAGEFRAME_PAGESIZE - pageoff) ≤ 4096 - pageoff
        ∧ ((if totamt < PAGEFRAME_PAGESIZE - pageoff then totamt
          else PAGEFRAME_PAGESIZE - pageoff) < totamt →
            (if totamt < PAGEFRAME_PAGESIZE - pageoff then totamt
              else PAGEFRAME_PAGESIZE - pageoff) = 4096 - pageoff) := by
      simp only [PAGEFRAME_PAGESIZE]
      split_ifs <;> omega
    have hA : (if cmd = 'R' then APPLY_PREFIXING pageadr regs.PX else pageadr)
        = real_or_abs_aaddr cmd regs.PX pageadr := rfl
    have hlim : real_or_abs_aaddr cmd regs.PX pageadr ≤ regs.mainlim := by
      have h0 := hle 0 (by omega)
      have hadd : add64 (pageadr + pageoff) 0 = pageadr + pageoff := by
        simp only [add64, U64_MOD] at *
        omega
      rw [hadd, (hpage pageoff ho).1] at h0
      omega
    rw [dump_loop_real_or_abs]
    simp only [hA]
    generalize (if totamt < PAGEFRAME_PAGESIZE - pageoff then totamt
      else PAGEFRAME_PAGESIZE - pageoff) = pa at hpa ⊢
    obtain ⟨hpa1, hpa2, hpa3, hpa4⟩ := hpa
    have hshown := dump_page_real_or_abs_shown cmd regs addrwid hwid hpx pageadr pageoff pa hp
      hpl ho hpa3 hlim
    rw [if_neg (not_lt.mpr hlim), sub64_of_le totamt pa hm hpa2]
    by_cases hz : totamt - pa = 0
    · rw [if_pos hz]
      refine ⟨_, rfl, ?_⟩
      have he : pa = totamt := by omega
      rw [shown_bytes_key_line, hshown, he]
    · rw [if_neg hz]
      have hpe : pa = 4096 - pageoff := hpa4 (by omega)
      obtain ⟨more, hmore, hms⟩ := ih (add64 pageadr PAGEFRAME_PAGESIZE) 0 (totamt - pa)
        (by simp only [add64, U64_MOD, PAGEFRAME_PAGESIZE] at *; omega)
        (add64_lt _ _) (by omega) (by omega) (by omega) (by omega)
        (fun j hj => by
          have := hle (pa + j) (by omega)
          have e : add64 (add64 pageadr PAGEFRAME_PAGESIZE + 0) j
              = add64 (pageadr + pageoff) (pa + j) := by
            simp only [add64, U64_MOD, PAGEFRAME_PAGESIZE] at *
            omega
          rw [e]
          exact this)
      rw [Nat.sub_zero] at hmore
      rw [hmore]
      refine ⟨_, rfl, ?_⟩
      simp only [shown_bytes_append, shown_bytes_key_line, hshown, hms]
      have hsum : totamt = pa + (totamt - pa) := by omega
      have hrest : List.map (fun j =>
            shown_at cmd regs (add64 (add64 pageadr PAGEFRAME_PAGESIZE + 0) j))
            (List.range (totamt - pa))
          = List.map ((fun j => shown_at cmd regs (add64 (pageadr + pageoff) j))
            ∘ fun x => pa + x) (List.range (totamt - pa)) := by
        apply List.map_congr_left
        intro j _
        have e : add64 (add64 pageadr PAGEFRAME_PAGESIZE + 0) j
            = add64 (pageadr + pageoff) (pa + j) := by
          simp only [add64, U64_MOD, PAGEFRAME_PAGESIZE] at *
          omega
        simp only [Function.comp, e]
      rw [hrest]
      conv_rhs => rw [hsum, List.range_add, List.map_append, List.map_map]

/-! ### C3: altering, then displaying -/

theorem altered_lookup (cmd : Char) (regs : REGS) (saddr : Nat) (bs : List Nat)
    (hpx : regs.PX % 8192 = 0) (hlen : bs.length ≤ 32) (j : Nat) (hj : j < bs.length) :
    (stored regs ((List.range bs.length).map fun i =>
        (real_or_abs_aaddr cmd regs.PX (add64 saddr i), bs.getD i 0))).mainstor
      (real_or_abs_aaddr cmd regs.PX (add64 saddr j)) = bs.getD j 0 := by
  have hnd : (((List.range bs.length).map fun i =>
      (real_or_abs_aaddr cmd regs.PX (add64 saddr i), bs.getD i 0)).map Prod.fst).Nodup := by
    rw [List.map_map]
    apply List.Nodup.map_on _ (List.nodup_range _)
    intro x hx y hy hxy
    simp only [List.mem_range] at hx hy
    simp only [Function.comp] at hxy
    have := real_or_abs_aaddr_inj cmd regs.PX _ _ hpx (add64_lt _ _) (add64_lt _ _) hxy
    simp only [add64, U64_MOD] at this
    omega
  exact stored_lookup _ regs hnd
    (real_or_abs_aaddr cmd regs.PX (add64 saddr j), bs.getD j 0)
    (List.mem_map.mpr ⟨j, List.mem_range.mpr hj, rfl⟩)

/-- C3: an alteration of `n <= 32` bytes at start address `s` by
`alter_display_real_or_abs` that meets no addressing exception (prefix
register on a prefix area boundary) stores byte `i` at the absolute address
of `s + i`, and the display that follows shows exactly the `n` positions
`s .. s + n - 1`, position `s + i` with replacement byte `i`. -/
theorem alter_then_display_shows_written_bytes (h2g : Char → Nat) (sysblk : SYSBLK)
    (regs : REGS) (argv0 cmdline : List Char) (cmd : Char) (opnd : List Char) (r : Range)
    (hpx : regs.PX % 8192 = 0) (hlim : regs.mainlim ≠ 0) (hlen : 3 ≤ cmdline.length)
    (hop : real_or_abs_operand argv0 cmdline = some (cmd, opnd))
    (hparse : parse_range h2g (some opnd) 0xFFFFFFFFFFFFFFFF true = some r)
    (hn : 0 < r.n)
    (hok : ∀ j < r.n, real_or_abs_aaddr cmd regs.PX (add64 r.saddr j) ≤ regs.mainlim) :
    ∃ out, alter_display_real_or_abs h2g sysblk regs argv0 (some cmdline) = some out
      ∧ out.writes = (List.range r.n).map (fun j =>
          (real_or_abs_aaddr cmd regs.PX (add64 r.saddr j), r.newval.getD j 0))
      ∧ shown_bytes out.msgs = (List.range r.n).map (fun j =>
          ⟨add64 r.saddr j, real_or_abs_aaddr cmd regs.PX (add64 r.saddr j),
            r.newval.getD j 0⟩) := by
  obtain ⟨hs, hnl, hn32, hea⟩ := parse_range_shape h2g opnd _ true r hparse
  have hea := hea hn
  have hloop := alter_real_or_abs_loop_complete cmd r.saddr r.newval 0 regs
    (by intro j hj; rw [Nat.zero_add]; exact hok j (by omega))
  simp only [Nat.zero_add, hnl] at hloop
  have hsub : sub64 r.eaddr r.saddr = r.n - 1 := by
    rw [hea]
    simp only [sub64, add64, U64_MOD] at *
    omega
  have hlr : LIMIT_RANGE r.saddr r.eaddr _64_KILOBYTE = r.eaddr := by
    unfold LIMIT_RANGE
    rw [hsub, if_neg]
    simp only [_64_KILOBYTE]
    omega
  have htot : add64 (sub64 r.eaddr r.saddr) 1 = r.n := by
    rw [hsub]
    simp only [add64, U64_MOD]
    omega
  have hpage : r.saddr &&& PAGEFRAME_PAGEMASK = r.saddr / 4096 * 4096 := and_pagemask _ hs
  have hoff : sub64 r.saddr (r.saddr / 4096 * 4096) = r.saddr % 4096 := by
    rw [sub64_of_le _ _ hs (by omega)]
    omega
  have hsum : r.saddr / 4096 * 4096 + r.saddr % 4096 = r.saddr := by omega
  have hwid : (if ARCH_900_IDX = sysblk.arch_mode then 64 else 32) = 32
      ∨ (if ARCH_900_IDX = sysblk.arch_mode then 64 else 32) = 64 := by
    split_ifs
    · exact Or.inr rfl
    · exact Or.inl rfl
  obtain ⟨msgs, hmsgs, hshown⟩ := dump_loop_real_or_abs_shown cmd
    (stored regs ((List.range r.n).map fun j =>
      (real_or_abs_aaddr cmd regs.PX (add64 r.saddr j), r.newval.getD j 0)))
    (if ARCH_900_IDX = sysblk.arch_mode then 64 else 32) hwid
    (by rw [stored_PX]; exact hpx)
    r.n (r.saddr / 4096 * 4096) (r.saddr % 4096) r.n
    (by omega) (by omega) (by omega) hn (le_refl _) (by simp only [U64_MOD]; omega)
    (by
      intro j hj
      rw [stored_PX, stored_mainlim, hsum]
      exact hok j hj)
  refine ⟨⟨stored regs ((List.range r.n).map fun j =>
      (real_or_abs_aaddr cmd regs.PX (add64 r.saddr j), r.newval.getD j 0)),
      (List.range r.n).map fun j =>
        (real_or_abs_aaddr cmd regs.PX (add64 r.saddr j), r.newval.getD j 0), msgs⟩,
    ?_, rfl, ?_⟩
  · unfold alter_display_real_or_abs
    simp only [not_lt.mpr hlen, if_false, hop, hparse, hlim, hloop, hlr, htot, hn, if_true,
      hpage, hoff, hmsgs, Option.map_some']
  · rw [hshown, hsum]
    apply List.map_congr_left
    intro j hj
    simp only [List.mem_range] at hj
    simp only [shown_at, stored_PX]
    have := altered_lookup cmd regs r.saddr r.newval hpx (by omega) j (by omega)
    rw [hnl] at this
    rw [this]

/-- Witness of `alter_then_display_shows_written_bytes`: `r ffe=c1c2c3`
with prefix `0x2000` and one megabyte of storage; the range crosses a page
boundary inside the prefix area. -/
theorem alter_then_display_shows_written_bytes_witness :
    ∃ out, alter_display_real_or_abs (fun c => c.toNat) ⟨ARCH_900_IDX⟩
        (blank_regs 0x2000 0xFFFFF) ['r'] (some "r ffe=c1c2c3".toList) = some out
      ∧ out.writes = [(0x2FFE, 0xC1), (0x2FFF, 0xC2), (0x3000, 0xC3)]
      ∧ shown_bytes out.msgs
        = [⟨0xFFE, 0x2FFE, 0xC1⟩, ⟨0xFFF, 0x2FFF, 0xC2⟩, ⟨0x1000, 0x3000, 0xC3⟩] := by
  obtain ⟨out, h1, h2, h3⟩ := alter_then_display_shows_written_bytes (fun c => c.toNat)
    ⟨ARCH_900_IDX⟩ (blank_regs 0x2000 0xFFFFF) ['r'] "r ffe=c1c2c3".toList 'R'
    "FFE=C1C2C3".toList ⟨3, 0xFFE, 0x1000, [0xC1, 0xC2, 0xC3]⟩
    (by decide) (by decide) (by decide) (by decide) (by decide) (by decide) (by decide)
  exact ⟨out, h1, by rw [h2]; decide, by rw [h3]; decide⟩

/-! ### Display operands: what `parse_range` does for every start, end and length -/

theorem scan_llx_numeral_end (ds : List Char) (hds : is_hex_numeral ds)
    (hv : hex_value ds < U64_MOD) : scan_llx ds = some (hex_value ds, []) := by
  have h := scan_llx_numeral ds [] hds hv (by intro c hc; simp at hc)
  rwa [List.append_nil] at h

theorem sscanf_range_two (ds de : List Char) (d : Char) (hds : is_hex_numeral ds)
    (hde : is_hex_numeral de) (hs : hex_value ds < U64_MOD) (he : hex_value de < U64_MOD)
    (hd : d = '-' ∨ d = '.') :
    sscanf_range (ds ++ d :: de) = ⟨3, hex_value ds, d, hex_value de, Char.ofNat 0⟩ := by
  have h1 := scan_llx_numeral ds (d :: de) hds hs (by
    intro c hc
    simp only [List.head?_cons, Option.some.injEq] at hc
    subst hc
    rcases hd with rfl | rfl <;> decide)
  have h2 := scan_llx_numeral_end de hde he
  unfold sscanf_range
  rw [h1]
  simp only [h2]

/-- The bare start address (C5): `parse_range` returns 0 with the 64-byte
window clamped to `maxadr` exactly when `s + 0x3F` does not pass `2^64`;
for the last 63 addresses of the 64-bit space it returns -1. -/
theorem parse_range_bare_start (h2g : Char → Nat) (ds : List Char) (maxadr : Nat)
    (newval : Bool) (hds : is_hex_numeral ds) (hs : hex_value ds ≤ maxadr)
    (hmax : maxadr < U64_MOD) :
    parse_range h2g (some ds) maxadr newval =
      if hex_value ds + 0x3F < U64_MOD then
        some ⟨0, hex_value ds, min (hex_value ds + 0x3F) maxadr, []⟩
      else none := by
  have hsc : sscanf_range ds = ⟨1, hex_value ds, Char.ofNat 0, 0, Char.ofNat 0⟩ := by
    unfold sscanf_range
    rw [scan_llx_numeral_end ds hds (by omega)]
  unfold parse_range
  simp only [hsc]
  simp only [show ¬ ((1 : Int) = 2) by decide, show ¬ ((2 : Int) < 1) by decide, false_and,
    if_false, if_true]
  by_cases hw : hex_value ds + 0x3F < U64_MOD
  · have he : add64 (hex_value ds) 0x3F = hex_value ds + 0x3F := by
      simp only [add64]
      exact Nat.mod_eq_of_lt hw
    rw [if_pos hw, he]
    by_cases hc : maxadr < hex_value ds + 0x3F
    · rw [if_pos hc, if_neg (by omega), Nat.min_eq_right (by omega)]
    · rw [if_neg hc, if_neg (by omega), Nat.min_eq_left (by omega)]
  · have he : add64 (hex_value ds) 0x3F = hex_value ds + 0x3F - U64_MOD := by
      simp only [add64, U64_MOD] at *
      omega
    rw [if_neg hw, he]
    have hc : ¬ maxadr < hex_value ds + 0x3F - U64_MOD := by
      simp only [U64_MOD] at *
      omega
    have hr : maxadr < hex_value ds ∨ maxadr < hex_value ds + 0x3F - U64_MOD
        ∨ hex_value ds + 0x3F - U64_MOD < hex_value ds := by
      simp only [U64_MOD] at *
      omega
    simp only [if_neg hc, if_pos hr]

/-- The operand `s-e` (C6): `parse_range` returns 0 with the range `[s, e]`
exactly when `s <= e <= maxadr`. -/
theorem parse_range_start_end (h2g : Char → Nat) (ds de : List Char) (maxadr : Nat)
    (newval : Bool) (hds : is_hex_numeral ds) (hde : is_hex_numeral de)
    (hs : hex_value ds < U64_MOD) (he : hex_value de < U64_MOD) :
    parse_range h2g (some (ds ++ '-' :: de)) maxadr newval =
      if hex_value ds ≤ hex_value de ∧ hex_value de ≤ maxadr then
        some ⟨0, hex_value ds, hex_value de, []⟩
      else none := by
  have hsc := sscanf_range_two ds de '-' hds hde hs he (Or.inl rfl)
  unfold parse_range
  simp only [hsc]
  simp only [show ¬ ((3 : Int) = 2) by decide, show ¬ ((3 : Int) = 1) by decide,
    show ¬ ('-' = '=') by decide, show ¬ ('-' = '.') by decide, false_and, and_false,
    if_false, ne_eq, not_true_eq_false, true_or, not_false_eq_true, false_or]
  by_cases h : hex_value ds ≤ hex_value de ∧ hex_value de ≤ maxadr
  · rw [if_pos h, if_neg (by omega)]
  · rw [if_neg h, if_pos (by omega)]

/-- The operand `s.l` (C6): `parse_range` returns 0 with the range
`[s, s + l - 1]` when `l >= 1` and `s + l - 1 <= maxadr`; it also returns 0,
with the range `[0, 2^64 - 1]`, for `0.0` when `maxadr = 2^64 - 1`; in every
other case it returns -1. -/
theorem parse_range_start_length (h2g : Char → Nat) (ds dl : List Char) (maxadr : Nat)
    (newval : Bool) (hds : is_hex_numeral ds) (hdl : is_hex_numeral dl)
    (hs : hex_value ds < U64_MOD) (hl : hex_value dl < U64_MOD) (hmax : maxadr < U64_MOD) :
    parse_range h2g (some (ds ++ '.' :: dl)) maxadr newval =
      if 1 ≤ hex_value dl ∧ hex_value ds + hex_value dl - 1 ≤ maxadr then
        some ⟨0, hex_value ds, hex_value ds + hex_value dl - 1, []⟩
      else if hex_value dl = 0 ∧ hex_value ds = 0 ∧ maxadr = U64_MOD - 1 then
        some ⟨0, 0, U64_MOD - 1, []⟩
      else none := by
  have hsc := sscanf_range_two ds dl '.' hds hdl hs hl (Or.inr rfl)
  unfold parse_range
  simp only [hsc]
  simp only [show ¬ ((3 : Int) = 2) by decide, show ¬ ((3 : Int) = 1) by decide,
    show ¬ ('.' = '=') by decide, false_and, and_false,
    if_false, ne_eq, not_true_eq_false, or_true, not_false_eq_true, false_or, if_true]
  by_cases h1 : 1 ≤ hex_value dl ∧ hex_value ds + hex_value dl - 1 ≤ maxadr
  · have he : sub64 (add64 (hex_value ds) (hex_value dl)) 1
        = hex_value ds + hex_value dl - 1 := by
      rw [sub64_add64_one _ _ h1.1]
      exact Nat.mod_eq_of_lt (by omega)
    rw [if_pos h1, he, if_neg (by omega)]
  · rw [if_neg h1]
    by_cases h2 : hex_value dl = 0 ∧ hex_value ds = 0 ∧ maxadr = U64_MOD - 1
    · obtain ⟨h2a, h2b, h2c⟩ := h2
      rw [h2a, h2b, h2c]
      decide
    · rw [if_neg h2]
      have he : maxadr < hex_value ds
          ∨ maxadr < sub64 (add64 (hex_value ds) (hex_value dl)) 1
          ∨ sub64 (add64 (hex_value ds) (hex_value dl)) 1 < hex_value ds := by
        simp only [sub64, add64, U64_MOD] at *
        omega
      rw [if_pos he]

/-- The part of C2 that holds: when the character after the first `=` of the
operand is not a quote, every result of `parse_range` satisfies
`start <= end <= maxadr` and `n <= 32`. -/
theorem parse_range_unquoted_in_range (h2g : Char → Nat) (operand : List Char)
    (maxadr : Nat) (newval : Bool) (r : Range)
    (hnq : ∀ e q str, strchr operand '=' = some (e :: q :: str) → q ≠ '"' ∧ q ≠ '\'')
    (h : parse_range h2g (some operand) maxadr newval = some r) :
    r.saddr ≤ r.eaddr ∧ r.eaddr ≤ maxadr ∧ r.n ≤ 32 := by
  have hsh := parse_range_shape h2g operand maxadr newval r h
  refine ⟨?_, ?_, hsh.2.2.1⟩
  all_goals
    unfold parse_range at h
    simp only [] at h
    split at h
    · next str hq =>
      exfalso
      split_ifs at hq with h1
      split at hq
      · next e q str2 hst =>
        have := hnq e q str2 hst
        split_ifs at hq with h2
        rcases h2 with h2 | h2
        · exact this.1 h2
        · exact this.2 h2
      · simp at hq
    · split at h
      · simp at h
      · next n saddr eaddr bytes hb =>
        by_cases h1 : maxadr < saddr ∨ maxadr < eaddr ∨ eaddr < saddr
        · rw [if_pos h1] at h
          simp at h
        · rw [if_neg h1] at h
          simp only [Option.some.injEq] at h
          rw [← h]
          simp only []
          omega

/-! ### C11: the parameter check of `dump_abs_page` -/

/-- C11: whenever an address is not page aligned, or the offset is not
within the page, or the amount exceeds the rest of the page, or the width is
neither 32 nor 64, `dump_abs_page` returns -1 with the one message HHC02219
(not the addressing exception message, whatever the storage limit is) and
shows no storage byte. -/
theorem dump_abs_page_invalid_parameters (regs : REGS) (aaddr adr offset amt : Nat)
    (vra : Char) (wid : Nat)
    (h : aaddr % PAGEFRAME_PAGESIZE ≠ 0 ∨ adr % PAGEFRAME_PAGESIZE ≠ 0
      ∨ PAGEFRAME_PAGESIZE ≤ offset ∨ PAGEFRAME_PAGESIZE - offset < amt
      ∨ (wid ≠ 32 ∧ wid ≠ 64)) :
    dump_abs_page regs aaddr adr offset amt vra wid = (-1, [Msg.HHC02219])
      ∧ shown_bytes (dump_abs_page regs aaddr adr offset amt vra wid).2 = []
      ∧ Msg.dump_addr_exception (if vra.toNat ≠ 0 then vra else 'V') adr
          ∉ (dump_abs_page regs aaddr adr offset amt vra wid).2 := by
  have hc : aaddr &&& PAGEFRAME_BYTEMASK ≠ 0 ∨ adr &&& PAGEFRAME_BYTEMASK ≠ 0
      ∨ PAGEFRAME_PAGESIZE ≤ offset ∨ PAGEFRAME_PAGESIZE - offset < amt
      ∨ (wid ≠ 32 ∧ wid ≠ 64) := by
    rw [and_bytemask, and_bytemask]
    simpa [PAGEFRAME_PAGESIZE] using h
  have h1 : dump_abs_page regs aaddr adr offset amt vra wid = (-1, [Msg.HHC02219]) := by
    unfold dump_abs_page
    rw [if_pos hc]
  rw [h1]
  refine ⟨rfl, rfl, ?_⟩
  simp

theorem dump_abs_page_invalid_parameters_witness :
    dump_abs_page (blank_regs 0 0xFFFF) 0x1000 0x1000 0xFF8 16 'R' 64 = (-1, [Msg.HHC02219])
      ∧ shown_bytes (dump_abs_page (blank_regs 0 0xFFFF) 0x1000 0x1000 0xFF8 16 'R' 64).2 = []
      ∧ Msg.dump_addr_exception (if 'R'.toNat ≠ 0 then 'R' else 'V') 0x1000
          ∉ (dump_abs_page (blank_regs 0 0xFFFF) 0x1000 0x1000 0xFF8 16 'R' 64).2 :=
  dump_abs_page_invalid_parameters (blank_regs 0 0xFFFF) 0x1000 0x1000 0xFF8 16 'R' 64
    (by decide)

/-! ### C16, C17: `display_real` -/

theorem display_real_loop_eq (mainstor : Nat → Nat) :
    ∀ (k a : Nat), a < U64_MOD →
      display_real_loop mainstor k a
        = (List.range (min k (PAGEFRAME_PAGESIZE - a % PAGEFRAME_PAGESIZE))).map
            fun i => (⟨a + i, a + i, mainstor (a + i)⟩ : DumpByte) := by
  intro k
  induction k with
  | zero => intro a _; simp [display_real_loop]
  | succ k ih =>
    intro a ha
    rw [display_real_loop, and_bytemask]
    unfold add64 U64_MOD PAGEFRAME_PAGESIZE at *
    by_cases hz : (a + 1) % 18446744073709551616 % 4096 = 0
    · rw [if_pos hz]
      have h1 : min (k + 1) (4096 - a % 4096) = 1 := by omega
      rw [h1]
      rfl
    · rw [if_neg hz]
      have hlt : (a + 1) % 18446744073709551616 = a + 1 := by omega
      rw [hlt, ih (a + 1) (by omega)]
      have h1 : min (k + 1) (4096 - a % 4096) = min k (4096 - (a + 1) % 4096) + 1 := by omega
      rw [h1, List.range_succ_eq_map, List.map_cons, List.map_map]
      refine congrArg₂ _ rfl ?_
      apply List.map_congr_left
      intro i _
      simp only [Function.comp, Nat.succ_eq_add_one]
      have : a + 1 + i = a + (i + 1) := by omega
      rw [this]

/-- C16 (as amended): when the storage limit that `display_real` checks is
not zero and the absolute address `a = APPLY_PREFIXING(raddr, PX)` lies
within it, the line shows exactly `min(16, PAGEFRAME_PAGESIZE - a mod
PAGEFRAME_PAGESIZE)` bytes, the consecutive storage bytes from `a` on, each
of them in the page of `a`. -/
theorem display_real_bytes (regs : REGS) (raddr : Nat)
    (hlim : checked_limit regs ≠ 0) (hu : checked_limit regs < U64_MOD)
    (ha : APPLY_PREFIXING raddr regs.PX ≤ checked_limit regs) :
    display_real regs raddr
        = RealLine.bytes ((List.range (min 16 (PAGEFRAME_PAGESIZE
              - APPLY_PREFIXING raddr regs.PX % PAGEFRAME_PAGESIZE))).map fun i =>
            ⟨APPLY_PREFIXING raddr regs.PX + i, APPLY_PREFIXING raddr regs.PX + i,
              regs.mainstor (APPLY_PREFIXING raddr regs.PX + i)⟩)
      ∧ ∀ b ∈ (display_real regs raddr).shown,
          b.abs / PAGEFRAME_PAGESIZE = APPLY_PREFIXING raddr regs.PX / PAGEFRAME_PAGESIZE := by
  have h1 : display_real regs raddr
      = RealLine.bytes ((List.range (min 16 (PAGEFRAME_PAGESIZE
            - APPLY_PREFIXING raddr regs.PX % PAGEFRAME_PAGESIZE))).map fun i =>
          ⟨APPLY_PREFIXING raddr regs.PX + i, APPLY_PREFIXING raddr regs.PX + i,
            regs.mainstor (APPLY_PREFIXING raddr regs.PX + i)⟩) := by
    rw [display_real_eq, if_neg (by omega), display_real_loop_eq _ _ _ (by omega)]
  refine ⟨h1, ?_⟩
  rw [h1]
  intro b hb
  simp only [RealLine.shown, List.mem_map, List.mem_range] at hb
  obtain ⟨i, hi, rfl⟩ := hb
  simp only [PAGEFRAME_PAGESIZE] at hi ⊢
  omega

/-- Witness of `display_real_bytes`: the real address `0xFFA` with the prefix
`0x2000` and storage up to `0xFFFF`. -/
theorem display_real_bytes_witness :
    display_real (blank_regs 0x2000 0xFFFF) 0xFFA
        = RealLine.bytes ((List.range (min 16 (PAGEFRAME_PAGESIZE
              - APPLY_PREFIXING 0xFFA (blank_regs 0x2000 0xFFFF).PX % PAGEFRAME_PAGESIZE))).map
            fun i =>
            ⟨APPLY_PREFIXING 0xFFA (blank_regs 0x2000 0xFFFF).PX + i,
              APPLY_PREFIXING 0xFFA (blank_regs 0x2000 0xFFFF).PX + i,
              (blank_regs 0x2000 0xFFFF).mainstor
                (APPLY_PREFIXING 0xFFA (blank_regs 0x2000 0xFFFF).PX + i)⟩)
      ∧ ∀ b ∈ (display_real (blank_regs 0x2000 0xFFFF) 0xFFA).shown,
          b.abs / PAGEFRAME_PAGESIZE
            = APPLY_PREFIXING 0xFFA (blank_regs 0x2000 0xFFFF).PX / PAGEFRAME_PAGESIZE :=
  display_real_bytes (blank_regs 0x2000 0xFFFF) 0xFFA (by decide) (by decide) (by decide)

/-- C16 (as stated) fails: with no storage (`mainlim = 0`) the absolute
address 0 is within the limit, yet `display_real` answers "not valid" and
renders no byte. -/
theorem display_real_no_storage :
    APPLY_PREFIXING 0 (blank_regs 0 0).PX ≤ checked_limit (blank_regs 0 0)
      ∧ display_real (blank_regs 0 0) 0 = RealLine.not_valid
      ∧ (display_real (blank_regs 0 0) 0).shown = [] := by
  decide

/-- C17: `display_real` forms the absolute address from `raddr` with the
prefix register `regs->PX` of the context it is given; for a SIE guest it
takes the address if and only if the host's `mainlim` is not zero and the
address does not exceed it, otherwise if and only if the context's own
`mainlim` is not zero and the address does not exceed it; the line of an
address taken starts at that absolute address. -/
theorem display_real_accepts (regs : REGS) (raddr : Nat) :
    (display_real regs raddr ≠ RealLine.not_valid
        ↔ if regs.sie_mode then
            regs.hostregs_mainlim ≠ 0
              ∧ APPLY_PREFIXING raddr regs.PX ≤ regs.hostregs_mainlim
          else regs.mainlim ≠ 0 ∧ APPLY_PREFIXING raddr regs.PX ≤ regs.mainlim)
      ∧ (display_real regs raddr = RealLine.not_valid
          ∨ display_real regs raddr = RealLine.bytes
              (display_real_loop regs.mainstor 16 (APPLY_PREFIXING raddr regs.PX))) := by
  rw [display_real_eq]
  unfold checked_limit
  cases regs.sie_mode
  · simp only [Bool.false_eq_true, if_false]
    by_cases h : regs.mainlim = 0 ∨ regs.mainlim < APPLY_PREFIXING raddr regs.PX
    · rw [if_pos h]
      refine ⟨?_, Or.inl rfl⟩
      constructor
      · intro hn; exact absurd rfl hn
      · intro hh; omega
    · rw [if_neg h]
      refine ⟨?_, Or.inr rfl⟩
      constructor
      · intro _; omega
      · intro _ hn; cases hn
  · simp only [if_true]
    by_cases h : regs.hostregs_mainlim = 0 ∨ regs.hostregs_mainlim < APPLY_PREFIXING raddr regs.PX
    · rw [if_pos h]
      refine ⟨?_, Or.inl rfl⟩
      constructor
      · intro hn; exact absurd rfl hn
      · intro hh; omega
    · rw [if_neg h]
      refine ⟨?_, Or.inr rfl⟩
      constructor
      · intro _; omega
      · intro _ hn; cases hn

/-! ### The dump loops as sequences of passes -/

theorem option_map_cons_msgs (regs : REGS) (step : PageStep) (o : Option (List PageStep)) :
    (o.map (steps_msgs regs)).map (fun more => step.msgs regs ++ more)
      = (o.map fun more => step :: more).map (steps_msgs regs) := by
  cases o <;> rfl

theorem dump_loop_real_or_abs_steps (cmd : Char) (regs : REGS) (addrwid : Nat) :
    ∀ fuel pageadr pageoff pageamt totamt,
      dump_loop_real_or_abs cmd regs addrwid fuel pageadr pageoff pageamt totamt
        = (page_steps (visit_real_or_abs cmd regs addrwid) fuel pageadr pageoff pageamt
            totamt).map (steps_msgs regs) := by
  intro fuel
  induction fuel with
  | zero => intros; rfl
  | succ fuel ih =>
    intro pageadr pageoff pageamt totamt
    rw [dump_loop_real_or_abs, page_steps]
    simp only []
    generalize hpm : (if totamt < pageamt then totamt else pageamt) = pm
    have hv : visit_real_or_abs cmd regs addrwid pageadr pageoff pm
        = if regs.mainlim < (if cmd = 'R' then APPLY_PREFIXING pageadr regs.PX else pageadr)
          then PageStep.addressing_exception 'A'
            (if cmd = 'R' then APPLY_PREFIXING pageadr regs.PX else pageadr)
          else PageStep.dumped (if cmd = 'R' then APPLY_PREFIXING pageadr regs.PX else pageadr)
            ⟨if cmd = 'R' then APPLY_PREFIXING pageadr regs.PX else pageadr, pageadr, pageoff,
              pm, cmd, addrwid⟩ := rfl
    generalize hA : (if cmd = 'R' then APPLY_PREFIXING pageadr regs.PX else pageadr) = aaddr
      at hv
    by_cases hl : regs.mainlim < aaddr
    · rw [if_pos hl] at hv
      rw [if_pos hl, hv]
      rfl
    · rw [if_neg hl] at hv
      rw [if_neg hl, hv]
      simp only [PageStep.is_addressing_exception, Bool.false_eq_true, if_false]
      by_cases hz : sub64 totamt pm = 0
      · rw [if_pos hz, if_pos hz]
        simp [steps_msgs, PageStep.msgs]
      · rw [if_neg hz, if_neg hz, ih]
        exact option_map_cons_msgs regs
          (PageStep.dumped aaddr ⟨aaddr, pageadr, pageoff, pm, cmd, addrwid⟩) _

theorem dump_loop_virt_steps (logical_to_main_l : Translator) (arn : Arn) (regs : REGS)
    (addrwid : Nat) :
    ∀ fuel pageadr pageoff pageamt totamt,
      dump_loop_virt logical_to_main_l arn regs addrwid fuel pageadr pageoff pageamt totamt
        = (page_steps (visit_virt logical_to_main_l arn regs addrwid) fuel pageadr pageoff
            pageamt totamt).map (steps_msgs regs) := by
  intro fuel
  induction fuel with
  | zero => intros; rfl
  | succ fuel ih =>
    intro pageadr pageoff pageamt totamt
    rw [dump_loop_virt, page_steps]
    simp only []
    generalize hpm : (if totamt < pageamt then totamt else pageamt) = pm
    have hv : visit_virt logical_to_main_l arn regs addrwid pageadr pageoff pm
        = if (virt_to_real logical_to_main_l pageadr arn regs AccType.ACCTYPE_HW).icode
              % 65536 ≠ 0
          then PageStep.translation_exception pageadr
            ((virt_to_real logical_to_main_l pageadr arn regs AccType.ACCTYPE_HW).icode % 65536)
          else if regs.mainlim < APPLY_PREFIXING
              (virt_to_real logical_to_main_l pageadr arn regs AccType.ACCTYPE_HW).raddr regs.PX
            then PageStep.addressing_exception 'R'
              (virt_to_real logical_to_main_l pageadr arn regs AccType.ACCTYPE_HW).raddr
            else PageStep.dumped
              (virt_to_real logical_to_main_l pageadr arn regs AccType.ACCTYPE_HW).raddr
              ⟨APPLY_PREFIXING
                (virt_to_real logical_to_main_l pageadr arn regs AccType.ACCTYPE_HW).raddr
                regs.PX, pageadr, pageoff, pm, Char.ofNat 0, addrwid⟩ := rfl
    generalize hx : virt_to_real logical_to_main_l pageadr arn regs AccType.ACCTYPE_HW = x
      at hv
    by_cases hc : x.icode % 65536 = 0
    · by_cases hl : regs.mainlim < APPLY_PREFIXING x.raddr regs.PX
      · rw [if_neg (not_not.mpr hc), if_pos hl] at hv
        rw [if_pos ⟨hc, hl⟩, hv]
        rfl
      · rw [if_neg (not_not.mpr hc), if_neg hl] at hv
        rw [if_neg (fun h => hl h.2), if_neg (not_not.mpr hc), hv]
        simp only [PageStep.is_addressing_exception, Bool.false_eq_true, if_false]
        by_cases hz : sub64 totamt pm = 0
        · rw [if_pos hz, if_pos hz]
          simp [steps_msgs, PageStep.msgs]
        · rw [if_neg hz, if_neg hz, ih]
          exact option_map_cons_msgs regs (PageStep.dumped x.raddr
            ⟨APPLY_PREFIXING x.raddr regs.PX, pageadr, pageoff, pm, Char.ofNat 0, addrwid⟩) _
    · rw [if_pos hc] at hv
      rw [if_neg (fun h => hc h.1), if_pos hc, hv]
      simp only [PageStep.is_addressing_exception, Bool.false_eq_true, if_false]
      by_cases hz : sub64 totamt pm = 0
      · rw [if_pos hz, if_pos hz]
        simp [steps_msgs, PageStep.msgs]
      · rw [if_neg hz, if_neg hz, ih]
        exact option_map_cons_msgs regs
          (PageStep.translation_exception pageadr (x.icode % 65536)) _

/-! ### The page dump loops pass by pass -/

theorem addressing_exception_amt (s : PageStep) (h : s.is_addressing_exception = true) :
    s.amt = 0 ∧ s.is_dumped = false := by
  cases s <;> simp_all [PageStep.is_addressing_exception, PageStep.amt, PageStep.is_dumped]

theorem dumped_amount_cons (s : PageStep) (steps : List PageStep) :
    dumped_amount (s :: steps) = s.amt + dumped_amount steps := by
  simp [dumped_amount]

theorem page_steps_spec (visit : Nat → Nat → Nat → PageStep)
    (hv : ∀ pa po pm, (visit pa po pm).is_dumped = true → (visit pa po pm).amt = pm)
    (hn : ∀ pa po pm, (visit pa po pm).is_dumped = false → (visit pa po pm).amt = 0) :
    ∀ fuel pageadr pageoff pageamt totamt,
      pageadr < U64_MOD → pageoff + pageamt = PAGEFRAME_PAGESIZE → 0 < pageamt →
      0 < totamt → totamt ≤ fuel → totamt < U64_MOD →
      ∃ steps, page_steps visit fuel pageadr pageoff pageamt totamt = some steps
        ∧ (∀ i s, steps[i]? = some s →
            ∃ pm, 0 < pm ∧ pm ≤ PAGEFRAME_PAGESIZE - (if i = 0 then pageoff else 0)
              ∧ s = visit (add64 pageadr (PAGEFRAME_PAGESIZE * i))
                  (if i = 0 then pageoff else 0) pm)
        ∧ (∀ i s, steps[i]? = some s → s.is_addressing_exception = true →
            i + 1 = steps.length)
        ∧ 1 ≤ steps.length
        ∧ steps.length ≤ (pageoff + totamt + 4095) / 4096
        ∧ ((∀ s ∈ steps, s.is_addressing_exception = false) →
            steps.length = (pageoff + totamt + 4095) / 4096)
        ∧ dumped_amount steps ≤ totamt
        ∧ ((∀ s ∈ steps, s.is_dumped = true) → dumped_amount steps = totamt) := by
  intro fuel
  induction fuel with
  | zero => intro _ _ _ _ _ _ _ h1 h2; omega
  | succ fuel ih =>
    intro pageadr pageoff pageamt totamt hpl hpo hpa ht hf hu
    rw [page_steps]
    simp only []
    generalize hpm : (if totamt < pageamt then totamt else pageamt) = pm
    have hpm1 : 0 < pm := by rw [← hpm]; split_ifs <;> omega
    have hpm2 : pm ≤ pageamt := by rw [← hpm]; split_ifs <;> omega
    have hpm3 : pm ≤ totamt := by rw [← hpm]; split_ifs <;> omega
    have hpm4 : pm < totamt → pm = pageamt := by rw [← hpm]; split_ifs <;> omega
    have hsub : sub64 totamt pm = totamt - pm := sub64_of_le _ _ hu hpm3
    have hP : PAGEFRAME_PAGESIZE = 4096 := rfl
    have hamt : (visit pageadr pageoff pm).amt ≤ pm := by
      cases hd : (visit pageadr pageoff pm).is_dumped
      · rw [hn _ _ _ hd]; omega
      · rw [hv _ _ _ hd]
    have hzero : ∀ s, s = visit pageadr pageoff pm →
        ∃ pm', 0 < pm' ∧ pm' ≤ PAGEFRAME_PAGESIZE - (if 0 = 0 then pageoff else 0)
          ∧ s = visit (add64 pageadr (PAGEFRAME_PAGESIZE * 0))
              (if 0 = 0 then pageoff else 0) pm' := by
      intro s hs
      refine ⟨pm, hpm1, ?_, ?_⟩
      · simp only [if_true]; omega
      · have : add64 pageadr (PAGEFRAME_PAGESIZE * 0) = pageadr := by
          unfold add64; unfold U64_MOD at *; omega
        rw [this, hs]; rfl
    by_cases hae : (visit pageadr pageoff pm).is_addressing_exception = true
    · rw [if_pos hae]
      refine ⟨_, rfl, ?_, ?_, ?_, ?_, ?_, ?_, ?_⟩
      · intro i s hs
        cases i with
        | zero =>
          simp only [List.getElem?_cons_zero, Option.some.injEq] at hs
          exact hzero s hs.symm
        | succ i => simp at hs
      · intro i s hs _
        cases i with
        | zero => rfl
        | succ i => simp at hs
      · simp
      · simp only [List.length_singleton]; omega
      · intro hall
        have := hall _ (List.mem_singleton_self _)
        rw [hae] at this
        cases this
      · rw [dumped_amount_cons, (addressing_exception_amt _ hae).1]
        simp [dumped_amount]
      · intro hall
        have := hall _ (List.mem_singleton_self _)
        rw [(addressing_exception_amt _ hae).2] at this
        cases this
    · rw [if_neg hae, hsub]
      by_cases hz : totamt - pm = 0
      · rw [if_pos hz]
        refine ⟨_, rfl, ?_, ?_, ?_, ?_, ?_, ?_, ?_⟩
        · intro i s hs
          cases i with
          | zero =>
            simp only [List.getElem?_cons_zero, Option.some.injEq] at hs
            exact hzero s hs.symm
          | succ i => simp at hs
        · intro i s hs _
          cases i with
          | zero => rfl
          | succ i => simp at hs
        · simp
        · simp only [List.length_singleton]; omega
        · intro _
          simp only [List.length_singleton]; omega
        · rw [dumped_amount_cons]
          simp only [dumped_amount, List.map_nil, List.sum_nil]; omega
        · intro hall
          have := hall _ (List.mem_singleton_self _)
          rw [dumped_amount_cons, hv _ _ _ this]
          simp only [dumped_amount, List.map_nil, List.sum_nil]; omega
      · rw [if_neg hz]
        have hpe : pm = pageamt := hpm4 (by omega)
        obtain ⟨more, hmore, hA, hB, hC1, hC, hD, hE, hF⟩ :=
          ih (add64 pageadr PAGEFRAME_PAGESIZE) 0 PAGEFRAME_PAGESIZE (totamt - pm)
            (add64_lt _ _) (by omega) (by omega) (by omega) (by omega) (by omega)
        rw [hmore]
        refine ⟨_, rfl, ?_, ?_, ?_, ?_, ?_, ?_, ?_⟩
        · intro i s hs
          cases i with
          | zero =>
            simp only [List.getElem?_cons_zero, Option.some.injEq] at hs
            exact hzero s hs.symm
          | succ i =>
            simp only [List.getElem?_cons_succ] at hs
            obtain ⟨pm', h1, h2, h3⟩ := hA i s hs
            refine ⟨pm', h1, ?_, ?_⟩
            · rw [if_neg (by omega)]
              split_ifs at h2 <;> omega
            · have e1 : add64 (add64 pageadr PAGEFRAME_PAGESIZE) (PAGEFRAME_PAGESIZE * i)
                  = add64 pageadr (PAGEFRAME_PAGESIZE * (i + 1)) := by
                unfold add64 U64_MOD PAGEFRAME_PAGESIZE; omega
              have e2 : (if i = 0 then 0 else 0) = 0 := by split_ifs <;> rfl
              rw [e1, e2] at h3
              rw [if_neg (by omega)]
              exact h3
        · intro i s hs hs2
          cases i with
          | zero =>
            simp only [List.getElem?_cons_zero, Option.some.injEq] at hs
            rw [← hs] at hs2
            exact absurd hs2 hae
          | succ i =>
            simp only [List.getElem?_cons_succ] at hs
            have := hB i s hs hs2
            simp only [List.length_cons]; omega
        · simp
        · simp only [List.length_cons]; omega
        · intro hall
          have := hD (fun s hs => hall s (List.mem_cons_of_mem _ hs))
          simp only [List.length_cons]; omega
        · rw [dumped_amount_cons]; omega
        · intro hall
          have h1 := hF (fun s hs => hall s (List.mem_cons_of_mem _ hs))
          have h2 := hall _ (List.mem_cons_self _ _)
          rw [dumped_amount_cons, hv _ _ _ h2, h1]; omega

theorem visit_real_or_abs_amt (cmd : Char) (regs : REGS) (addrwid : Nat) :
    (∀ pa po pm, (visit_real_or_abs cmd regs addrwid pa po pm).is_dumped = true →
        (visit_real_or_abs cmd regs addrwid pa po pm).amt = pm)
      ∧ (∀ pa po pm, (visit_real_or_abs cmd regs addrwid pa po pm).is_dumped = false →
        (visit_real_or_abs cmd regs addrwid pa po pm).amt = 0) := by
  constructor <;>
  · intro pa po pm
    unfold visit_real_or_abs
    simp only []
    split_ifs <;> simp [PageStep.is_dumped, PageStep.amt]

theorem visit_virt_amt (logical_to_main_l : Translator) (arn : Arn) (regs : REGS)
    (addrwid : Nat) :
    (∀ pa po pm, (visit_virt logical_to_main_l arn regs addrwid pa po pm).is_dumped = true →
        (visit_virt logical_to_main_l arn regs addrwid pa po pm).amt = pm)
      ∧ (∀ pa po pm,
        (visit_virt logical_to_main_l arn regs addrwid pa po pm).is_dumped = false →
        (visit_virt logical_to_main_l arn regs addrwid pa po pm).amt = 0) := by
  constructor <;>
  · intro pa po pm
    unfold visit_virt
    simp only []
    split_ifs <;> simp [PageStep.is_dumped, PageStep.amt]

theorem shown_bytes_steps_le (regs : REGS) (steps : List PageStep) :
    (shown_bytes (steps_msgs regs steps)).length ≤ dumped_amount steps := by
  induction steps with
  | nil => simp [steps_msgs, shown_bytes, dumped_amount]
  | cons s rest ih =>
    rw [steps_msgs, shown_bytes_append, List.length_append, dumped_amount_cons]
    have : (shown_bytes (s.msgs regs)).length ≤ s.amt := by
      cases s with
      | dumped k c =>
        simp only [PageStep.msgs, PageStep.amt]
        rw [shown_bytes_key_line, dump_abs_page_shown]
        split_ifs <;> simp
      | translation_exception v x => simp [PageStep.msgs, shown_bytes]
      | addressing_exception c a => simp [PageStep.msgs, shown_bytes]
    omega

theorem display_length_eq (r : Range) :
    add64 (sub64 (LIMIT_RANGE r.saddr r.eaddr _64_KILOBYTE) r.saddr) 1 = display_length r
      ∧ 0 < display_length r ∧ display_length r ≤ 65536 := by
  have h1 := sub64_lt r.eaddr r.saddr
  unfold display_length LIMIT_RANGE _64_KILOBYTE
  refine ⟨?_, by omega, by omega⟩
  by_cases h : 65536 - 1 < sub64 r.eaddr r.saddr
  · rw [if_pos h]
    have : sub64 (add64 r.saddr (65536 - 1)) r.saddr = 65535 := by
      unfold sub64 add64 U64_MOD at *
      omega
    rw [this]
    unfold add64 U64_MOD
    omega
  · rw [if_neg h]
    unfold add64 U64_MOD
    omega

theorem page_split (saddr : Nat) (hs : saddr < U64_MOD) :
    saddr &&& PAGEFRAME_PAGEMASK < U64_MOD
      ∧ (saddr &&& PAGEFRAME_PAGEMASK) % 4096 = 0
      ∧ sub64 saddr (saddr &&& PAGEFRAME_PAGEMASK) = saddr % 4096 := by
  rw [and_pagemask _ hs, sub64_of_le _ _ hs (by omega)]
  unfold U64_MOD at *
  omega

theorem real_or_abs_dump_steps_eq (sysblk : SYSBLK) (cmd : Char) (regs : REGS) (r : Range)
    (hs : r.saddr < U64_MOD) :
    real_or_abs_dump_steps sysblk cmd regs r
      = page_steps (visit_real_or_abs cmd regs (if ARCH_900_IDX = sysblk.arch_mode then 64 else 32))
          (display_length r) (r.saddr &&& PAGEFRAME_PAGEMASK) (r.saddr % 4096)
          (PAGEFRAME_PAGESIZE - r.saddr % 4096) (display_length r) := by
  unfold real_or_abs_dump_steps
  simp only []
  rw [(display_length_eq r).1, if_pos (display_length_eq r).2.1, (page_split _ hs).2.2]

theorem virt_dump_steps_eq (logical_to_main_l : Translator) (arn : Arn) (sysblk : SYSBLK)
    (regs : REGS) (r : Range) (hs : r.saddr < U64_MOD) :
    virt_dump_steps logical_to_main_l arn sysblk regs r
      = page_steps (visit_virt logical_to_main_l arn regs
            (if ARCH_900_IDX = sysblk.arch_mode then 64 else 32))
          (display_length r) (r.saddr &&& PAGEFRAME_PAGEMASK) (r.saddr % 4096)
          (PAGEFRAME_PAGESIZE - r.saddr % 4096) (display_length r) := by
  unfold virt_dump_steps
  simp only []
  rw [(display_length_eq r).1, if_pos (display_length_eq r).2.1, (page_split _ hs).2.2]

theorem dump_steps_spec (visit : Nat → Nat → Nat → PageStep)
    (hv : ∀ pa po pm, (visit pa po pm).is_dumped = true → (visit pa po pm).amt = pm)
    (hn : ∀ pa po pm, (visit pa po pm).is_dumped = false → (visit pa po pm).amt = 0)
    (r : Range) (hs : r.saddr < U64_MOD) :
    ∃ steps, page_steps visit (display_length r) (r.saddr &&& PAGEFRAME_PAGEMASK)
          (r.saddr % 4096) (PAGEFRAME_PAGESIZE - r.saddr % 4096) (display_length r) = some steps
        ∧ (∀ i s, steps[i]? = some s →
            ∃ pm, 0 < pm ∧ pm ≤ PAGEFRAME_PAGESIZE - (if i = 0 then r.saddr % 4096 else 0)
              ∧ s = visit (add64 (r.saddr &&& PAGEFRAME_PAGEMASK) (PAGEFRAME_PAGESIZE * i))
                  (if i = 0 then r.saddr % 4096 else 0) pm)
        ∧ (∀ i s, steps[i]? = some s → s.is_addressing_exception = true →
            i + 1 = steps.length)
        ∧ 1 ≤ steps.length
        ∧ steps.length ≤ (r.saddr % 4096 + display_length r + 4095) / 4096
        ∧ ((∀ s ∈ steps, s.is_addressing_exception = false) →
            steps.length = (r.saddr % 4096 + display_length r + 4095) / 4096)
        ∧ dumped_amount steps ≤ display_length r
        ∧ ((∀ s ∈ steps, s.is_dumped = true) → dumped_amount steps = display_length r) := by
  have hd := display_length_eq r
  apply page_steps_spec visit hv hn _ _ _ _ _ (page_split _ hs).1
  · simp only [PAGEFRAME_PAGESIZE]; omega
  · simp only [PAGEFRAME_PAGESIZE]; omega
  · exact hd.2.1
  · exact le_refl _
  · unfold U64_MOD; omega

/-! ### The commands and their dump loops -/

theorem alter_real_or_abs_loop_fault_msg (cmd : Char) (saddr : Nat) :
    ∀ (bs : List Nat) (i : Nat) (regs : REGS) (m : Msg),
      (alter_real_or_abs_loop cmd saddr bs i regs).fault = some m → shown_bytes [m] = [] := by
  intro bs
  induction bs with
  | nil => intro i regs m h; simp [alter_real_or_abs_loop] at h
  | cons b bs ih =>
    intro i regs m h
    rw [alter_real_or_abs_loop] at h
    simp only [] at h
    generalize (if cmd = 'R' then APPLY_PREFIXING (add64 saddr i) regs.PX else add64 saddr i)
      = aaddr at h
    by_cases hl : regs.mainlim < aaddr
    · rw [if_pos hl] at h
      simp only [Option.some.injEq] at h
      rw [← h]; rfl
    · rw [if_neg hl] at h
      exact ih _ _ m h

theorem alter_virt_loop_fault_msg (logical_to_main_l : Translator) (arn : Arn) (saddr : Nat) :
    ∀ (bs : List Nat) (i : Nat) (regs : REGS) (m : Msg),
      (alter_virt_loop logical_to_main_l arn saddr bs i regs).fault = some m →
        shown_bytes [m] = [] := by
  intro bs
  induction bs with
  | nil => intro i regs m h; simp [alter_virt_loop] at h
  | cons b bs ih =>
    intro i regs m h
    rw [alter_virt_loop] at h
    simp only [] at h
    split_ifs at h
    · simp only [Option.some.injEq] at h
      rw [← h]; rfl
    · simp only [Option.some.injEq] at h
      rw [← h]; rfl
    · exact ih _ _ m h

theorem alter_display_real_or_abs_dump (h2g : Char → Nat) (sysblk : SYSBLK) (regs : REGS)
    (argv0 cmdline : List Char) (cmd : Char) (opnd : List Char) (r : Range)
    (hlen : 3 ≤ cmdline.length) (hop : real_or_abs_operand argv0 cmdline = some (cmd, opnd))
    (hparse : parse_range h2g (some opnd) 0xFFFFFFFFFFFFFFFF true = some r)
    (hlim : regs.mainlim ≠ 0)
    (hf : (alter_real_or_abs_loop cmd r.saddr r.newval 0 regs).fault = none) :
    alter_display_real_or_abs h2g sysblk regs argv0 (some cmdline)
      = (real_or_abs_dump_steps sysblk cmd
            (alter_real_or_abs_loop cmd r.saddr r.newval 0 regs).regs r).map fun steps =>
          ⟨(alter_real_or_abs_loop cmd r.saddr r.newval 0 regs).regs,
            (alter_real_or_abs_loop cmd r.saddr r.newval 0 regs).writes,
            steps_msgs (alter_real_or_abs_loop cmd r.saddr r.newval 0 regs).regs steps⟩ := by
  unfold alter_display_real_or_abs real_or_abs_dump_steps
  simp only [not_lt.mpr hlen, if_false, hop, hparse, hlim, hf]
  by_cases ht : 0 < add64 (sub64 (LIMIT_RANGE r.saddr r.eaddr _64_KILOBYTE) r.saddr) 1
  · simp only [if_pos ht]
    rw [dump_loop_real_or_abs_steps, Option.map_map]
    rfl
  · simp only [if_neg ht]
    rfl

theorem alter_display_virt_dump (h2g : Char → Nat) (logical_to_main_l : Translator)
    (sysblk : SYSBLK) (regs : REGS) (cmdline : List Char) (r : Range)
    (hlen : 3 ≤ cmdline.length)
    (hparse : parse_range h2g (some (virt_operand cmdline).2) 0xFFFFFFFFFFFFFFFF true = some r)
    (hlim : regs.mainlim ≠ 0)
    (hf : (virt_altered logical_to_main_l (virt_operand cmdline).1 regs r).fault = none) :
    alter_display_virt h2g logical_to_main_l sysblk regs (some cmdline)
      = (virt_dump_steps logical_to_main_l (virt_operand cmdline).1 sysblk
            (virt_altered logical_to_main_l (virt_operand cmdline).1 regs r).regs r).map
          fun steps =>
          ⟨(virt_altered logical_to_main_l (virt_operand cmdline).1 regs r).regs,
            (virt_altered logical_to_main_l (virt_operand cmdline).1 regs r).writes,
            steps_msgs (virt_altered logical_to_main_l (virt_operand cmdline).1 regs r).regs
              steps⟩ := by
  unfold alter_display_virt virt_dump_steps
  simp only [not_lt.mpr hlen, if_false, hparse, hlim]
  change (match (virt_altered logical_to_main_l (virt_operand cmdline).1 regs r).fault with
    | some m => _
    | none => _) = _
  rw [hf]
  simp only []
  by_cases ht : 0 < add64 (sub64 (LIMIT_RANGE r.saddr r.eaddr _64_KILOBYTE) r.saddr) 1
  · simp only [if_pos ht]
    rw [dump_loop_virt_steps, Option.map_map]
    rfl
  · simp only [if_neg ht]
    rfl

/-! ### C12: the calls of `dump_abs_page` -/

theorem real_or_abs_dump_bounded (h2g : Char → Nat) (sysblk : SYSBLK) (regs : REGS)
    (argv0 cmdline : List Char) (cmd : Char) (opnd : List Char)
    (hop : real_or_abs_operand argv0 cmdline = some (cmd, opnd)) :
    ∃ out, alter_display_real_or_abs h2g sysblk regs argv0 (some cmdline) = some out
      ∧ (shown_bytes out.msgs).length ≤ 65536 := by
  by_cases hlen : cmdline.length < 3
  · unfold alter_display_real_or_abs
    simp only [hlen, if_true]
    exact ⟨_, rfl, by simp [shown_bytes]⟩
  · cases hp : parse_range h2g (some opnd) 0xFFFFFFFFFFFFFFFF true with
    | none =>
      unfold alter_display_real_or_abs
      simp only [hlen, if_false, hop, hp]
      exact ⟨_, rfl, by simp [shown_bytes]⟩
    | some r =>
      by_cases hlim : regs.mainlim = 0
      · unfold alter_display_real_or_abs
        simp only [hlen, if_false, hop, hp, hlim, if_true]
        exact ⟨_, rfl, by simp [shown_bytes]⟩
      · cases hf : (alter_real_or_abs_loop cmd r.saddr r.newval 0 regs).fault with
        | some m =>
          unfold alter_display_real_or_abs
          simp only [hlen, if_false, hop, hp, hlim, hf]
          refine ⟨_, rfl, ?_⟩
          simp only []
          rw [alter_real_or_abs_loop_fault_msg _ _ _ _ _ _ hf]
          simp
        | none =>
          have hs := (parse_range_shape h2g _ _ _ r hp).1
          rw [alter_display_real_or_abs_dump h2g sysblk regs argv0 cmdline cmd opnd r
            (by omega) hop hp hlim hf, real_or_abs_dump_steps_eq _ _ _ _ hs]
          obtain ⟨steps, h0, -, -, -, -, -, hE, -⟩ := dump_steps_spec
            (visit_real_or_abs cmd (alter_real_or_abs_loop cmd r.saddr r.newval 0 regs).regs
              (if ARCH_900_IDX = sysblk.arch_mode then 64 else 32))
            (visit_real_or_abs_amt cmd _ _).1 (visit_real_or_abs_amt cmd _ _).2 r hs
          rw [h0]
          refine ⟨_, rfl, ?_⟩
          have h1 := shown_bytes_steps_le
            (alter_real_or_abs_loop cmd r.saddr r.newval 0 regs).regs steps
          have h2 := (display_length_eq r).2.2
          simp only []
          omega

theorem virt_altered_fault_msg (logical_to_main_l : Translator) (arn : Arn) (regs : REGS)
    (r : Range) (m : Msg) (h : (virt_altered logical_to_main_l arn regs r).fault = some m) :
    shown_bytes [m] = [] := by
  unfold virt_altered at h
  split_ifs at h
  exact alter_virt_loop_fault_msg _ _ _ _ _ _ _ h

theorem virt_dump_bounded (h2g : Char → Nat) (logical_to_main_l : Translator)
    (sysblk : SYSBLK) (regs : REGS) (cmdline : List Char) :
    ∃ out, alter_display_virt h2g logical_to_main_l sysblk regs (some cmdline) = some out
      ∧ (shown_bytes out.msgs).length ≤ 65536 := by
  by_cases hlen : cmdline.length < 3
  · unfold alter_display_virt
    simp only [hlen, if_true]
    exact ⟨_, rfl, by simp [shown_bytes]⟩
  · cases hp : parse_range h2g (some (virt_operand cmdline).2) 0xFFFFFFFFFFFFFFFF true with
    | none =>
      unfold alter_display_virt
      simp only [hlen, if_false, hp]
      exact ⟨_, rfl, by simp [shown_bytes]⟩
    | some r =>
      by_cases hlim : regs.mainlim = 0
      · unfold alter_display_virt
        simp only [hlen, if_false, hp, hlim, if_true]
        exact ⟨_, rfl, by simp [shown_bytes]⟩
      · cases hf : (virt_altered logical_to_main_l (virt_operand cmdline).1 regs r).fault with
        | some m =>
          unfold alter_display_virt
          simp only [hlen, if_false, hp, hlim]
          change ∃ out, (match (virt_altered logical_to_main_l (virt_operand cmdline).1 regs
            r).fault with
            | some m => _
            | none => _) = some out ∧ _
          rw [hf]
          refine ⟨_, rfl, ?_⟩
          simp only []
          rw [virt_altered_fault_msg _ _ _ _ _ hf]
          simp
        | none =>
          have hs := (parse_range_shape h2g _ _ _ r hp).1
          rw [alter_display_virt_dump h2g logical_to_main_l sysblk regs cmdline r
            (by omega) hp hlim hf, virt_dump_steps_eq _ _ _ _ _ hs]
          obtain ⟨steps, h0, -, -, -, -, -, hE, -⟩ := dump_steps_spec
            (visit_virt logical_to_main_l (virt_operand cmdline).1
              (virt_altered logical_to_main_l (virt_operand cmdline).1 regs r).regs
              (if ARCH_900_IDX = sysblk.arch_mode then 64 else 32))
            (visit_virt_amt _ _ _ _).1 (visit_virt_amt _ _ _ _).2 r hs
          rw [h0]
          refine ⟨_, rfl, ?_⟩
          have h1 := shown_bytes_steps_le
            (virt_altered logical_to_main_l (virt_operand cmdline).1 regs r).regs steps
          have h2 := (display_length_eq r).2.2
          simp only []
          omega

/-- C13: one invocation of `alter_display_real_or_abs` (whose command line
holds the operand) or of `alter_display_virt` comes to an end, its page dump
loop within as many passes as there are bytes to dump, and the storage bytes
that it dumps number at most `_64_KILOBYTE` = 65536, whatever the range. -/
theorem dump_at_most_64K (h2g : Char → Nat) (logical_to_main_l : Translator)
    (sysblk : SYSBLK) (regs : REGS) (argv0 cmdline : List Char) (cmd : Char)
    (opnd : List Char) (hop : real_or_abs_operand argv0 cmdline = some (cmd, opnd)) :
    (∃ out, alter_display_real_or_abs h2g sysblk regs argv0 (some cmdline) = some out
        ∧ (shown_bytes out.msgs).length ≤ _64_KILOBYTE)
      ∧ (∃ out, alter_display_virt h2g logical_to_main_l sysblk regs (some cmdline) = some out
        ∧ (shown_bytes out.msgs).length ≤ _64_KILOBYTE) :=
  ⟨real_or_abs_dump_bounded h2g sysblk regs argv0 cmdline cmd opnd hop,
    virt_dump_bounded h2g logical_to_main_l sysblk regs cmdline⟩

/-- Witness of `dump_at_most_64K`: the display of the range `0.FFFFFFFF`. -/
theorem dump_at_most_64K_witness :
    (∃ out, alter_display_real_or_abs (fun c => c.toNat) ⟨ARCH_900_IDX⟩
        (blank_regs 0 0xFFFFFFFF) ['r'] (some "r 0.ffffffff".toList) = some out
        ∧ (shown_bytes out.msgs).length ≤ _64_KILOBYTE)
      ∧ (∃ out, alter_display_virt (fun c => c.toNat) (example_translator fun _ => true)
        ⟨ARCH_900_IDX⟩ (blank_regs 0 0xFFFFFFFF) (some "r 0.ffffffff".toList) = some out
        ∧ (shown_bytes out.msgs).length ≤ _64_KILOBYTE) :=
  dump_at_most_64K (fun c => c.toNat) (example_translator fun _ => true) ⟨ARCH_900_IDX⟩
    (blank_regs 0 0xFFFFFFFF) ['r'] "r 0.ffffffff".toList 'R' "0.FFFFFFFF".toList (by decide)

/-! ### C14: exceptions in the dump loops -/

theorem steps_msgs_append (regs : REGS) (a b : List PageStep) :
    steps_msgs regs (a ++ b) = steps_msgs regs a ++ steps_msgs regs b := by
  induction a with
  | nil => rfl
  | cons s rest ih => simp [steps_msgs, ih]

theorem steps_end_at_addressing_exception (regs : REGS) (steps : List PageStep)
    (hB : ∀ i s, steps[i]? = some s → s.is_addressing_exception = true → i + 1 = steps.length)
    (i : Nat) (c : Char) (a : Nat)
    (h : steps[i]? = some (PageStep.addressing_exception c a)) :
    i + 1 = steps.length
      ∧ steps_msgs regs steps = steps_msgs regs (steps.take i) ++ [Msg.HHC02328 c a] := by
  have hl := hB i _ h rfl
  refine ⟨hl, ?_⟩
  have hd : steps.drop i = [PageStep.addressing_exception c a] := by
    have hi : i < steps.length := by omega
    rw [List.getElem?_eq_getElem hi] at h
    simp only [Option.some.injEq] at h
    rw [List.drop_eq_getElem_cons hi, h, List.drop_of_length_le (by omega)]
  conv_lhs => rw [← List.take_append_drop i steps]
  rw [steps_msgs_append, hd]
  simp [steps_msgs, PageStep.msgs]

theorem steps_go_on_after_translation_exception (steps : List PageStep) (pages : Nat)
    (hB : ∀ i s, steps[i]? = some s → s.is_addressing_exception = true → i + 1 = steps.length)
    (hD : (∀ s ∈ steps, s.is_addressing_exception = false) → steps.length = pages)
    (i v x : Nat) (h : steps[i]? = some (PageStep.translation_exception v x))
    (hp : i + 1 < pages) : i + 1 < steps.length := by
  by_contra hcon
  have hi : i < steps.length := by
    by_contra hi
    rw [List.getElem?_eq_none (by omega)] at h
    cases h
  have hlast : i + 1 = steps.length := by omega
  have hall : ∀ s ∈ steps, s.is_addressing_exception = false := by
    intro s hs
    cases hae : s.is_addressing_exception with
    | false => rfl
    | true =>
      obtain ⟨j, hj, hjs⟩ := List.getElem_of_mem hs
      have hj2 : steps[j]? = some s := by rw [List.getElem?_eq_getElem hj, hjs]
      have := hB j s hj2 hae
      have hji : j = i := by omega
      rw [hji, h] at hj2
      simp only [Option.some.injEq] at hj2
      rw [← hj2] at hae
      cases hae
  have := hD hall
  omega

theorem visit_real_or_abs_no_translation (cmd : Char) (regs : REGS)
    (addrwid pa po pm : Nat) :
    (visit_real_or_abs cmd regs addrwid pa po pm).is_translation_exception = false := by
  unfold visit_real_or_abs
  simp only []
  split_ifs <;> rfl

/-- C14 (as amended): when `alter_display_real_or_abs` or
`alter_display_virt` reaches its dump loop (the range is accepted by
`parse_range`, there is storage, and the alteration loop met no exception),
the command returns and its messages are those of the passes of the loop.
An addressing exception ends the loop: the pass that reports it is the last
one, so no later page is translated or dumped, and the messages of the
command are those of the passes before it followed by the message of the
exception.  The loop of `alter_display_real_or_abs` translates nothing.  A
translation exception in the loop of `alter_display_virt` does not end the
loop: unless its page is the last page of the displayed range, a further
pass follows it; and unless an addressing exception ends the loop, there is
a pass for every page of the displayed range. -/
theorem dump_loop_ends_at_addressing_exception (h2g : Char → Nat)
    (logical_to_main_l : Translator)
    (sysblk : SYSBLK) (regs : REGS) (argv0 cmdline : List Char) (cmd : Char)
    (opnd : List Char) (r : Range) (vcmdline : List Char) (vr : Range)
    (hlim : regs.mainlim ≠ 0)
    (hlen : 3 ≤ cmdline.length) (hop : real_or_abs_operand argv0 cmdline = some (cmd, opnd))
    (hparse : parse_range h2g (some opnd) 0xFFFFFFFFFFFFFFFF true = some r)
    (hf : (alter_real_or_abs_loop cmd r.saddr r.newval 0 regs).fault = none)
    (hvlen : 3 ≤ vcmdline.length)
    (hvparse : parse_range h2g (some (virt_operand vcmdline).2) 0xFFFFFFFFFFFFFFFF true
      = some vr)
    (hvf : (virt_altered logical_to_main_l (virt_operand vcmdline).1 regs vr).fault = none) :
    (∃ steps,
        alter_display_real_or_abs h2g sysblk regs argv0 (some cmdline)
          = some ⟨(alter_real_or_abs_loop cmd r.saddr r.newval 0 regs).regs,
              (alter_real_or_abs_loop cmd r.saddr r.newval 0 regs).writes,
              steps_msgs (alter_real_or_abs_loop cmd r.saddr r.newval 0 regs).regs steps⟩
        ∧ (∀ (i : Nat) (c : Char) (a : Nat),
            steps[i]? = some (PageStep.addressing_exception c a) →
            i + 1 = steps.length
              ∧ steps_msgs (alter_real_or_abs_loop cmd r.saddr r.newval 0 regs).regs steps
                = steps_msgs (alter_real_or_abs_loop cmd r.saddr r.newval 0 regs).regs
                    (steps.take i) ++ [Msg.HHC02328 c a])
        ∧ (∀ s ∈ steps, s.is_translation_exception = false)
        ∧ ((∀ s ∈ steps, s.is_addressing_exception = false) →
            steps.length
              = (r.saddr % PAGEFRAME_PAGESIZE + display_length r + (PAGEFRAME_PAGESIZE - 1))
                  / PAGEFRAME_PAGESIZE))
      ∧ (∃ steps,
        alter_display_virt h2g logical_to_main_l sysblk regs (some vcmdline)
          = some ⟨(virt_altered logical_to_main_l (virt_operand vcmdline).1 regs vr).regs,
              (virt_altered logical_to_main_l (virt_operand vcmdline).1 regs vr).writes,
              steps_msgs (virt_altered logical_to_main_l (virt_operand vcmdline).1 regs vr).regs
                steps⟩
        ∧ (∀ (i : Nat) (c : Char) (a : Nat),
            steps[i]? = some (PageStep.addressing_exception c a) →
            i + 1 = steps.length
              ∧ steps_msgs
                  (virt_altered logical_to_main_l (virt_operand vcmdline).1 regs vr).regs steps
                = steps_msgs
                    (virt_altered logical_to_main_l (virt_operand vcmdline).1 regs vr).regs
                    (steps.take i) ++ [Msg.HHC02328 c a])
        ∧ (∀ (i v x : Nat), steps[i]? = some (PageStep.translation_exception v x) →
            i + 1 < (vr.saddr % PAGEFRAME_PAGESIZE + display_length vr
                + (PAGEFRAME_PAGESIZE - 1)) / PAGEFRAME_PAGESIZE →
            i + 1 < steps.length)
        ∧ ((∀ s ∈ steps, s.is_addressing_exception = false) →
            steps.length
              = (vr.saddr % PAGEFRAME_PAGESIZE + display_length vr + (PAGEFRAME_PAGESIZE - 1))
                  / PAGEFRAME_PAGESIZE)) := by
  have hs := (parse_range_shape h2g _ _ _ r hparse).1
  have hvs := (parse_range_shape h2g _ _ _ vr hvparse).1
  obtain ⟨s1, h1, hA1, hB1, -, -, hD1, -, -⟩ := dump_steps_spec
    (visit_real_or_abs cmd (alter_real_or_abs_loop cmd r.saddr r.newval 0 regs).regs
      (if ARCH_900_IDX = sysblk.arch_mode then 64 else 32))
    (visit_real_or_abs_amt cmd _ _).1 (visit_real_or_abs_amt cmd _ _).2 r hs
  obtain ⟨s2, h2, -, hB2, -, -, hD2, -, -⟩ := dump_steps_spec
    (visit_virt logical_to_main_l (virt_operand vcmdline).1
      (virt_altered logical_to_main_l (virt_operand vcmdline).1 regs vr).regs
      (if ARCH_900_IDX = sysblk.arch_mode then 64 else 32))
    (visit_virt_amt _ _ _ _).1 (visit_virt_amt _ _ _ _).2 vr hvs
  rw [← real_or_abs_dump_steps_eq _ _ _ _ hs] at h1
  rw [← virt_dump_steps_eq _ _ _ _ _ hvs] at h2
  refine ⟨⟨s1, ?_, ?_, ?_, hD1⟩, ⟨s2, ?_, ?_, ?_, hD2⟩⟩
  · rw [alter_display_real_or_abs_dump h2g sysblk regs argv0 cmdline cmd opnd r hlen hop
      hparse hlim hf, h1]
    rfl
  · intro i c a h
    exact steps_end_at_addressing_exception _ s1 hB1 i c a h
  · intro s hs1
    obtain ⟨j, hj, hjs⟩ := List.getElem_of_mem hs1
    obtain ⟨pm, -, -, he⟩ := hA1 j s (by rw [List.getElem?_eq_getElem hj, hjs])
    rw [he]
    exact visit_real_or_abs_no_translation _ _ _ _ _ _
  · rw [alter_display_virt_dump h2g logical_to_main_l sysblk regs vcmdline vr hvlen hvparse
      hlim hvf, h2]
    rfl
  · intro i c a h
    exact steps_end_at_addressing_exception _ s2 hB2 i c a h
  · intro i v x h hp
    exact steps_go_on_after_translation_exception s2 _ hB2 hD2 i v x h hp

/-- Witness of `dump_loop_ends_at_addressing_exception`: `r ff0.20` with
storage ending at `0xFFF`, and `v ff0.20` where the addresses below `0x1000`
do not translate. -/
theorem dump_loop_ends_at_addressing_exception_witness :
    (∃ steps,
        alter_display_real_or_abs (fun c => c.toNat) ⟨ARCH_900_IDX⟩ (blank_regs 0 0xFFF) ['r']
            (some "r ff0.20".toList)
          = some ⟨blank_regs 0 0xFFF, [], steps_msgs (blank_regs 0 0xFFF) steps⟩
        ∧ ∀ s ∈ steps, s.is_translation_exception = false)
      ∧ (∃ steps,
        alter_display_virt (fun c => c.toNat) (example_translator fun v => 0x1000 ≤ v)
            ⟨ARCH_900_IDX⟩ (blank_regs 0 0xFFF) (some "v ff0.20".toList)
          = some ⟨blank_regs 0 0xFFF, [], steps_msgs (blank_regs 0 0xFFF) steps⟩) := by
  obtain ⟨⟨s1, a1, -, b1, -⟩, ⟨s2, a2, -⟩⟩ :=
    dump_loop_ends_at_addressing_exception (fun c => c.toNat)
      (example_translator fun v => 0x1000 ≤ v) ⟨ARCH_900_IDX⟩ (blank_regs 0 0xFFF) ['r']
      "r ff0.20".toList 'R' "FF0.20".toList ⟨0, 0xFF0, 0x100F, []⟩ "v ff0.20".toList
      ⟨0, 0xFF0, 0x100F, []⟩ (by decide)
      (by decide) (by decide) (by decide) rfl (by decide) (by decide) rfl
  exact ⟨⟨s1, a1, b1⟩, ⟨s2, a2⟩⟩

/-- C14 (as stated) fails: for `v ffe.4`, where the page at 0 does not
translate and the page at `0x1000` does, the dump loop of
`alter_display_virt` reports the translation exception of the first page and
goes on to translate and dump the second page. -/
theorem dump_goes_on_after_translation_exception :
    virt_dump_steps (example_translator fun v => 0x1000 ≤ v) (Arn.ar 0) ⟨ARCH_900_IDX⟩
        (blank_regs 0 0xFFFFF) ⟨0, 0xFFE, 0x1001, []⟩
        = some [PageStep.translation_exception 0 0x11,
            PageStep.dumped 0x1000 ⟨0x1000, 0x1000, 0, 2, Char.ofNat 0, 64⟩]
      ∧ (alter_display_virt (fun c => c.toNat) (example_translator fun v => 0x1000 ≤ v)
          ⟨ARCH_900_IDX⟩ (blank_regs 0 0xFFFFF) (some "v ffe.4".toList)).map
          (fun out => (out.writes, out.msgs))
        = some ([], [Msg.HHC02329 0 0x11, Msg.key_line 0x1000,
            Msg.dump 'V' [⟨0x1000, 0x1000, 0⟩, ⟨0x1001, 0x1001, 0⟩]]) := by
  refine ⟨by decide, by decide⟩

/-! ### C15: a range whose start or end does not translate -/

/-- C15 (as amended): when `alter_display_virt` is asked to alter a range
that `parse_range` accepts, on a context with storage, and the translation
of the start address or of the end address raises an exception, the command
stores no byte and leaves storage as it was; it does not end there: it goes
on to its dump loop and issues the messages of the passes over the range,
dumping every page that translates. -/
theorem virt_boundary_exception_alters_nothing (h2g : Char → Nat)
    (logical_to_main_l : Translator) (sysblk : SYSBLK) (regs : REGS) (cmdline : List Char)
    (r : Range) (hlim : regs.mainlim ≠ 0) (hlen : 3 ≤ cmdline.length)
    (hparse : parse_range h2g (some (virt_operand cmdline).2) 0xFFFFFFFFFFFFFFFF true = some r)
    (hx : (virt_to_real logical_to_main_l r.saddr (virt_operand cmdline).1 regs
          AccType.ACCTYPE_HW).icode ≠ 0
      ∨ (virt_to_real logical_to_main_l r.eaddr (virt_operand cmdline).1 regs
          AccType.ACCTYPE_HW).icode ≠ 0) :
    ∃ steps, virt_dump_steps logical_to_main_l (virt_operand cmdline).1 sysblk regs r
          = some steps
      ∧ alter_display_virt h2g logical_to_main_l sysblk regs (some cmdline)
          = some ⟨regs, [], steps_msgs regs steps⟩ := by
  have hs := (parse_range_shape h2g _ _ _ r hparse).1
  have hva : virt_altered logical_to_main_l (virt_operand cmdline).1 regs r
      = ⟨regs, [], none⟩ := by
    unfold virt_altered
    rw [if_neg]
    intro hg
    rcases hx with h | h
    · exact h hg.2.1
    · exact h hg.2.2
  have hd := alter_display_virt_dump h2g logical_to_main_l sysblk regs cmdline r hlen hparse
    hlim (by rw [hva])
  rw [hva] at hd
  obtain ⟨steps, h0, -⟩ := dump_steps_spec
    (visit_virt logical_to_main_l (virt_operand cmdline).1 regs
      (if ARCH_900_IDX = sysblk.arch_mode then 64 else 32))
    (visit_virt_amt _ _ _ _).1 (visit_virt_amt _ _ _ _).2 r hs
  rw [← virt_dump_steps_eq _ _ _ _ _ hs] at h0
  refine ⟨steps, h0, ?_⟩
  rw [hd, h0]
  rfl

/-- Witness of `virt_boundary_exception_alters_nothing`: `v ffe=01020304`
where the addresses from `0x1000` on do not translate. -/
theorem virt_boundary_exception_alters_nothing_witness :
    ∃ steps, virt_dump_steps (example_translator fun v => v < 0x1000)
          (virt_operand "v ffe=01020304".toList).1 ⟨ARCH_900_IDX⟩ (blank_regs 0 0xFFFFF)
          ⟨4, 0xFFE, 0x1001, [1, 2, 3, 4]⟩ = some steps
      ∧ alter_display_virt (fun c => c.toNat) (example_translator fun v => v < 0x1000)
          ⟨ARCH_900_IDX⟩ (blank_regs 0 0xFFFFF) (some "v ffe=01020304".toList)
          = some ⟨blank_regs 0 0xFFFFF, [], steps_msgs (blank_regs 0 0xFFFFF) steps⟩ :=
  virt_boundary_exception_alters_nothing (fun c => c.toNat)
    (example_translator fun v => v < 0x1000) ⟨ARCH_900_IDX⟩ (blank_regs 0 0xFFFFF)
    "v ffe=01020304".toList ⟨4, 0xFFE, 0x1001, [1, 2, 3, 4]⟩ (by decide) (by decide)
    (by decide) (Or.inr (by decide))

/-- C15 (as stated) fails: for `v ffe=01020304`, where the start address
`0xFFE` translates and the end address `0x1001` raises a translation
exception, no byte is stored, yet the command dumps the bytes at `0xFFE` and
`0xFFF` before it reports the exception of the second page. -/
theorem virt_boundary_exception_dump_emitted :
    (virt_to_real (example_translator fun v => v < 0x1000) 0x1001 (Arn.ar 0)
        (blank_regs 0 0xFFFFF) AccType.ACCTYPE_HW).icode = 0x11
      ∧ (alter_display_virt (fun c => c.toNat) (example_translator fun v => v < 0x1000)
          ⟨ARCH_900_IDX⟩ (blank_regs 0 0xFFFFF) (some "v ffe=01020304".toList)).map
          (fun out => (out.writes, out.msgs))
        = some ([], [Msg.key_line 0,
            Msg.dump 'V' [⟨0xFFE, 0xFFE, 0⟩, ⟨0xFFF, 0xFFF, 0⟩],
            Msg.HHC02329 0x1000 0x11]) := by
  refine ⟨by decide, by decide⟩

/-! ### C18, C19, C20: working copies of the context -/

theorem copy_regs_eq (mem : RegsStore) (p : RegsPtr) (regs : REGS)
    (hregs : mem p = some regs) :
    copy_regs true mem p
      = if regs.sie_mode then
          (mem regs.host).map fun h =>
            ((mem.set RegsPtr.hostregs (copy_regs_hostregs h)).set RegsPtr.newregs
              (copy_regs_newregs regs), [], RegsPtr.newregs)
        else some (mem.set RegsPtr.newregs (copy_regs_newregs regs), [], RegsPtr.newregs) := by
  unfold copy_regs
  rw [hregs]
  simp only [Bool.true_eq_false, if_false]
  cases regs.sie_mode
  · rfl
  · simp only [if_true]
    cases mem regs.host <;> rfl

theorem copy_regs_newregs_fields (regs : REGS) :
    (∀ v ∈ (copy_regs_newregs regs).tlb_vaddr, v = 0)
      ∧ (copy_regs_newregs regs).tlb_vaddr.length = regs.tlb_vaddr.length
      ∧ (copy_regs_newregs regs).tlbID = 1 ∧ (copy_regs_newregs regs).ghostregs = 1
      ∧ (copy_regs_newregs regs).sie_active = 0
      ∧ (copy_regs_newregs regs).PX = regs.PX
      ∧ (copy_regs_newregs regs).mainlim = regs.mainlim
      ∧ (copy_regs_newregs regs).mainstor = regs.mainstor
      ∧ (copy_regs_newregs regs).sie_mode = regs.sie_mode
      ∧ (copy_regs_newregs regs).hostregs_mainlim = regs.hostregs_mainlim
      ∧ (copy_regs_newregs regs).host
          = (if regs.sie_mode then RegsPtr.hostregs else RegsPtr.newregs)
      ∧ (copy_regs_newregs regs).guest
          = (if regs.sie_mode then RegsPtr.newregs else RegsPtr.NULL) := by
  unfold copy_regs_newregs
  cases regs.sie_mode <;> simp

theorem copy_regs_hostregs_fields (h : REGS) :
    (∀ v ∈ (copy_regs_hostregs h).tlb_vaddr, v = 0)
      ∧ (copy_regs_hostregs h).tlb_vaddr.length = h.tlb_vaddr.length
      ∧ (copy_regs_hostregs h).tlbID = 1 ∧ (copy_regs_hostregs h).ghostregs = 1
      ∧ (copy_regs_hostregs h).PX = h.PX
      ∧ (copy_regs_hostregs h).mainlim = h.mainlim
      ∧ (copy_regs_hostregs h).mainstor = h.mainstor
      ∧ (copy_regs_hostregs h).host = RegsPtr.hostregs
      ∧ (copy_regs_hostregs h).guest = RegsPtr.newregs := by
  unfold copy_regs_hostregs
  simp

/-- C20: `copy_regs`, when its allocation succeeds, writes only the block it
allocated, so the context it is given and every other structure of the
running configuration stay as they were, and it returns the first structure
of the block: a copy of the context (prefix, storage limit, storage and SIE
mode kept) whose `tlb.vaddr` entries are all zero, with `tlbID = 1`,
`ghostregs = 1` and `sie_active = 0`.  Outside SIE mode its host link is the
copy itself and its guest link is NULL.  In SIE mode its host link is the
second structure of the block, a copy of the host context with zeroed
`tlb.vaddr`, `tlbID = 1`, `ghostregs = 1`, host link to itself and guest link
to the copy of the guest (the copy's own guest link refers to the copy
itself): no link of a copy refers to a structure outside the block. -/
theorem copy_regs_clone (mem : RegsStore) (n : Nat) (regs : REGS)
    (hregs : mem (RegsPtr.live n) = some regs)
    (hhost : regs.sie_mode = true → ∃ h, mem regs.host = some h) :
    ∃ mem1 clone, copy_regs true mem (RegsPtr.live n) = some (mem1, [], RegsPtr.newregs)
      ∧ (∀ m, mem1 (RegsPtr.live m) = mem (RegsPtr.live m))
      ∧ mem1 RegsPtr.NULL = mem RegsPtr.NULL
      ∧ mem1 RegsPtr.newregs = some clone
      ∧ (∀ v ∈ clone.tlb_vaddr, v = 0) ∧ clone.tlb_vaddr.length = regs.tlb_vaddr.length
      ∧ clone.tlbID = 1 ∧ clone.ghostregs = 1 ∧ clone.sie_active = 0
      ∧ clone.PX = regs.PX ∧ clone.mainlim = regs.mainlim ∧ clone.mainstor = regs.mainstor
      ∧ clone.sie_mode = regs.sie_mode
      ∧ (if regs.sie_mode then
          clone.host = RegsPtr.hostregs ∧ clone.guest = RegsPtr.newregs
            ∧ ∃ h hc, mem regs.host = some h ∧ mem1 RegsPtr.hostregs = some hc
              ∧ (∀ v ∈ hc.tlb_vaddr, v = 0) ∧ hc.tlb_vaddr.length = h.tlb_vaddr.length
              ∧ hc.tlbID = 1 ∧ hc.ghostregs = 1
              ∧ hc.PX = h.PX ∧ hc.mainlim = h.mainlim ∧ hc.mainstor = h.mainstor
              ∧ hc.host = RegsPtr.hostregs ∧ hc.guest = RegsPtr.newregs
        else clone.host = RegsPtr.newregs ∧ clone.guest = RegsPtr.NULL) := by
  obtain ⟨c1, c2, c3, c4, c5, c6, c7, c8, c9, -, c11, c12⟩ := copy_regs_newregs_fields regs
  rw [copy_regs_eq mem _ regs hregs]
  cases hm : regs.sie_mode
  · rw [hm] at c11 c12
    refine ⟨_, copy_regs_newregs regs, rfl, ?_, ?_, ?_, c1, c2, c3, c4, c5, c6, c7, c8,
      c9.trans hm, ?_⟩
    · intro m; simp [RegsStore.set]
    · simp [RegsStore.set]
    · simp [RegsStore.set]
    · simpa using ⟨c11, c12⟩
  · rw [hm] at c11 c12
    obtain ⟨h, hh⟩ := hhost hm
    obtain ⟨d1, d2, d3, d4, d5, d6, d7, d8, d9⟩ := copy_regs_hostregs_fields h
    simp only [if_true, hh, Option.map_some']
    refine ⟨_, copy_regs_newregs regs, rfl, ?_, ?_, ?_, c1, c2, c3, c4, c5, c6, c7, c8,
      c9.trans hm, ?_, ?_, h, copy_regs_hostregs h, rfl, ?_, d1, d2, d3, d4, d5, d6, d7, d8, d9⟩
    · intro m; simp [RegsStore.set]
    · simp [RegsStore.set]
    · simp [RegsStore.set]
    · simpa using c11
    · simpa using c12
    · simp [RegsStore.set]

/-- Witness of `copy_regs_clone`: a SIE guest at `live 0` whose host is at
`live 1`. -/
theorem copy_regs_clone_witness :
    ∃ mem1 clone,
      copy_regs true
          (example_mem { blank_regs 0x2000 0xFFFF with
              sie_mode := true, host := RegsPtr.live 1, tlb_vaddr := [5, 6] }
            { blank_regs 0 0xFFFFF with sie_active := 1, guest := RegsPtr.live 0 })
          (RegsPtr.live 0) = some (mem1, [], RegsPtr.newregs)
        ∧ mem1 RegsPtr.newregs = some clone
        ∧ clone.tlbID = 1 ∧ clone.ghostregs = 1 ∧ clone.host = RegsPtr.hostregs := by
  obtain ⟨mem1, clone, h1, -, -, h3, -, -, h5, h6, -, -, -, -, -, h7⟩ :=
    copy_regs_clone
      (example_mem { blank_regs 0x2000 0xFFFF with
          sie_mode := true, host := RegsPtr.live 1, tlb_vaddr := [5, 6] }
        { blank_regs 0 0xFFFFF with sie_active := 1, guest := RegsPtr.live 0 })
      0 { blank_regs 0x2000 0xFFFF with
          sie_mode := true, host := RegsPtr.live 1, tlb_vaddr := [5, 6] }
      rfl (fun _ => ⟨_, rfl⟩)
  exact ⟨mem1, clone, h1, h3, h5, h6, h7.1⟩

/-- C18: `virt_to_real`, given a copy by `copy_regs`, runs
`logical_to_main_l` once, on that copy, for `vaddr`, with access key 0 and
length 1, the access type it was given, and `USE_INST_SPACE` in place of
`arn` when the access type is `ACCTYPE_INSTFETCH`, the caller's `arn`
otherwise; it returns 0 when the routine returns and the program
interruption code when the routine leaves by a program interruption, and
hands back the real address and the indication that the routine left. -/
theorem virt_to_real_translates_once (logical_to_main_l : Dat) (mem : RegsStore) (n : Nat)
    (iregs : REGS) (vaddr : Nat) (arn : Arn) (acctype : AccType)
    (hregs : mem (RegsPtr.live n) = some iregs)
    (hhost : iregs.sie_mode = true → ∃ h, mem iregs.host = some h) :
    ∃ mem1 clone x,
      copy_regs true mem (RegsPtr.live n) = some (mem1, [], RegsPtr.newregs)
        ∧ mem1 RegsPtr.newregs = some clone
        ∧ virt_to_real_alloc true logical_to_main_l mem vaddr arn (RegsPtr.live n) acctype
            = some ([], x)
        ∧ virt_to_real logical_to_main_l.translator vaddr arn iregs acctype = x
        ∧ x.raddr = (logical_to_main_l clone vaddr
            (if acctype = AccType.ACCTYPE_INSTFETCH then Arn.USE_INST_SPACE else arn)
            acctype 0 1).raddr
        ∧ x.stid = (logical_to_main_l clone vaddr
            (if acctype = AccType.ACCTYPE_INSTFETCH then Arn.USE_INST_SPACE else arn)
            acctype 0 1).stid
        ∧ ((logical_to_main_l clone vaddr
            (if acctype = AccType.ACCTYPE_INSTFETCH then Arn.USE_INST_SPACE else arn)
            acctype 0 1).pgmint = none → x.icode = 0)
        ∧ (∀ code, code ≠ 0 → (logical_to_main_l clone vaddr
            (if acctype = AccType.ACCTYPE_INSTFETCH then Arn.USE_INST_SPACE else arn)
            acctype 0 1).pgmint = some code → x.icode = code) := by
  have hc : ∃ mem1, copy_regs true mem (RegsPtr.live n) = some (mem1, [], RegsPtr.newregs)
      ∧ mem1 RegsPtr.newregs = some (copy_regs_newregs iregs) := by
    rw [copy_regs_eq mem _ iregs hregs]
    cases hm : iregs.sie_mode
    · exact ⟨_, rfl, by simp [RegsStore.set]⟩
    · obtain ⟨h, hh⟩ := hhost hm
      simp only [if_true, hh, Option.map_some']
      exact ⟨_, rfl, by simp [RegsStore.set]⟩
  obtain ⟨mem1, h1, h2⟩ := hc
  refine ⟨mem1, copy_regs_newregs iregs, _, h1, h2, ?_, rfl, rfl, rfl, ?_, ?_⟩
  · unfold virt_to_real_alloc
    rw [h1]
    simp only [h2]
    rfl
  · intro hn
    simp only [virt_to_real, Dat.translator, hn]
    rfl
  · intro code hcode hp
    simp only [virt_to_real, Dat.translator, hp, setjmp, if_neg hcode]

/-- Witness of `virt_to_real_translates_once`: an instruction fetch at
`0x1000` by the only context of a configuration. -/
theorem virt_to_real_translates_once_witness :
    ∃ x, virt_to_real_alloc true (example_dat fun v => v < 0x1000)
          (example_mem (blank_regs 0 0xFFFF) (blank_regs 0 0xFFFF)) 0x1000 (Arn.ar 3)
          (RegsPtr.live 0) AccType.ACCTYPE_INSTFETCH = some ([], x)
      ∧ virt_to_real (example_dat fun v => v < 0x1000).translator 0x1000 (Arn.ar 3)
          (blank_regs 0 0xFFFF) AccType.ACCTYPE_INSTFETCH = x := by
  obtain ⟨_, _, x, -, -, h3, h4, -⟩ := virt_to_real_translates_once
    (example_dat fun v => v < 0x1000) (example_mem (blank_regs 0 0xFFFF) (blank_regs 0 0xFFFF))
    0 (blank_regs 0 0xFFFF) 0x1000 (Arn.ar 3) AccType.ACCTYPE_INSTFETCH rfl
    (fun h => absurd h (by decide))
  exact ⟨x, h3, h4⟩

theorem copy_regs_fails (mem : RegsStore) (p : RegsPtr) (regs : REGS)
    (hregs : mem p = some regs) :
    copy_regs false mem p = some (mem, [Msg.HHC00075], RegsPtr.NULL) := by
  unfold copy_regs
  rw [hregs]
  rfl

theorem virt_to_real_alloc_fails (logical_to_main_l : Dat) (mem : RegsStore) (p : RegsPtr)
    (regs : REGS) (vaddr : Nat) (arn : Arn) (acctype : AccType)
    (hregs : mem p = some regs) (hnull : mem RegsPtr.NULL = none) :
    virt_to_real_alloc false logical_to_main_l mem vaddr arn p acctype = none := by
  unfold virt_to_real_alloc
  rw [copy_regs_fails mem p regs hregs]
  simp only [hnull]

theorem alter_display_virt_cmd_abandons (h2g : Char → Nat) (logical_to_main_l : Translator)
    (sysblk : SYSBLK) (mem : RegsStore) (p : RegsPtr) (regs : REGS)
    (cmdline : Option (List Char)) (hregs : mem p = some regs) (hg : regs.ghostregs = 0) :
    alter_display_virt_cmd false h2g logical_to_main_l sysblk mem p cmdline
      = some ⟨regs, [], [Msg.HHC00075]⟩ := by
  unfold alter_display_virt_cmd
  rw [hregs]
  simp only [hg, ne_eq, not_true_eq_false, if_false, copy_regs_fails mem p regs hregs, if_true]

/-- C19 fails for `virt_to_real`: when the allocation in `copy_regs` fails,
`copy_regs` issues HHC00075 and returns NULL; the `alter_display_virt`
command function then returns at once, with the context and storage
unchanged, but `virt_to_real` has no such test and goes on to evaluate
`regs->progjmp` through the NULL pointer. -/
theorem virt_to_real_uses_null_clone :
    copy_regs false (example_mem (blank_regs 0 0xFFFF) (blank_regs 0 0xFFFF)) (RegsPtr.live 0)
        = some (example_mem (blank_regs 0 0xFFFF) (blank_regs 0 0xFFFF), [Msg.HHC00075],
            RegsPtr.NULL)
      ∧ example_mem (blank_regs 0 0xFFFF) (blank_regs 0 0xFFFF) RegsPtr.NULL = none
      ∧ virt_to_real_alloc false (example_dat fun _ => true)
          (example_mem (blank_regs 0 0xFFFF) (blank_regs 0 0xFFFF)) 0 (Arn.ar 0)
          (RegsPtr.live 0) AccType.ACCTYPE_HW = none
      ∧ alter_display_virt_cmd false (fun c => c.toNat) (example_translator fun _ => true)
          ⟨ARCH_900_IDX⟩ (example_mem (blank_regs 0 0xFFFF) (blank_regs 0 0xFFFF))
          (RegsPtr.live 0) (some "v 0".toList)
        = some ⟨blank_regs 0 0xFFFF, [], [Msg.HHC00075]⟩ :=
  ⟨rfl, rfl, rfl, rfl⟩

/-! ### C21: a display leaves storage as it was -/

theorem real_or_abs_display_only (h2g : Char → Nat) (sysblk : SYSBLK) (regs : REGS)
    (argv0 cmdline : List Char) (cmd : Char) (opnd : List Char) (r : Range)
    (hlen : 3 ≤ cmdline.length) (hop : real_or_abs_operand argv0 cmdline = some (cmd, opnd))
    (hparse : parse_range h2g (some opnd) 0xFFFFFFFFFFFFFFFF true = some r) (hn : r.n = 0) :
    ∃ msgs, alter_display_real_or_abs h2g sysblk regs argv0 (some cmdline)
      = some ⟨regs, [], msgs⟩ := by
  have hsh := parse_range_shape h2g _ _ _ r hparse
  have hnv : r.newval = [] := List.length_eq_zero.mp (by rw [hsh.2.1, hn])
  by_cases hlim : regs.mainlim = 0
  · unfold alter_display_real_or_abs
    simp only [not_lt.mpr hlen, if_false, hop, hparse, hlim, if_true]
    exact ⟨_, rfl⟩
  · have hd := alter_display_real_or_abs_dump h2g sysblk regs argv0 cmdline cmd opnd r hlen hop
      hparse hlim (by rw [hnv]; rfl)
    rw [hnv] at hd
    rw [hd, real_or_abs_dump_steps_eq _ _ _ _ hsh.1]
    obtain ⟨steps, h0, -⟩ := dump_steps_spec
      (visit_real_or_abs cmd (alter_real_or_abs_loop cmd r.saddr [] 0 regs).regs
        (if ARCH_900_IDX = sysblk.arch_mode then 64 else 32))
      (visit_real_or_abs_amt cmd _ _).1 (visit_real_or_abs_amt cmd _ _).2 r hsh.1
    rw [h0]
    exact ⟨_, rfl⟩

theorem virt_display_only (h2g : Char → Nat) (logical_to_main_l : Translator)
    (sysblk : SYSBLK) (regs : REGS) (cmdline : List Char) (r : Range)
    (hlen : 3 ≤ cmdline.length)
    (hparse : parse_range h2g (some (virt_operand cmdline).2) 0xFFFFFFFFFFFFFFFF true = some r)
    (hn : r.n = 0) :
    ∃ msgs, alter_display_virt h2g logical_to_main_l sysblk regs (some cmdline)
      = some ⟨regs, [], msgs⟩ := by
  have hsh := parse_range_shape h2g _ _ _ r hparse
  by_cases hlim : regs.mainlim = 0
  · unfold alter_display_virt
    simp only [not_lt.mpr hlen, if_false, hparse, hlim, if_true]
    exact ⟨_, rfl⟩
  · have hva : virt_altered logical_to_main_l (virt_operand cmdline).1 regs r
        = ⟨regs, [], none⟩ := by
      unfold virt_altered
      rw [if_neg]
      intro hg
      omega
    have hd := alter_display_virt_dump h2g logical_to_main_l sysblk regs cmdline r hlen hparse
      hlim (by rw [hva])
    rw [hva] at hd
    rw [hd, virt_dump_steps_eq _ _ _ _ _ hsh.1]
    obtain ⟨steps, h0, -⟩ := dump_steps_spec
      (visit_virt logical_to_main_l (virt_operand cmdline).1 regs
        (if ARCH_900_IDX = sysblk.arch_mode then 64 else 32))
      (visit_virt_amt _ _ _ _).1 (visit_virt_amt _ _ _ _).2 r hsh.1
    rw [h0]
    exact ⟨_, rfl⟩

/-- C21: a display-only invocation (`parse_range` returns 0) of
`alter_display_real_or_abs` or of `alter_display_virt` comes to an end,
stores no byte and leaves the context, main storage included, exactly as it
was; the same command run once more on the context it left gives the same
messages, so the same data bytes. -/
theorem display_leaves_storage_unchanged (h2g : Char → Nat) (logical_to_main_l : Translator)
    (sysblk : SYSBLK) (regs : REGS) (argv0 cmdline : List Char) (cmd : Char)
    (opnd : List Char) (r : Range) (vcmdline : List Char) (vr : Range)
    (hlen : 3 ≤ cmdline.length) (hop : real_or_abs_operand argv0 cmdline = some (cmd, opnd))
    (hparse : parse_range h2g (some opnd) 0xFFFFFFFFFFFFFFFF true = some r) (hn : r.n = 0)
    (hvlen : 3 ≤ vcmdline.length)
    (hvparse : parse_range h2g (some (virt_operand vcmdline).2) 0xFFFFFFFFFFFFFFFF true
      = some vr)
    (hvn : vr.n = 0) :
    (∃ out, alter_display_real_or_abs h2g sysblk regs argv0 (some cmdline) = some out
        ∧ out.writes = [] ∧ out.regs = regs
        ∧ (∀ a, out.regs.mainstor a = regs.mainstor a)
        ∧ alter_display_real_or_abs h2g sysblk out.regs argv0 (some cmdline) = some out)
      ∧ (∃ out, alter_display_virt h2g logical_to_main_l sysblk regs (some vcmdline) = some out
        ∧ out.writes = [] ∧ out.regs = regs
        ∧ (∀ a, out.regs.mainstor a = regs.mainstor a)
        ∧ alter_display_virt h2g logical_to_main_l sysblk out.regs (some vcmdline)
            = some out) := by
  obtain ⟨m1, h1⟩ := real_or_abs_display_only h2g sysblk regs argv0 cmdline cmd opnd r hlen hop
    hparse hn
  obtain ⟨m2, h2⟩ := virt_display_only h2g logical_to_main_l sysblk regs vcmdline vr hvlen
    hvparse hvn
  exact ⟨⟨_, h1, rfl, rfl, fun _ => rfl, h1⟩, ⟨_, h2, rfl, rfl, fun _ => rfl, h2⟩⟩

/-- Witness of `display_leaves_storage_unchanged`: `r 1000.20` and
`v 1000.20`. -/
theorem display_leaves_storage_unchanged_witness :
    (∃ out, alter_display_real_or_abs (fun c => c.toNat) ⟨ARCH_900_IDX⟩
        (blank_regs 0 0xFFFFF) ['r'] (some "r 1000.20".toList) = some out
        ∧ out.writes = [] ∧ out.regs = blank_regs 0 0xFFFFF)
      ∧ (∃ out, alter_display_virt (fun c => c.toNat) (example_translator fun _ => true)
        ⟨ARCH_900_IDX⟩ (blank_regs 0 0xFFFFF) (some "v 1000.20".toList) = some out
        ∧ out.writes = [] ∧ out.regs = blank_regs 0 0xFFFFF) := by
  have h := display_leaves_storage_unchanged (fun c => c.toNat)
    (example_translator fun _ => true) ⟨ARCH_900_IDX⟩ (blank_regs 0 0xFFFFF) ['r']
    "r 1000.20".toList 'R' "1000.20".toList ⟨0, 0x1000, 0x101F, []⟩ "v 1000.20".toList
    ⟨0, 0x1000, 0x101F, []⟩ (by decide) (by decide) (by decide) rfl (by decide) (by decide) rfl
  obtain ⟨⟨o1, a1, b1, c1, -⟩, ⟨o2, a2, b2, c2, -⟩⟩ := h
  exact ⟨⟨o1, a1, b1, c1⟩, ⟨o2, a2, b2, c2⟩⟩

/-! ### C26, C29: the normalisation of the command line -/

theorem strchr_some (c : Char) : ∀ (s t : List Char), strchr s c = some t →
    ∃ pre rest, s = pre ++ c :: rest ∧ t = c :: rest ∧ c ∉ pre := by
  intro s
  induction s with
  | nil => intro t h; simp [strchr] at h
  | cons x s ih =>
    intro t h
    simp only [strchr] at h
    split_ifs at h with hx
    · simp only [Option.some.injEq] at h
      exact ⟨[], s, by simp [hx], by rw [← h, hx], by simp⟩
    · obtain ⟨pre, rest, h1, h2, h3⟩ := ih t h
      refine ⟨x :: pre, rest, by simp [h1], h2, ?_⟩
      simp only [List.mem_cons, not_or]
      exact ⟨fun h => hx h.symm, h3⟩

theorem normalize_real_or_abs_unquoted (opidx : Nat) (cmdline : List Char)
    (hnq : ∀ e q rest, strchr cmdline '=' = some (e :: q :: rest) → q ≠ '"')
    (hlen : opidx ≤ cmdline.length) :
    normalize_real_or_abs opidx cmdline
      = some ((string_to_upper cmdline).take opidx
          ++ squeeze false ((string_to_upper cmdline).drop opidx)) := by
  have hup : ¬ (string_to_upper cmdline).length < opidx := by
    simp only [string_to_upper, List.length_map]
    omega
  unfold normalize_real_or_abs
  simp only [if_neg hup]
  cases hs : strchr cmdline '=' with
  | none => rfl
  | some t =>
    cases t with
    | nil => rfl
    | cons e t =>
      cases t with
      | nil => rfl
      | cons q rest =>
        simp only [if_neg (hnq e q rest hs)]

theorem real_or_abs_operand_unquoted (argv0 cmdline : List Char)
    (hnq : ∀ e q rest, strchr cmdline '=' = some (e :: q :: rest) → q ≠ '"')
    (hlen : (if str_caseless_eq argv0 ['a', 'b', 's'] then 4 else 2) ≤ cmdline.length) :
    real_or_abs_operand argv0 cmdline
      = some ((string_to_upper cmdline).headD (Char.ofNat 0),
          squeeze false ((string_to_upper cmdline).drop
            (if str_caseless_eq argv0 ['a', 'b', 's'] then 4 else 2))) := by
  have hul : (string_to_upper cmdline).length = cmdline.length := by
    simp [string_to_upper]
  have h2 : 2 ≤ (if str_caseless_eq argv0 ['a', 'b', 's'] then 4 else 2) := by
    split_ifs <;> omega
  unfold real_or_abs_operand
  simp only [normalize_real_or_abs_unquoted _ cmdline hnq hlen]
  generalize (if str_caseless_eq argv0 ['a', 'b', 's'] then 4 else 2) = opidx at *
  have htl : ((string_to_upper cmdline).take opidx).length = opidx := by
    rw [List.length_take, hul]; omega
  rw [if_neg (by rw [List.length_append, htl]; omega)]
  have hd : ((string_to_upper cmdline).take opidx
      ++ squeeze false ((string_to_upper cmdline).drop opidx)).drop opidx
      = squeeze false ((string_to_upper cmdline).drop opidx) := List.drop_left' htl
  rw [hd]
  cases hc : string_to_upper cmdline with
  | nil => rw [hc] at hul; simp at hul; omega
  | cons x rest =>
    cases opidx with
    | zero => omega
    | succ k => rfl

theorem real_or_abs_operand_in_bounds (argv0 cmdline : List Char)
    (hlen : (if str_caseless_eq argv0 ['a', 'b', 's'] then 4 else 2) ≤ cmdline.length)
    (heq : ∀ c ∈ cmdline.take
      ((if str_caseless_eq argv0 ['a', 'b', 's'] then 4 else 2) - 2), c ≠ '=') :
    ∃ r, real_or_abs_operand argv0 cmdline = some r := by
  by_cases hq : ∀ e q rest, strchr cmdline '=' = some (e :: q :: rest) → q ≠ '"'
  · exact ⟨_, real_or_abs_operand_unquoted argv0 cmdline hq hlen⟩
  · push_neg at hq
    obtain ⟨e, q, rest, hs, hq⟩ := hq
    obtain ⟨pre, rest1, h1, h2, h3⟩ := strchr_some '=' cmdline _ hs
    simp only [List.cons.injEq] at h2
    obtain ⟨he, hr⟩ := h2
    have hpl : (if str_caseless_eq argv0 ['a', 'b', 's'] then 4 else 2) - 2 ≤ pre.length := by
      by_contra hcon
      push_neg at hcon
      apply heq '=' _ rfl
      rw [h1, List.mem_take_iff_getElem]
      refine ⟨pre.length, ?_, ?_⟩
      · simp only [List.length_append, List.length_cons]
        omega
      · rw [List.getElem_append_right (le_refl _)]
        simp
    unfold real_or_abs_operand
    unfold normalize_real_or_abs
    simp only [hs, hq, if_true]
    rw [if_neg]
    · exact ⟨_, rfl⟩
    · have : cmdline.length - (rest.length + 2) = pre.length := by
        rw [h1, ← hr]
        simp only [List.length_append, List.length_cons]
        omega
      simp only [List.length_append, List.length_take, List.length_cons, this]
      rw [h1]
      simp only [List.length_append, List.length_cons]
      omega

/-- C29 fails on the code: for the command `abs` alone (command line of
length 3) the operand index is 4, the blank removal loop starts reading at
`cmdline[4]`, past the terminating NUL at index 3, and the operand pointer
`&cmdline[4]` lies outside the string; with one more character the line is
read within its bounds. -/
theorem abs_alone_read_past_end :
    3 ≤ "abs".toList.length
      ∧ (if str_caseless_eq "abs".toList ['a', 'b', 's'] then 4 else 2) = 4
      ∧ normalize_real_or_abs 4 "abs".toList = none
      ∧ real_or_abs_operand "abs".toList "abs".toList = none
      ∧ (alter_display_real_or_abs (fun c => c.toNat) ⟨ARCH_900_IDX⟩ (blank_regs 0 0xFFFFF)
          "abs".toList (some "abs".toList)).isNone = true
      ∧ real_or_abs_operand "abs".toList "abs ".toList = some ('A', []) := by
  refine ⟨by decide, by decide, by decide, by decide, by decide, by decide⟩

/-! ### C27, C28: the instruction loop of `disasm_stor` -/

theorem ILC_cases (opcode : Nat) : ILC opcode = 2 ∨ ILC opcode = 4 ∨ ILC opcode = 6 := by
  unfold ILC
  split_ifs <;> simp

theorem disasm_loop_terminates (logical_to_main_l : Translator) (regs : REGS) (type : Char)
    (eaddr : Nat) (he : eaddr + 6 < U64_MOD) :
    ∀ (fuel saddr : Nat) (stid : Int), (eaddr + 2 - saddr) / 2 ≤ fuel →
      ∃ msgs, disasm_loop logical_to_main_l regs type eaddr fuel saddr stid = some msgs := by
  intro fuel
  induction fuel with
  | zero =>
    intro saddr stid h
    rw [disasm_loop, if_pos (by omega)]
    exact ⟨_, rfl⟩
  | succ fuel ih =>
    intro saddr stid h
    rw [disasm_loop]
    by_cases hs : eaddr < saddr
    · rw [if_pos hs]; exact ⟨_, rfl⟩
    · rw [if_neg hs]
      simp only []
      generalize virt_to_real logical_to_main_l saddr (Arn.ar 0) regs AccType.ACCTYPE_HW = x
      generalize (if type = 'R' then saddr else x.raddr) = raddr
      generalize (if type = 'R' then stid else x.stid) = stid1
      generalize APPLY_PREFIXING raddr regs.PX = aaddr
      generalize regs.mainstor aaddr = opcode
      by_cases h1 : type ≠ 'R' ∧ x.icode % 65536 ≠ 0
      · rw [if_pos h1]; exact ⟨_, rfl⟩
      · rw [if_neg h1]
        by_cases h2 : regs.mainlim < aaddr
        · rw [if_pos h2]; exact ⟨_, rfl⟩
        · rw [if_neg h2]
          by_cases h3 : regs.mainlim < add64 aaddr (ILC opcode)
          · rw [if_pos h3]; exact ⟨_, rfl⟩
          · rw [if_neg h3]
            have hi := ILC_cases opcode
            have hadd : add64 saddr (ILC opcode) = saddr + ILC opcode := by
              unfold add64 U64_MOD at *
              omega
            rw [hadd]
            obtain ⟨more, hm⟩ := ih (saddr + ILC opcode) stid1 (by omega)
            rw [hm]
            exact ⟨_, rfl⟩

theorem disasm_stor_terminates (h2g : Char → Nat) (logical_to_main_l : Translator)
    (regs : REGS) (arg : List Char) (r : Range) (fuel : Nat)
    (hparse : parse_range h2g (some (disasm_operand regs arg).2) 0xFFFFFFFFFFFFFFFF false
      = some r)
    (he : r.eaddr + 6 < U64_MOD) (hse : r.saddr ≤ r.eaddr) (hf : 32768 ≤ fuel) :
    ∃ msgs, disasm_stor h2g logical_to_main_l regs [arg] fuel = some msgs := by
  have hl : LIMIT_RANGE r.saddr r.eaddr _64_KILOBYTE ≤ r.eaddr
      ∧ LIMIT_RANGE r.saddr r.eaddr _64_KILOBYTE ≤ r.saddr + 65535 := by
    unfold LIMIT_RANGE _64_KILOBYTE
    have h1 : sub64 r.eaddr r.saddr = r.eaddr - r.saddr := sub64_of_le _ _ (by omega) hse
    rw [h1]
    unfold add64 U64_MOD at *
    split_ifs <;> omega
  unfold disasm_stor
  simp only [List.length_singleton, ne_eq, not_true_eq_false, if_false, List.headD_cons, hparse]
  by_cases hlim : regs.mainlim = 0
  · rw [if_pos hlim]; exact ⟨_, rfl⟩
  · rw [if_neg hlim]
    apply disasm_loop_terminates
    · omega
    · omega

theorem one_frame_loop_never_ends (regs : REGS) (hpx : regs.PX = 0)
    (hlim : 0x1005 ≤ regs.mainlim)
    (hst : ∀ a, regs.mainstor a = 0) :
    ∀ (fuel saddr : Nat) (stid : Int), saddr < U64_MOD →
      disasm_loop example_one_frame_translator regs 'V' 0xFFFFFFFFFFFFFFFF fuel saddr stid
        = none := by
  intro fuel
  induction fuel with
  | zero =>
    intro saddr stid hs
    rw [disasm_loop, if_neg (by unfold U64_MOD at hs; omega)]
  | succ fuel ih =>
    intro saddr stid hs
    have hx : virt_to_real example_one_frame_translator saddr (Arn.ar 0) regs
        AccType.ACCTYPE_HW = ⟨0, saddr % 4096, 0⟩ := rfl
    have hap : APPLY_PREFIXING (saddr % 4096) regs.PX = saddr % 4096 := by
      unfold APPLY_PREFIXING
      rw [hpx]
      split_ifs <;> simp
    rw [disasm_loop, if_neg (by unfold U64_MOD at hs; omega)]
    have h2 : ¬ regs.mainlim < saddr % 4096 := by omega
    have h3 : ¬ regs.mainlim < add64 (saddr % 4096) 2 := by
      unfold add64 U64_MOD
      omega
    have hv : ¬ ('V' : Char) = 'R' := by decide
    have hilc : ILC 0 = 2 := rfl
    have h1 : ¬ (('V' : Char) ≠ 'R' ∧ 0 % 65536 ≠ 0) := by simp
    simp only [hx, hst, if_neg hv, hilc]
    rw [if_neg h1, hap, if_neg h2, if_neg h3, ih _ _ (add64_lt _ _)]
    rfl

/-- C27 fails on the code: for the operand `VFFFFFFFFFFFFFFF0.10`, a range
that ends at the maximum 64-bit address, on a context whose every virtual
page translates (to the frame at 0, which holds 2-byte instructions), the
test `saddr <= eaddr` never fails: `saddr += ilc` wraps around to 0 and the
loop goes on, whatever bound is put on the number of its passes. -/
theorem disasm_loop_wraps_around :
    parse_range (fun c => c.toNat)
        (some (disasm_operand (blank_regs 0 0xFFFFF) "VFFFFFFFFFFFFFFF0.10".toList).2)
        0xFFFFFFFFFFFFFFFF false
        = some ⟨0, 0xFFFFFFFFFFFFFFF0, 0xFFFFFFFFFFFFFFFF, []⟩
      ∧ ∀ fuel, disasm_stor (fun c => c.toNat) example_one_frame_translator
          (blank_regs 0 0xFFFFF) ["VFFFFFFFFFFFFFFF0.10".toList] fuel = none := by
  have hp : parse_range (fun c => c.toNat)
      (some (disasm_operand (blank_regs 0 0xFFFFF) "VFFFFFFFFFFFFFFF0.10".toList).2)
      0xFFFFFFFFFFFFFFFF false
      = some ⟨0, 0xFFFFFFFFFFFFFFF0, 0xFFFFFFFFFFFFFFFF, []⟩ := by decide
  refine ⟨hp, ?_⟩
  intro fuel
  have hty : (disasm_operand (blank_regs 0 0xFFFFF) "VFFFFFFFFFFFFFFF0.10".toList).1 = 'V' := by
    decide
  have hlr : LIMIT_RANGE 0xFFFFFFFFFFFFFFF0 0xFFFFFFFFFFFFFFFF _64_KILOBYTE
      = 0xFFFFFFFFFFFFFFFF := by decide
  unfold disasm_stor
  simp only [List.length_singleton, ne_eq, not_true_eq_false, if_false, List.headD_cons, hp,
    hty, hlr]
  rw [if_neg (by decide)]
  exact one_frame_loop_never_ends (blank_regs 0 0xFFFFF) rfl (by decide)
    (fun _ => rfl) fuel _ _ (by decide)

/-- C28 fails on the code: with storage ending at `mainlim = 0xFFFFF`, the
2-byte instruction at absolute address `0xFFFFE` has its last byte at
`0xFFFFF`, not beyond `mainlim`, yet `disasm_stor` reports an addressing
exception for it (`aaddr + ilc > mainlim`); the 2-byte instruction at
`0xFFFFC` is disassembled. -/
theorem disasm_last_instruction_refused :
    (blank_regs 0 0xFFFFF).mainlim = 0xFFFFF
      ∧ ILC ((blank_regs 0 0xFFFFF).mainstor 0xFFFFE) = 2
      ∧ 0xFFFFE + 2 - 1 ≤ (blank_regs 0 0xFFFFF).mainlim
      ∧ disasm_stor (fun c => c.toNat) (example_translator fun _ => true)
          (blank_regs 0 0xFFFFF) ["RFFFFE".toList] 32768
        = some [Msg.HHC02289_addressing 0xFFFFE]
      ∧ disasm_stor (fun c => c.toNat) (example_translator fun _ => true)
          (blank_regs 0 0xFFFFF) ["RFFFFC".toList] 32768
        = some [Msg.HHC02289_inst (-1) 0xFFFFC [0, 0], Msg.HHC02289_addressing 0xFFFFE] := by
  refine ⟨rfl, rfl, by decide, by decide, by decide⟩

/-! ### C22 to C25, C30: the operand addresses of `display_inst_adj` -/

theorem disp12 (a b : Nat) (hb : b < 256) : ((a &&& 0x0F) <<< 8) ||| b = a % 16 * 256 + b := by
  have h := Nat.mul_add_lt_is_or (show b < 2 ^ 8 by simpa using hb) (a % 16)
  rw [and_low16, Nat.shiftLeft_eq, Nat.mul_comm (a % 16) (2 ^ 8), ← h]

theorem and_amask (x w : Nat) : x &&& (2 ^ w - 1) = x % 2 ^ w :=
  Nat.and_pow_two_sub_one_eq_mod x w

theorem wrap64 (x w : Nat) (hw : w ≤ 64) : x % U64_MOD % 2 ^ w = x % 2 ^ w := by
  have : U64_MOD = 2 ^ 64 := by decide
  rw [this]
  exact Nat.mod_mod_of_dvd x (pow_dvd_pow 2 hw)

theorem display_inst_adj_regs_fields (iregs : REGS) (inst : List Nat) (pgmint : Bool) :
    (display_inst_adj_regs iregs inst pgmint).GR = iregs.GR
      ∧ (display_inst_adj_regs iregs inst pgmint).VR_D = iregs.VR_D
      ∧ (display_inst_adj_regs iregs inst pgmint).VR_F = iregs.VR_F
      ∧ (display_inst_adj_regs iregs inst pgmint).psw_AMASK = iregs.psw_AMASK
      ∧ (display_inst_adj_regs iregs inst pgmint).ip
          = (if pgmint then sub64 iregs.ip (ILC (inst.getD 0 0)) else iregs.ip) := by
  unfold display_inst_adj_regs
  cases pgmint <;> by_cases hg : iregs.ghostregs = 0 <;>
    simp [hg, copy_regs_newregs] <;> split_ifs <;> simp

theorem display_inst_adj_eq (E : REGS → Nat) (trace2file : Bool) (iregs : REGS)
    (inst : List Nat) (pgmint : Bool) (hlim : iregs.mainlim ≠ 0) :
    display_inst_adj E trace2file iregs (some inst) pgmint
      = some ⟨display_inst_adj_operands E (display_inst_adj_regs iregs inst pgmint) inst,
          display_inst_adj_lines trace2file
            (display_inst_adj_operands E (display_inst_adj_regs iregs inst pgmint) inst)⟩ := by
  unfold display_inst_adj
  rw [if_neg hlim]

theorem ILC_eq (opcode : Nat) :
    (opcode < 0x40 → ILC opcode = 2) ∧ (0x40 ≤ opcode → opcode < 0xC0 → ILC opcode = 4)
      ∧ (0xC0 ≤ opcode → ILC opcode = 6) := by
  unfold ILC
  refine ⟨fun h => by rw [if_pos h], fun h1 h2 => by rw [if_neg (by omega), if_pos h2],
    fun h => by rw [if_neg (by omega), if_neg (by omega)]⟩

theorem display_inst_adj_operands_rx (E : REGS → Nat) (regs : REGS) (inst : List Nat)
    (h40 : 0x40 ≤ inst.getD 0 0) (h7F : inst.getD 0 0 ≤ 0x7F) :
    display_inst_adj_operands E regs inst
      = { b1 := ((inst.getD 2 0 >>> 4 : Nat) : Int), b2 := -1,
          addr1 :=
            if inst.getD 1 0 &&& 0x0F ≠ 0 then
              add64 (if inst.getD 2 0 >>> 4 ≠ 0 then
                  add64 (((inst.getD 2 0 &&& 0x0F) <<< 8) ||| inst.getD 3 0)
                    (regs.GR (inst.getD 2 0 >>> 4)) &&& ADDRESS_MAXWRAP regs
                else ((inst.getD 2 0 &&& 0x0F) <<< 8) ||| inst.getD 3 0)
                (regs.GR (inst.getD 1 0 &&& 0x0F)) &&& ADDRESS_MAXWRAP regs
            else if inst.getD 2 0 >>> 4 ≠ 0 then
              add64 (((inst.getD 2 0 &&& 0x0F) <<< 8) ||| inst.getD 3 0)
                (regs.GR (inst.getD 2 0 >>> 4)) &&& ADDRESS_MAXWRAP regs
            else ((inst.getD 2 0 &&& 0x0F) <<< 8) ||| inst.getD 3 0,
          addr2 := 0 } := by
  have hi := (ILC_eq (inst.getD 0 0)).2.1 h40 (by omega)
  have hvrv : ∀ o, display_inst_adj_vrv regs inst o = o := by
    intro o
    unfold display_inst_adj_vrv
    simp only []
    rw [if_neg]
    omega
  have hidx : ∀ o, display_inst_adj_index regs inst o
      = { o with addr1 := if inst.getD 1 0 &&& 0x0F ≠ 0 then
            add64 o.addr1 (regs.GR (inst.getD 1 0 &&& 0x0F)) &&& ADDRESS_MAXWRAP regs
          else o.addr1 } := by
    intro o
    unfold display_inst_adj_index
    simp only []
    rw [if_pos]
    omega
  have hbase : ∀ o, display_inst_adj_base regs inst o
      = { b1 := ((inst.getD 2 0 >>> 4 : Nat) : Int), b2 := o.b2,
          addr1 := if inst.getD 2 0 >>> 4 ≠ 0 then
            add64 (((inst.getD 2 0 &&& 0x0F) <<< 8) ||| inst.getD 3 0)
              (regs.GR (inst.getD 2 0 >>> 4)) &&& ADDRESS_MAXWRAP regs
          else ((inst.getD 2 0 &&& 0x0F) <<< 8) ||| inst.getD 3 0,
          addr2 := o.addr2 } := by
    intro o
    unfold display_inst_adj_base
    simp only []
    rw [if_pos]
    omega
  have h1 : ∀ o, display_inst_adj_op1 regs inst o
      = display_inst_adj_vrv regs inst
          (display_inst_adj_index regs inst (display_inst_adj_base regs inst o)) := by
    intro o
    unfold display_inst_adj_op1
    simp only []
    rw [if_pos]
    omega
  have h2 : ∀ o, display_inst_adj_op2 regs inst o = o := by
    intro o
    unfold display_inst_adj_op2
    simp only []
    rw [if_neg]
    omega
  have h3 : ∀ o, display_inst_adj_mvcl regs inst o = o := by
    intro o
    unfold display_inst_adj_mvcl
    simp only []
    rw [if_neg]
    omega
  have h4 : ∀ o, display_inst_adj_rre E regs inst o = o := by
    intro o
    unfold display_inst_adj_rre
    simp only []
    rw [if_neg]
    omega
  have h5 : ∀ o, display_inst_adj_ril regs inst o = o := by
    intro o
    unfold display_inst_adj_ril
    simp only []
    rw [if_neg]
    omega
  unfold display_inst_adj_operands
  simp only [h1, h2, h3, h4, h5, hvrv, hidx, hbase]


theorem disp12_lt (a b : Nat) (hb : b < 256) : a % 16 * 256 + b < 4096 := by
  have := Nat.mod_lt a (show 0 < 16 by decide)
  omega

theorem regs_maxwrap (iregs : REGS) (inst : List Nat) (pgmint : Bool) :
    ADDRESS_MAXWRAP (display_inst_adj_regs iregs inst pgmint) = ADDRESS_MAXWRAP iregs := by
  unfold ADDRESS_MAXWRAP
  exact (display_inst_adj_regs_fields iregs inst pgmint).2.2.2.1

theorem add64_wrap (a b w : Nat) (hw : w ≤ 64) :
    add64 a b &&& (2 ^ w - 1) = (a + b) % 2 ^ w := by
  unfold add64
  rw [and_amask, wrap64 _ _ hw]

theorem bytes_getD (l : List Nat) (h : ∀ x ∈ l, x < 256) (k : Nat) : l.getD k 0 < 256 := by
  rw [List.getD_eq_getElem?_getD]
  cases hk : l[k]? with
  | none => simp
  | some x => exact h x (List.getElem?_mem hk)

/-- C22: for an RX-format instruction (opcode 0x40 to 0x7F) and any register
contents, `display_inst_adj` reports the base register number
`inst[2] >> 4` and computes the first-operand address `(D + B + X) mod 2^w`,
where `D` is the 12-bit displacement of `inst[2..3]`, `B` and `X` are the
contents of the base and index registers (0 for register number 0) and
`2^w - 1` is `ADDRESS_MAXWRAP`; no second operand is found. -/
theorem rx_first_operand_address (E : REGS → Nat) (trace2file : Bool) (iregs : REGS)
    (inst : List Nat) (pgmint : Bool) (w : Nat) (hlim : iregs.mainlim ≠ 0)
    (hbytes : ∀ k, inst.getD k 0 < 256)
    (h40 : 0x40 ≤ inst.getD 0 0) (h7F : inst.getD 0 0 ≤ 0x7F)
    (hw1 : 12 ≤ w) (hw2 : w ≤ 64) (hmask : ADDRESS_MAXWRAP iregs = 2 ^ w - 1) :
    ∃ d, display_inst_adj E trace2file iregs (some inst) pgmint = some d
      ∧ d.operands.b1 = ((inst.getD 2 0 >>> 4 : Nat) : Int)
      ∧ d.operands.b2 = -1
      ∧ d.operands.addr1
          = ((inst.getD 2 0 % 16 * 256 + inst.getD 3 0)
              + (if inst.getD 2 0 >>> 4 = 0 then 0 else iregs.GR (inst.getD 2 0 >>> 4))
              + (if inst.getD 1 0 &&& 0x0F = 0 then 0
                  else iregs.GR (inst.getD 1 0 &&& 0x0F))) % 2 ^ w := by
  refine ⟨_, display_inst_adj_eq E trace2file iregs inst pgmint hlim, ?_⟩
  rw [display_inst_adj_operands_rx E _ inst h40 h7F]
  refine ⟨rfl, rfl, ?_⟩
  simp only []
  rw [regs_maxwrap, hmask, (display_inst_adj_regs_fields iregs inst pgmint).1,
    disp12 _ _ (hbytes 3)]
  have hD := disp12_lt (inst.getD 2 0) (inst.getD 3 0) (hbytes 3)
  have hDw : inst.getD 2 0 % 16 * 256 + inst.getD 3 0 < 2 ^ w :=
    lt_of_lt_of_le hD (by
      have : (2 : Nat) ^ 12 ≤ 2 ^ w := Nat.pow_le_pow_right (by decide) hw1
      simpa using this)
  generalize inst.getD 2 0 % 16 * 256 + inst.getD 3 0 = D at hDw ⊢
  by_cases hb : inst.getD 2 0 >>> 4 = 0 <;> by_cases hx : inst.getD 1 0 &&& 0x0F = 0
  · rw [if_neg (not_not.mpr hx), if_neg (not_not.mpr hb), if_pos hb, if_pos hx]
    simp [Nat.mod_eq_of_lt hDw]
  · rw [if_pos hx, if_neg (not_not.mpr hb), if_pos hb, if_neg hx, add64_wrap _ _ _ hw2]
    simp
  · rw [if_neg (not_not.mpr hx), if_pos hb, if_neg hb, if_pos hx, add64_wrap _ _ _ hw2]
    simp
  · rw [if_pos hx, if_pos hb, if_neg hb, if_neg hx, add64_wrap _ _ _ hw2,
      add64_wrap _ _ _ hw2, Nat.mod_add_mod]

/-- Witness of `rx_first_operand_address`: the instruction `58 12 30 10`
(L 1,X'010'(2,3)) in the 31-bit mode, with register `r` holding
`0x1000 * r`: base register 3 and address 0x5010. -/
theorem rx_first_operand_address_witness :
    ∃ d, display_inst_adj ADDRESS_MAXWRAP false example_inst_regs
        (some [0x58, 0x12, 0x30, 0x10]) false = some d
      ∧ d.operands.b1 = 3 ∧ d.operands.b2 = -1 ∧ d.operands.addr1 = 0x5010 := by
  obtain ⟨d, h1, h2, h3, h4⟩ := rx_first_operand_address ADDRESS_MAXWRAP false
    example_inst_regs [0x58, 0x12, 0x30, 0x10] false 31 (by decide)
    (bytes_getD _ (by decide)) (by decide) (by decide) (by decide) (by decide) rfl
  exact ⟨d, h1, h2, h3, h4⟩

theorem display_inst_adj_operands_none (E : REGS → Nat) (regs : REGS) (inst : List Nat)
    (h : (inst.getD 0 0 = 0x84 ∨ inst.getD 0 0 = 0x85 ∨ inst.getD 0 0 = 0xA5
          ∨ inst.getD 0 0 = 0xA7 ∨ inst.getD 0 0 = 0xB3 ∨ inst.getD 0 0 = 0xEC)
      ∨ (inst.getD 0 0 = 0xC0 ∧ inst.getD 1 0 &&& 0x0F ≠ 0 ∧ inst.getD 1 0 &&& 0x0F ≠ 4
          ∧ inst.getD 1 0 &&& 0x0F ≠ 5)
      ∨ (inst.getD 0 0 = 0xE7 ∧ ¬ (inst.getD 5 0 ≤ 0x0B ∨ inst.getD 5 0 = 0x0E
          ∨ inst.getD 5 0 = 0x12 ∨ inst.getD 5 0 = 0x13 ∨ inst.getD 5 0 = 0x1A
          ∨ inst.getD 5 0 = 0x1B ∨ inst.getD 5 0 = 0x30 ∨ inst.getD 5 0 = 0x36
          ∨ inst.getD 5 0 = 0x37 ∨ inst.getD 5 0 = 0x3E ∨ inst.getD 5 0 = 0x3F))
      ∨ (inst.getD 0 0 = 0xE6 ∧ ¬ ((0x01 ≤ inst.getD 5 0 ∧ inst.getD 5 0 ≤ 0x07)
          ∨ (0x09 ≤ inst.getD 5 0 ∧ inst.getD 5 0 ≤ 0x0B) ∨ inst.getD 5 0 = 0x0E
          ∨ inst.getD 5 0 = 0x0F ∨ inst.getD 5 0 = 0x34 ∨ inst.getD 5 0 = 0x35
          ∨ inst.getD 5 0 = 0x3C ∨ inst.getD 5 0 = 0x3D))
      ∨ (ILC (inst.getD 0 0) = 2 ∧ inst.getD 0 0 ≠ 0x0E ∧ inst.getD 0 0 ≠ 0x0F)) :
    display_inst_adj_operands E regs inst = { b1 := -1, b2 := -1, addr1 := 0, addr2 := 0 } := by
  have hI := ILC_eq (inst.getD 0 0)
  have hbase : (inst.getD 0 0 = 0xE7 ∨ inst.getD 0 0 = 0xE6) →
      ∀ o, display_inst_adj_base regs inst o = o := by
    intro hv o
    unfold display_inst_adj_base
    simp only []
    rw [if_neg]
    rcases h with (h|h|h|h|h|h)|h|h|h|h <;> omega
  have hidx : (inst.getD 0 0 = 0xE7 ∨ inst.getD 0 0 = 0xE6) →
      ∀ o, display_inst_adj_index regs inst o = o := by
    intro hv o
    unfold display_inst_adj_index
    simp only []
    rw [if_neg]
    rcases h with (h|h|h|h|h|h)|h|h|h|h <;> omega
  have hvrv : (inst.getD 0 0 = 0xE7 ∨ inst.getD 0 0 = 0xE6) →
      ∀ o, display_inst_adj_vrv regs inst o = o := by
    intro hv o
    unfold display_inst_adj_vrv
    simp only []
    rw [if_neg]
    rcases h with (h|h|h|h|h|h)|h|h|h|h <;> omega
  have h1 : ∀ o, display_inst_adj_op1 regs inst o = o := by
    intro o
    unfold display_inst_adj_op1
    simp only []
    by_cases hv : inst.getD 0 0 = 0xE7 ∨ inst.getD 0 0 = 0xE6
    · rw [hbase hv, hidx hv, hvrv hv, ite_self]
    · rw [if_neg]
      rcases h with (h|h|h|h|h|h)|h|h|h|h <;> omega
  have h2 : ∀ o, display_inst_adj_op2 regs inst o = o := by
    intro o
    unfold display_inst_adj_op2
    simp only []
    rw [if_neg]
    rcases h with (h|h|h|h|h|h)|h|h|h|h <;> omega
  have h3 : ∀ o, display_inst_adj_mvcl regs inst o = o := by
    intro o
    unfold display_inst_adj_mvcl
    simp only []
    rw [if_neg]
    rcases h with (h|h|h|h|h|h)|h|h|h|h <;> omega
  have h4 : ∀ o, display_inst_adj_rre E regs inst o = o := by
    intro o
    unfold display_inst_adj_rre
    simp only []
    rw [if_neg]
    rcases h with (h|h|h|h|h|h)|h|h|h|h <;> omega
  have h5 : ∀ o, display_inst_adj_ril regs inst o = o := by
    intro o
    unfold display_inst_adj_ril
    simp only []
    rw [if_neg]
    rcases h with (h|h|h|h|h|h)|h|h|h|h <;> omega
  unfold display_inst_adj_operands
  simp only [h1, h2, h3, h4, h5]

/-- C25: for an instruction with opcode 0x84, 0x85, 0xA5, 0xA7, 0xB3 or
0xEC, or with opcode 0xC0 and the low four bits of `inst[1]` not 0, 4 or 5,
or with a vector opcode 0xE7 or 0xE6 and `inst[5]` not among the storage
forms of that opcode, and for a 2-byte instruction other than MVCL (0x0E)
and CLCL (0x0F), `display_inst_adj` finds no storage operand
(`b1 = b2 = -1`) and formats no line of operand storage. -/
theorem no_storage_operand (E : REGS → Nat) (trace2file : Bool) (iregs : REGS)
    (inst : List Nat) (pgmint : Bool) (hlim : iregs.mainlim ≠ 0)
    (h : (inst.getD 0 0 = 0x84 ∨ inst.getD 0 0 = 0x85 ∨ inst.getD 0 0 = 0xA5
          ∨ inst.getD 0 0 = 0xA7 ∨ inst.getD 0 0 = 0xB3 ∨ inst.getD 0 0 = 0xEC)
      ∨ (inst.getD 0 0 = 0xC0 ∧ inst.getD 1 0 &&& 0x0F ≠ 0 ∧ inst.getD 1 0 &&& 0x0F ≠ 4
          ∧ inst.getD 1 0 &&& 0x0F ≠ 5)
      ∨ (inst.getD 0 0 = 0xE7 ∧ ¬ (inst.getD 5 0 ≤ 0x0B ∨ inst.getD 5 0 = 0x0E
          ∨ inst.getD 5 0 = 0x12 ∨ inst.getD 5 0 = 0x13 ∨ inst.getD 5 0 = 0x1A
          ∨ inst.getD 5 0 = 0x1B ∨ inst.getD 5 0 = 0x30 ∨ inst.getD 5 0 = 0x36
          ∨ inst.getD 5 0 = 0x37 ∨ inst.getD 5 0 = 0x3E ∨ inst.getD 5 0 = 0x3F))
      ∨ (inst.getD 0 0 = 0xE6 ∧ ¬ ((0x01 ≤ inst.getD 5 0 ∧ inst.getD 5 0 ≤ 0x07)
          ∨ (0x09 ≤ inst.getD 5 0 ∧ inst.getD 5 0 ≤ 0x0B) ∨ inst.getD 5 0 = 0x0E
          ∨ inst.getD 5 0 = 0x0F ∨ inst.getD 5 0 = 0x34 ∨ inst.getD 5 0 = 0x35
          ∨ inst.getD 5 0 = 0x3C ∨ inst.getD 5 0 = 0x3D))
      ∨ (ILC (inst.getD 0 0) = 2 ∧ inst.getD 0 0 ≠ 0x0E ∧ inst.getD 0 0 ≠ 0x0F)) :
    ∃ d, display_inst_adj E trace2file iregs (some inst) pgmint = some d
      ∧ d.operands.b1 = -1 ∧ d.operands.b2 = -1 ∧ d.lines = [] := by
  refine ⟨_, display_inst_adj_eq E trace2file iregs inst pgmint hlim, ?_⟩
  rw [display_inst_adj_operands_none E _ inst h]
  refine ⟨rfl, rfl, ?_⟩
  unfold display_inst_adj_lines
  cases trace2file <;> simp

/-- Witness of `no_storage_operand`: the instruction `A7 F4 00 10` (a
relative branch). -/
theorem no_storage_operand_witness :
    ∃ d, display_inst_adj ADDRESS_MAXWRAP false example_inst_regs
        (some [0xA7, 0xF4, 0x00, 0x10]) false = some d
      ∧ d.operands.b1 = -1 ∧ d.operands.b2 = -1 ∧ d.lines = [] :=
  no_storage_operand ADDRESS_MAXWRAP false example_inst_regs [0xA7, 0xF4, 0x00, 0x10] false
    (by decide) (by decide)

theorem display_inst_adj_operands_rxy (E : REGS → Nat) (regs : REGS) (inst inst2 : List Nat)
    (hop : inst.getD 0 0 = 0xE3 ∨ inst.getD 0 0 = 0xEB)
    (hsame : ∀ k, k ≠ 4 → inst2.getD k 0 = inst.getD k 0) :
    display_inst_adj_operands E regs inst2 = display_inst_adj_operands E regs inst := by
  have hop2 : inst2.getD 0 0 = 0xE3 ∨ inst2.getD 0 0 = 0xEB := by
    rw [hsame 0 (by decide)]
    exact hop
  have hI := ILC_eq (inst.getD 0 0)
  have hI2 := ILC_eq (inst2.getD 0 0)
  have key : ∀ i : List Nat, (i.getD 0 0 = 0xE3 ∨ i.getD 0 0 = 0xEB) →
      display_inst_adj_operands E regs i
        = display_inst_adj_index regs i
            (display_inst_adj_base regs i { b1 := -1, b2 := -1, addr1 := 0, addr2 := 0 }) := by
    intro i hi
    have hIi := ILC_eq (i.getD 0 0)
    have hvrv : ∀ o, display_inst_adj_vrv regs i o = o := by
      intro o
      unfold display_inst_adj_vrv
      simp only []
      rw [if_neg]
      omega
    have h1 : ∀ o, display_inst_adj_op1 regs i o
        = display_inst_adj_vrv regs i
            (display_inst_adj_index regs i (display_inst_adj_base regs i o)) := by
      intro o
      unfold display_inst_adj_op1
      simp only []
      rw [if_pos]
      omega
    have h2 : ∀ o, display_inst_adj_op2 regs i o = o := by
      intro o
      unfold display_inst_adj_op2
      simp only []
      rw [if_neg]
      omega
    have h3 : ∀ o, display_inst_adj_mvcl regs i o = o := by
      intro o
      unfold display_inst_adj_mvcl
      simp only []
      rw [if_neg]
      omega
    have h4 : ∀ o, display_inst_adj_rre E regs i o = o := by
      intro o
      unfold display_inst_adj_rre
      simp only []
      rw [if_neg]
      omega
    have h5 : ∀ o, display_inst_adj_ril regs i o = o := by
      intro o
      unfold display_inst_adj_ril
      simp only []
      rw [if_neg]
      omega
    unfold display_inst_adj_operands
    simp only [h1, h2, h3, h4, h5, hvrv]
  rw [key inst hop, key inst2 hop2]
  unfold display_inst_adj_index display_inst_adj_base
  simp only [hsame 0 (by decide), hsame 1 (by decide), hsame 2 (by decide),
    hsame 3 (by decide), hsame 5 (by decide)]

/-- C30: for an instruction with opcode 0xE3 or 0xEB and any register
contents, what `display_inst_adj` computes does not depend on `inst[4]`:
two instructions that differ in that byte only give the same first-operand
address (and the same operands and lines altogether). -/
theorem long_displacement_high_byte_unused (E : REGS → Nat) (trace2file : Bool) (iregs : REGS)
    (inst inst2 : List Nat) (pgmint : Bool) (hlim : iregs.mainlim ≠ 0)
    (hop : inst.getD 0 0 = 0xE3 ∨ inst.getD 0 0 = 0xEB)
    (hsame : ∀ k, k ≠ 4 → inst2.getD k 0 = inst.getD k 0) :
    ∃ d d2, display_inst_adj E trace2file iregs (some inst) pgmint = some d
      ∧ display_inst_adj E trace2file iregs (some inst2) pgmint = some d2
      ∧ d2.operands.addr1 = d.operands.addr1 ∧ d2 = d := by
  have hregs : display_inst_adj_regs iregs inst2 pgmint = display_inst_adj_regs iregs inst pgmint := by
    unfold display_inst_adj_regs
    rw [hsame 0 (by decide)]
  have hd : display_inst_adj E trace2file iregs (some inst2) pgmint
      = display_inst_adj E trace2file iregs (some inst) pgmint := by
    rw [display_inst_adj_eq E trace2file iregs inst pgmint hlim,
      display_inst_adj_eq E trace2file iregs inst2 pgmint hlim, hregs,
      display_inst_adj_operands_rxy E _ inst inst2 hop hsame]
  exact ⟨_, _, display_inst_adj_eq E trace2file iregs inst pgmint hlim,
    hd.trans (display_inst_adj_eq E trace2file iregs inst pgmint hlim), rfl, rfl⟩

/-- Witness of `long_displacement_high_byte_unused`: `E3 12 30 10 00 04`
and `E3 12 30 10 7F 04` (LG with the high displacement byte 0x00 and
0x7F). -/
theorem long_displacement_high_byte_unused_witness :
    ∃ d d2, display_inst_adj ADDRESS_MAXWRAP false example_inst_regs
        (some [0xE3, 0x12, 0x30, 0x10, 0x00, 0x04]) false = some d
      ∧ display_inst_adj ADDRESS_MAXWRAP false example_inst_regs
        (some [0xE3, 0x12, 0x30, 0x10, 0x7F, 0x04]) false = some d2
      ∧ d2.operands.addr1 = d.operands.addr1 ∧ d2 = d :=
  long_displacement_high_byte_unused ADDRESS_MAXWRAP false example_inst_regs
    [0xE3, 0x12, 0x30, 0x10, 0x00, 0x04] [0xE3, 0x12, 0x30, 0x10, 0x7F, 0x04] false
    (by decide) (by decide)
    (fun k hk => by
      rcases k with _ | _ | _ | _ | _ | _ | k
      · rfl
      · rfl
      · rfl
      · rfl
      · exact absurd rfl hk
      · rfl
      · rfl)

end Hscmisc
